import Mathlib

/-!
# WiNoC-SOP: token-ring medium access control

A shallow embedding of `src/TokenRing.cpp` (the Token Ring Arbiter) and of
`src/BMACController.cpp` (the bidirectional MAC controller), followed by the
properties of the specification that concern them.

Conventions of the embedding:

* a `std::map<int, T>` is an association list `List (Int × T)` kept in key order;
  `operator[]` on a missing key inserts a value-initialised entry;
* a SystemC signal is the integer it holds at the clock edge, a write replaces it;
* a statement whose behaviour is undefined in C++ (null port, index outside a
  vector, remainder by zero) or a failed `assert` makes the step return `none`;
* `int` values are mathematical integers, `size_t` arithmetic is taken modulo `2^64`.
-/

namespace WiNoC

/-! ## Constants that live in headers outside the sources -/

/-- Values of the macros `RELEASE_CHANNEL`, `HOLD_CHANNEL` and `NOT_VALID`. They are
defined in `GlobalParams.h`, which is not among the sources, so the embedding takes
them as a parameter. -/
structure Consts where
  RELEASE_CHANNEL : Int
  HOLD_CHANNEL : Int
  NOT_VALID : Int
  deriving DecidableEq, Repr

/-- Sample values of the constants (those of upstream Noxim), used for concrete runs. -/
def sampleConsts : Consts := ⟨1, 2, -1⟩

/-- Modelled from the spec: policy tag macro `TOKEN_PACKET` of the missing header
`GlobalParams.h` (section 6, "exact strings used in config"). -/
def TOKEN_PACKET : String := "TOKEN_PACKET"

/-- Modelled from the spec: policy tag macro `TOKEN_HOLD` of the missing header. -/
def TOKEN_HOLD : String := "TOKEN_HOLD"

/-- Modelled from the spec: policy tag macro `TOKEN_MAX_HOLD` of the missing header. -/
def TOKEN_MAX_HOLD : String := "TOKEN_MAX_HOLD"

/-- Modelled from the spec: policy tag macro `BMAC_BIDIRECTIONAL` of the missing header. -/
def BMAC_BIDIRECTIONAL : String := "BMAC_BIDIRECTIONAL"

/-! ## Maps and vectors -/

/-- Lookup in a `std::map<int, T>` (`find`). -/
def mapFind {α : Type} : List (Int × α) → Int → Option α
  | [], _ => none
  | (k, v) :: rest, key => if k = key then some v else mapFind rest key

/-- Assignment `m[key] = v` in a `std::map<int, T>`: replaces the entry or inserts it
in key order. -/
def mapSet {α : Type} (key : Int) (v : α) : List (Int × α) → List (Int × α)
  | [] => [(key, v)]
  | (k, w) :: rest =>
    if k = key then (key, v) :: rest
    else if key < k then (key, v) :: (k, w) :: rest
    else (k, w) :: mapSet key v rest

/-- Element `v[i]` of a `std::vector<int>` for an `int` index; `none` outside the vector. -/
def vecAt (v : List Int) (i : Int) : Option Int :=
  if 0 ≤ i then v[i.toNat]? else none

/-! ## Configuration view -/

/-- The C library predicate `isspace` on the characters `atoi` skips. -/
def isspace (c : Char) : Bool :=
  c.toNat = 32 || (9 ≤ c.toNat && c.toNat ≤ 13)

/-- Digits loop of `atoi`: reads decimal digits until the first other character. -/
def atoiDigits : List Char → Int → Int
  | [], acc => acc
  | c :: cs, acc =>
    if 48 ≤ c.toNat ∧ c.toNat ≤ 57 then atoiDigits cs (10 * acc + ((c.toNat : Int) - 48))
    else acc

/-- The C library function `atoi` (the value is an `int` for every parameter that fits). -/
def atoi (s : String) : Int :=
  match s.toList.dropWhile isspace with
  | '-' :: cs => - atoiDigits cs 0
  | '+' :: cs => atoiDigits cs 0
  | cs => atoiDigits cs 0

/-- Entry of `GlobalParams::channel_configuration`. `cycles` stands for the value of
`ceil((1000*flit_size/dataRate) / clock_period_ps)`, a floating-point expression of
`attachHub` over fields that nothing else reads. -/
structure ChannelConfig where
  macPolicy : List String
  cycles : Int
  tokenRingOrder : List Int
  deriving DecidableEq, Repr

/-- Policy tag `macPolicy[0]`. -/
def ChannelConfig.tag (cfg : ChannelConfig) : Option String := cfg.macPolicy[0]?

/-- Policy parameter `atoi(macPolicy[1].c_str())`. -/
def ChannelConfig.param (cfg : ChannelConfig) : Option Int := (cfg.macPolicy[1]?).map atoi

/-! ## Token Ring Arbiter (`TokenRing.cpp`) -/

/-- State the arbiter keeps for one channel. The C++ class holds one map per field,
all keyed by the channel id and all filled by the first `attachHub` of the channel:
`token_position`, `rings_mapping`, `token_hold_count`, the ports
`current_token_holder` and `current_token_expiration` (here: the value of the bound
signal) and `flag` (hub id to the value of the hub's flag signal). -/
structure ChannelRing where
  token_position : Int
  rings_mapping : List Int
  token_hold_count : Int
  current_token_holder : Int
  current_token_expiration : Int
  flag : List (Int × Int)
  deriving DecidableEq, Repr

/-- State of the `TokenRing` module: the per-channel state and whether
`bmac_controller` is set (`setBMACController`). -/
structure TokenRing where
  channels : List (Int × ChannelRing)
  bmac_controller : Bool
  deriving DecidableEq, Repr

/-- Shared body of `updateTokenPacket` and of the fallback branch of `updateTokenBMAC`:
on `RELEASE_CHANNEL` read from the flag of the holder, move to the next position,
publish the new holder and write `HOLD_CHANNEL` to its flag. -/
def passOnRelease (M : Consts) (r : ChannelRing) : Option ChannelRing :=
  match vecAt r.rings_mapping r.token_position with
  | none => none
  | some token_holder =>
    match mapFind r.flag token_holder with
    | none => none
    | some f =>
      if f = M.RELEASE_CHANNEL then
        let num_hubs : Int := r.rings_mapping.length
        let pos := Int.tmod (r.token_position + 1) num_hubs
        match vecAt r.rings_mapping pos with
        | none => none
        | some new_token_holder =>
          match mapFind r.flag new_token_holder with
          | none => none
          | some _ =>
            some { r with
              token_position := pos
              current_token_holder := new_token_holder
              flag := mapSet new_token_holder M.HOLD_CHANNEL r.flag }
      else some r

/-- Handler `TokenRing::updateTokenPacket`. -/
def updateTokenPacket (M : Consts) (r : ChannelRing) : Option ChannelRing :=
  passOnRelease M r

/-- Advance of `updateTokenMaxHold` and `updateTokenHold`: reload the counter, move to
the next position and publish the holder found there. -/
def advanceHold (max_hold : Int) (r : ChannelRing) : Option ChannelRing :=
  let num_hubs : Int := r.rings_mapping.length
  if num_hubs = 0 then none
  else
    let pos := Int.tmod (r.token_position + 1) num_hubs
    match vecAt r.rings_mapping pos with
    | none => none
    | some h =>
      some { r with
        token_hold_count := max_hold
        token_position := pos
        current_token_holder := h }

/-- Last statement of the two hold handlers: publish the counter as expiration. -/
def writeExpiration (r : ChannelRing) : ChannelRing :=
  { r with current_token_expiration := r.token_hold_count }

/-- Condition of the `if` of `updateTokenMaxHold`, evaluated after the decrement; the
flag is read only when the counter is not zero, at the key `token_position`. -/
def maxHoldCondition (M : Consts) (r : ChannelRing) : Option Bool :=
  if r.token_hold_count - 1 = 0 then some true
  else
    match mapFind r.flag r.token_position with
    | none => none
    | some f => some (decide (f = M.RELEASE_CHANNEL))

/-- Handler `TokenRing::updateTokenMaxHold`. -/
def updateTokenMaxHold (M : Consts) (cfg : ChannelConfig) (r : ChannelRing) :
    Option ChannelRing :=
  match maxHoldCondition M r with
  | none => none
  | some true =>
    match cfg.param with
    | none => none
    | some max_hold => (advanceHold max_hold r).map writeExpiration
  | some false => some (writeExpiration { r with token_hold_count := r.token_hold_count - 1 })

/-- Handler `TokenRing::updateTokenHold`. -/
def updateTokenHold (cfg : ChannelConfig) (r : ChannelRing) : Option ChannelRing :=
  if r.token_hold_count - 1 = 0 then
    match cfg.param with
    | none => none
    | some max_hold => (advanceHold max_hold r).map writeExpiration
  else some (writeExpiration { r with token_hold_count := r.token_hold_count - 1 })

/-- Handler `TokenRing::updateTokenBMAC`: nothing when a controller is set, else the
packet-style fallback. -/
def updateTokenBMAC (M : Consts) (bmac_controller : Bool) (r : ChannelRing) :
    Option ChannelRing :=
  if bmac_controller then some r else passOnRelease M r

/-- Body of the loop of `updateTokens` with `reset` low: dispatch on the policy tag;
an unknown tag fails the assertion. -/
def updateChannel (M : Consts) (bmac_controller : Bool) (cfg : ChannelConfig)
    (r : ChannelRing) : Option ChannelRing :=
  match cfg.tag with
  | none => none
  | some macPolicy =>
    if macPolicy = TOKEN_PACKET then updateTokenPacket M r
    else if macPolicy = TOKEN_HOLD then updateTokenHold cfg r
    else if macPolicy = TOKEN_MAX_HOLD then updateTokenMaxHold M cfg r
    else if macPolicy = BMAC_BIDIRECTIONAL then updateTokenBMAC M bmac_controller r
    else none

/-- Body of the loop of `updateTokens` with `reset` high: publish `rings_mapping[c][0]`. -/
def resetChannel (r : ChannelRing) : Option ChannelRing :=
  match vecAt r.rings_mapping 0 with
  | none => none
  | some h => some { r with current_token_holder := h }

/-- Loop of `updateTokens` over `GlobalParams::channel_configuration`, applying `step`
to the state of each configured channel in turn. -/
def forChannels (step : ChannelConfig → ChannelRing → Option ChannelRing) :
    List (Int × ChannelConfig) → List (Int × ChannelRing) → Option (List (Int × ChannelRing))
  | [], chs => some chs
  | (c, cfg) :: rest, chs =>
    match mapFind chs c with
    | none => none
    | some r =>
      match step cfg r with
      | none => none
      | some r1 => forChannels step rest (mapSet c r1 chs)

/-- Process `TokenRing::updateTokens`, one call per clock edge. -/
def updateTokens (M : Consts) (cfgs : List (Int × ChannelConfig)) (reset : Bool)
    (t : TokenRing) : Option TokenRing :=
  if reset then
    (forChannels (fun _ r => resetChannel r) cfgs t.channels).map
      (fun chs => { t with channels := chs })
  else
    (forChannels (updateChannel M t.bmac_controller) cfgs t.channels).map
      (fun chs => { t with channels := chs })

/-- Counter loaded by the first `attachHub` of a channel: the policy parameter for a tag
other than `TOKEN_PACKET` and `BMAC_BIDIRECTIONAL` (after the latency assertion),
`10` for `BMAC_BIDIRECTIONAL`, `0` for `TOKEN_PACKET`. -/
def initialHoldCount (cfg : ChannelConfig) : Option Int :=
  match cfg.tag with
  | none => none
  | some macPolicy =>
    if macPolicy ≠ TOKEN_PACKET ∧ macPolicy ≠ BMAC_BIDIRECTIONAL then
      match cfg.param with
      | none => none
      | some max_hold_cycles => if cfg.cycles < max_hold_cycles then some max_hold_cycles else none
    else if macPolicy = BMAC_BIDIRECTIONAL then some 10
    else some 0

/-- Method `TokenRing::attachHub`: creates the channel state on the first call for the
channel (a fresh signal holds 0; a channel without configuration has no `macPolicy[0]`),
then adds the flag of the hub, appends the hub to the ring and publishes
`rings_mapping[channel][0]`. -/
def attachHub (cfgs : List (Int × ChannelConfig)) (channel hub : Int) (t : TokenRing) :
    Option TokenRing :=
  let created : Option ChannelRing :=
    match mapFind t.channels channel with
    | some r => some r
    | none =>
      match mapFind cfgs channel with
      | none => none
      | some cfg =>
        (initialHoldCount cfg).map (fun cnt =>
          { token_position := 0
            rings_mapping := []
            token_hold_count := cnt
            current_token_holder := 0
            current_token_expiration := 0
            flag := [] })
  match created with
  | none => none
  | some r =>
    let ring := r.rings_mapping ++ [hub]
    match vecAt ring 0 with
    | none => none
    | some starting_hub =>
      let attached : ChannelRing :=
        { r with
          flag := mapSet hub 0 r.flag
          rings_mapping := ring
          current_token_holder := starting_hub }
      some { t with channels := mapSet channel attached t.channels }

/-- Method `TokenRing::setBMACController`. -/
def setBMACController (controller : Bool) (t : TokenRing) : TokenRing :=
  { t with bmac_controller := controller }

/-! ### Clock ticks seen from one channel and from the whole arbiter -/

/-- Write of a hub to its own flag signal between two clock edges; a hub without a flag
on the channel writes nothing. -/
def hubWrite (hub value : Int) (r : ChannelRing) : ChannelRing :=
  match mapFind r.flag hub with
  | none => r
  | some _ => { r with flag := mapSet hub value r.flag }

/-- All writes `(hub, value)` of the hubs of one channel between two clock edges. -/
def hubWrites : List (Int × Int) → ChannelRing → ChannelRing
  | [], r => r
  | (hub, value) :: rest, r => hubWrites rest (hubWrite hub value r)

/-- Consecutive ticks with `reset` low as seen by one channel: before each tick the hubs
write their flags, then the loop body of `updateTokens` runs for the channel. -/
def channelRun (M : Consts) (bmac_controller : Bool) (cfg : ChannelConfig) :
    List (List (Int × Int)) → ChannelRing → Option ChannelRing
  | [], r => some r
  | w :: ws, r =>
    match updateChannel M bmac_controller cfg (hubWrites w r) with
    | none => none
    | some r1 => channelRun M bmac_controller cfg ws r1

/-- The state of a channel without the flag signals, which the hubs drive. -/
def withoutFlags (r : ChannelRing) : ChannelRing := { r with flag := [] }

/-- Inputs of one clock edge of the arbiter: the `reset` line and the values the hubs
wrote to their flag signals since the previous edge, as `(channel, hub, value)`. -/
structure TickInput where
  reset : Bool
  writes : List (Int × Int × Int)
  deriving DecidableEq, Repr

/-- Write of a hub to its flag on a channel of the arbiter. -/
def writeFlag (channel hub value : Int) (t : TokenRing) : TokenRing :=
  match mapFind t.channels channel with
  | none => t
  | some r => { t with channels := mapSet channel (hubWrite hub value r) t.channels }

/-- All flag writes of the hubs between two clock edges. -/
def writeFlags : List (Int × Int × Int) → TokenRing → TokenRing
  | [], t => t
  | (channel, hub, value) :: rest, t => writeFlags rest (writeFlag channel hub value t)

/-- One clock edge of the arbiter. -/
def tick (M : Consts) (cfgs : List (Int × ChannelConfig)) (i : TickInput) (t : TokenRing) :
    Option TokenRing :=
  updateTokens M cfgs i.reset (writeFlags i.writes t)

/-- A sequence of clock edges. -/
def run (M : Consts) (cfgs : List (Int × ChannelConfig)) :
    List TickInput → TokenRing → Option TokenRing
  | [], t => some t
  | i :: rest, t =>
    match tick M cfgs i t with
    | none => none
    | some t1 => run M cfgs rest t1

/-- Elaboration: the hubs attach themselves, `(channel, hub)` in order of construction. -/
def attachAll (cfgs : List (Int × ChannelConfig)) : List (Int × Int) → TokenRing → Option TokenRing
  | [], t => some t
  | (channel, hub) :: rest, t =>
    match attachHub cfgs channel hub t with
    | none => none
    | some t1 => attachAll cfgs rest t1

/-- Initial states of the arbiter: a module with empty maps to which hubs were attached
and whose controller pointer was set or left null. -/
def Initial (cfgs : List (Int × ChannelConfig)) (t : TokenRing) : Prop :=
  ∃ hubs bm t0, attachAll cfgs hubs ⟨[], false⟩ = some t0 ∧ t = setBMACController bm t0

/-- States reachable from an initial state by clock edges, with `reset` high or low. -/
def Reachable (M : Consts) (cfgs : List (Int × ChannelConfig)) (s : TokenRing) : Prop :=
  ∃ t ins, Initial cfgs t ∧ run M cfgs ins t = some s

/-- Keys of `GlobalParams::channel_configuration` are distinct (it is a `std::map`). -/
@[reducible] def DistinctChannels (cfgs : List (Int × ChannelConfig)) : Prop :=
  (cfgs.map Prod.fst).Nodup

/-- Policies for which `attachHub` loads the counter from the policy parameter: every tag
but `TOKEN_PACKET` and `BMAC_BIDIRECTIONAL`. -/
def ChannelConfig.holdBased (cfg : ChannelConfig) : Prop :=
  cfg.tag ≠ some TOKEN_PACKET ∧ cfg.tag ≠ some BMAC_BIDIRECTIONAL

/-- Start-up states: reached from an initial state by clock edges that all have `reset`
high. -/
def StartUp (M : Consts) (cfgs : List (Int × ChannelConfig)) (s : TokenRing) : Prop :=
  ∃ t ins, Initial cfgs t ∧ (∀ i ∈ ins, i.reset = true) ∧ run M cfgs ins t = some s

/-- Channel state as the calls of `attachHub` leave it: token at position 0, `ring[0]`
published, counter as loaded by the first call. -/
def AttachState (cfgs : List (Int × ChannelConfig)) (c : Int) (r : ChannelRing) : Prop :=
  r.token_position = 0 ∧ vecAt r.rings_mapping 0 = some r.current_token_holder ∧
  ∃ cfg, mapFind cfgs c = some cfg ∧ initialHoldCount cfg = some r.token_hold_count

/-- Bounds on the token position and the hold counter of a channel, the latter under the
proviso that a hold-based policy has a parameter of at least 1. -/
def Bounded (cfgs : List (Int × ChannelConfig)) (c : Int) (r : ChannelRing) : Prop :=
  0 ≤ r.token_position ∧ r.token_position < r.rings_mapping.length ∧
  ∀ cfg, mapFind cfgs c = some cfg →
    (cfg.holdBased → ∀ m, cfg.param = some m → 1 ≤ m) →
    0 ≤ r.token_hold_count ∧ (cfg.holdBased → 1 ≤ r.token_hold_count)

/-! ## Bidirectional MAC controller (`BMACController.h`, `BMACController.cpp`) -/

/-- Macro `BMAC_IDLE`. -/
def BMAC_IDLE : Int := 0

/-- Macro `BMAC_TOKEN_HOLD`. -/
def BMAC_TOKEN_HOLD : Int := 1

/-- Macro `BMAC_TRANSMITTING`. -/
def BMAC_TRANSMITTING : Int := 2

/-- Macro `BMAC_RECEIVING`. -/
def BMAC_RECEIVING : Int := 3

/-- Macro `BMAC_CLOCKWISE`. -/
def BMAC_CLOCKWISE : Int := 0

/-- Macro `BMAC_COUNTERCLOCKWISE`. -/
def BMAC_COUNTERCLOCKWISE : Int := 1

/-- Conversion of an `int` to `size_t`. -/
def sizeT (x : Int) : Nat := (x % 2 ^ 64).toNat

/-- Value `m[key]` read through `operator[]`: the default when the key is missing. -/
def mapAt {α : Type} (dflt : α) (m : List (Int × α)) (key : Int) : α :=
  (mapFind m key).getD dflt

/-- Map after `operator[]` was applied to `key`: a missing key is inserted with the
value-initialised entry. -/
def mapTouch {α : Type} (dflt : α) (m : List (Int × α)) (key : Int) : List (Int × α) :=
  match mapFind m key with
  | some _ => m
  | none => mapSet key dflt m

/-- The struct `BMACState`. -/
structure BMACState where
  hub_id : Int
  current_state : Int
  token_direction : Int
  token_hold_cycles : Int
  bidirectional_mode : Bool
  has_token : Bool
  next_hub_cw : Int
  next_hub_ccw : Int
  deriving DecidableEq, Repr

/-- Value-initialised `BMACState`, what `hub_states[k]` inserts for a missing key. -/
def BMACState.zero : BMACState := ⟨0, 0, 0, 0, false, false, 0, 0⟩

/-- Members of the module `BMACController`, with the part of
`GlobalParams::hub_configuration` that `updateTokenRing` reads through `operator[]`
(hub id to `toTileBufferSize`). -/
structure BMACController where
  hub_states : List (Int × BMACState)
  token_ring_order : List (Int × List Int)
  current_token_holder : List (Int × Int)
  token_direction : List (Int × Int)
  hub_configuration : List (Int × Int)
  deriving DecidableEq, Repr

/-- Access `hub_states[hub]` as far as the map is concerned. -/
def touchHub (b : BMACController) (hub : Int) : BMACController :=
  { b with hub_states := mapTouch BMACState.zero b.hub_states hub }

/-- Value of `hub_states[hub]`. -/
def hubState (b : BMACController) (hub : Int) : BMACState :=
  mapAt BMACState.zero b.hub_states hub

/-- Assignment to `hub_states[hub]`. -/
def setHubState (b : BMACController) (hub : Int) (st : BMACState) : BMACController :=
  { b with hub_states := mapSet hub st b.hub_states }

/-- Method `BMACController::isTransmissionComplete` (its caller has already accessed
`hub_states[hub_id]`). -/
def isTransmissionComplete (b : BMACController) (hub_id : Int) : Bool :=
  decide ((hubState b hub_id).token_hold_cycles > 5)

/-- Loop of `shouldReverseDirection` from index `i` on: counts the hubs that are not idle
as forward or backward, comparing the index with `(size_t)hub_id`. -/
def countPending (current_direction hub_id : Int) :
    List Int → Nat → BMACController × Int × Int → BMACController × Int × Int
  | [], _, acc => acc
  | hub :: rest, i, (b, forward, backward) =>
    let b1 := touchHub b hub
    if (hubState b1 hub).current_state ≠ BMAC_IDLE then
      if current_direction = BMAC_CLOCKWISE then
        if i > sizeT hub_id then
          countPending current_direction hub_id rest (i + 1) (b1, forward + 1, backward)
        else countPending current_direction hub_id rest (i + 1) (b1, forward, backward + 1)
      else
        if i < sizeT hub_id then
          countPending current_direction hub_id rest (i + 1) (b1, forward + 1, backward)
        else countPending current_direction hub_id rest (i + 1) (b1, forward, backward + 1)
    else countPending current_direction hub_id rest (i + 1) (b1, forward, backward)

/-- Method `BMACController::shouldReverseDirection`, with the controller after the map
accesses. -/
def shouldReverseDirection (channel hub_id : Int) (b : BMACController) :
    Bool × BMACController :=
  let b1 := { b with token_ring_order := mapTouch [] b.token_ring_order channel }
  let ring_order := mapAt [] b1.token_ring_order channel
  let b2 := { b1 with token_direction := mapTouch 0 b1.token_direction channel }
  let current_direction := mapAt 0 b2.token_direction channel
  let res := countPending current_direction hub_id ring_order 0 (b2, 0, 0)
  (decide (res.2.2 > res.2.1), res.1)

/-- Search loop of `getNextHub`: index of the first occurrence of the hub, `NOT_VALID`
when there is none. -/
def findHub (NOT_VALID current_hub : Int) : List Int → Int → Int
  | [], _ => NOT_VALID
  | h :: rest, i => if h = current_hub then i else findHub NOT_VALID current_hub rest (i + 1)

/-- Method `BMACController::getNextHub`. The index computed is inside the vector whenever
the search found the hub, so the default of the final access is never used. -/
def getNextHub (M : Consts) (b : BMACController) (channel current_hub direction : Int) : Int :=
  match mapFind b.token_ring_order channel with
  | none => M.NOT_VALID
  | some ring_order =>
    let current_pos := findHub M.NOT_VALID current_hub ring_order 0
    if current_pos = M.NOT_VALID then M.NOT_VALID
    else
      let next_pos : Nat :=
        if direction = BMAC_CLOCKWISE then sizeT (current_pos + 1) % ring_order.length
        else ((sizeT (current_pos - 1) + ring_order.length) % 2 ^ 64) % ring_order.length
      (ring_order[next_pos]?).getD 0

/-- Method `BMACController::passBidirectionalToken`. -/
def passBidirectionalToken (M : Consts) (channel current_holder : Int) (b : BMACController) :
    BMACController :=
  let b1 := { b with token_direction := mapTouch 0 b.token_direction channel }
  let direction := mapAt 0 b1.token_direction channel
  let rev := shouldReverseDirection channel current_holder b1
  let direction1 :=
    if rev.1 then (if direction = BMAC_CLOCKWISE then BMAC_COUNTERCLOCKWISE else BMAC_CLOCKWISE)
    else direction
  let b2 : BMACController :=
    if rev.1 then { rev.2 with token_direction := mapSet channel direction1 rev.2.token_direction }
    else rev.2
  let next_hub := getNextHub M b2 channel current_holder direction1
  if next_hub ≠ M.NOT_VALID then
    let b3 := { b2 with current_token_holder := mapSet channel next_hub b2.current_token_holder }
    let b4 := setHubState b3 current_holder
      { (hubState b3 current_holder) with
        has_token := false, current_state := BMAC_IDLE, token_hold_cycles := 0 }
    setHubState b4 next_hub
      { (hubState b4 next_hub) with has_token := true, current_state := BMAC_TOKEN_HOLD }
  else b2

/-- `GlobalParams::hub_configuration` after the access `hub_configuration[current_holder]`
of `updateTokenRing`. -/
def touchHubConfiguration (hubcfg : List (Int × Int)) (current_holder : Int) :
    List (Int × Int) :=
  mapTouch 0 hubcfg current_holder

/-- Value of `max_hold_cycles` in `updateTokenRing`: `toTileBufferSize` read through
`operator[]`, replaced by 10 when `find` then sees the key. -/
def maxHoldCycles (hubcfg : List (Int × Int)) (current_holder : Int) : Int :=
  let accessed := touchHubConfiguration hubcfg current_holder
  if (mapFind accessed current_holder).isSome then 10 else mapAt 0 accessed current_holder

/-- Method `BMACController::updateTokenRing` (the call of `optimizeTokenPath` only logs). -/
def updateTokenRing (M : Consts) (channel : Int) (b : BMACController) : BMACController :=
  match mapFind b.token_ring_order channel with
  | none => b
  | some _ =>
    let b1 := { b with current_token_holder := mapTouch 0 b.current_token_holder channel }
    let current_holder := mapAt 0 b1.current_token_holder channel
    let b2 := touchHub b1 current_holder
    let hub_state := hubState b2 current_holder
    if hub_state.current_state = BMAC_TOKEN_HOLD then
      let b3 := { b2 with
        hub_configuration := touchHubConfiguration b2.hub_configuration current_holder }
      let max_hold_cycles := maxHoldCycles b2.hub_configuration current_holder
      if isTransmissionComplete b3 current_holder ∨ hub_state.token_hold_cycles ≥ max_hold_cycles
      then passBidirectionalToken M channel current_holder b3
      else setHubState b3 current_holder
        { hub_state with token_hold_cycles := hub_state.token_hold_cycles + 1 }
    else if hub_state.current_state = BMAC_IDLE then
      passBidirectionalToken M channel current_holder b2
    else b2

/-- Second loop of the reset branch of `bmacProcess`, over the entries of
`current_token_holder`. -/
def resetHolders : List (Int × Int) → BMACController → BMACController
  | [], b => b
  | (channel, _) :: rest, b =>
    let b1 := { b with token_ring_order := mapTouch [] b.token_ring_order channel }
    let ring := mapAt [] b1.token_ring_order channel
    if ring.length > 0 then
      resetHolders rest
        { b1 with current_token_holder := mapSet channel (ring.headD 0) b1.current_token_holder }
    else resetHolders rest b1

/-- Loop of the other branch of `bmacProcess`, over the entries of `token_ring_order`. -/
def updateTokenRings (M : Consts) : List (Int × List Int) → BMACController → BMACController
  | [], b => b
  | (channel, _) :: rest, b => updateTokenRings M rest (updateTokenRing M channel b)

/-- Process `BMACController::bmacProcess`, one call per clock edge. -/
def bmacProcess (M : Consts) (reset : Bool) (b : BMACController) : BMACController :=
  if reset then
    let b1 := { b with hub_states := b.hub_states.map (fun e =>
      (e.1, { e.2 with current_state := BMAC_IDLE, has_token := false, token_hold_cycles := 0 })) }
    resetHolders b1.current_token_holder b1
  else updateTokenRings M b.token_ring_order b

/-- Loop of `configureBMACRing` from index `i` on. -/
def configureHubs (hub_order : List Int) :
    List Int → Nat → List (Int × BMACState) → List (Int × BMACState)
  | [], _, hs => hs
  | hub_id :: rest, i, hs =>
    let state : BMACState :=
      { hub_id := hub_id
        current_state := BMAC_IDLE
        token_direction := BMAC_CLOCKWISE
        token_hold_cycles := 0
        bidirectional_mode := true
        has_token := decide (i = 0)
        next_hub_cw := (hub_order[(i + 1) % hub_order.length]?).getD 0
        next_hub_ccw :=
          (hub_order[((sizeT ((i : Int) - 1) + hub_order.length) % 2 ^ 64)
            % hub_order.length]?).getD 0 }
    configureHubs hub_order rest (i + 1) (mapSet hub_id state hs)

/-- Method `BMACController::configureBMACRing`. -/
def configureBMACRing (channel : Int) (hub_order : List Int) (b : BMACController) :
    BMACController :=
  { b with
    token_ring_order := mapSet channel hub_order b.token_ring_order
    hub_states := configureHubs hub_order hub_order 0 b.hub_states }

/-- Loop of `enableBidirectionalMode`. -/
def enableHubs (enable : Bool) : List Int → List (Int × BMACState) → List (Int × BMACState)
  | [], hs => hs
  | hub_id :: rest, hs =>
    enableHubs enable rest
      (mapSet hub_id { (mapAt BMACState.zero hs hub_id) with bidirectional_mode := enable } hs)

/-- Method `BMACController::enableBidirectionalMode`. -/
def enableBidirectionalMode (channel : Int) (enable : Bool) (b : BMACController) :
    BMACController :=
  match mapFind b.token_ring_order channel with
  | none => b
  | some ring_order => { b with hub_states := enableHubs enable ring_order b.hub_states }

/-- Fallback ring order of `initializeBMAC`. -/
def defaultHubOrder : List Int := [0, 1, 2, 3, 7, 6, 5, 9, 10, 11, 15, 14, 13, 12, 8, 4]

/-- Method `BMACController::initializeBMAC`, the loop over the channel configuration. -/
def initializeBMAC : List (Int × ChannelConfig) → BMACController → BMACController
  | [], b => b
  | (channel, config) :: rest, b =>
    if config.macPolicy.length > 0 ∧ config.macPolicy[0]? = some BMAC_BIDIRECTIONAL then
      let hub_order :=
        if config.tokenRingOrder.length > 0 then config.tokenRingOrder else defaultHubOrder
      let b1 := enableBidirectionalMode channel true (configureBMACRing channel hub_order b)
      initializeBMAC rest
        { b1 with
          current_token_holder := mapSet channel (hub_order.headD 0) b1.current_token_holder
          token_direction := mapSet channel BMAC_CLOCKWISE b1.token_direction }
    else initializeBMAC rest b

/-- Constructor of `BMACController`: empty maps, then `initializeBMAC`; `hubcfg` is the
content of `GlobalParams::hub_configuration`. -/
def BMACController.init (cfgs : List (Int × ChannelConfig)) (hubcfg : List (Int × Int)) :
    BMACController :=
  initializeBMAC cfgs ⟨[], [], [], [], hubcfg⟩

/-- Consecutive clock edges of the controller with `reset` low. -/
def bmacRun (M : Consts) : Nat → BMACController → BMACController
  | 0, b => b
  | k + 1, b => bmacRun M k (bmacProcess M false b)

/-- One clock edge of the arbiter and of the controller, which are clocked and reset
together. -/
def systemTick (M : Consts) (cfgs : List (Int × ChannelConfig)) (i : TickInput)
    (s : TokenRing × BMACController) : Option (TokenRing × BMACController) :=
  (tick M cfgs i s.1).map (fun t => (t, bmacProcess M i.reset s.2))

/-! ### Scenario D of the specification -/

/-- Configuration of scenario D: one `BMAC_BIDIRECTIONAL` channel, hold window 10, ring
`[0, 1, 2, 3]`. -/
def scenarioD : List (Int × ChannelConfig) :=
  [(0, ⟨["BMAC_BIDIRECTIONAL", "10"], 0, [0, 1, 2, 3]⟩)]

/-- Controller state of scenario D while hub 1 holds the token clockwise and has counted
`c` hold cycles; `hubcfg` is the content of `GlobalParams::hub_configuration`. -/
def scenarioDHolding (c : Int) (hubcfg : List (Int × Int)) : BMACController :=
  ⟨[(0, ⟨0, 0, 0, 0, true, false, 1, 3⟩), (1, ⟨1, 1, 0, c, true, true, 2, 0⟩),
      (2, ⟨2, 0, 0, 0, true, false, 3, 1⟩), (3, ⟨3, 0, 0, 0, true, false, 0, 2⟩)],
    [(0, [0, 1, 2, 3])], [(0, 1)], [(0, 0)], hubcfg⟩

/-- Controller state of scenario D after hub 1 has passed the token back: hub 0 holds it in
state `BMAC_TOKEN_HOLD` and the direction is counter-clockwise. -/
def scenarioDReturned (hubcfg : List (Int × Int)) : BMACController :=
  ⟨[(0, ⟨0, 1, 0, 0, true, true, 1, 3⟩), (1, ⟨1, 0, 0, 0, true, false, 2, 0⟩),
      (2, ⟨2, 0, 0, 0, true, false, 3, 1⟩), (3, ⟨3, 0, 0, 0, true, false, 0, 2⟩)],
    [(0, [0, 1, 2, 3])], [(0, 0)], [(0, 1)], hubcfg⟩

/-- Configuration of scenario D with the hold window 3 as policy parameter. -/
def scenarioDWindow3 : List (Int × ChannelConfig) :=
  [(0, ⟨["BMAC_BIDIRECTIONAL", "3"], 0, [0, 1, 2, 3]⟩)]

/-! ### Scenario E of the specification -/

/-- Controller states of scenario E: ring `[0, 1, 2, 3, 4, 5]`, holder hub 3, direction
clockwise, hub 1 in state `BMAC_TOKEN_HOLD`, every other hub idle; the other fields of the
hub states are those of `s0`, ..., `s5`. -/
def scenarioE (s0 s1 s2 s3 s4 s5 : BMACState) (hubcfg : List (Int × Int)) : BMACController :=
  ⟨[(0, { s0 with current_state := BMAC_IDLE }), (1, { s1 with current_state := BMAC_TOKEN_HOLD }),
      (2, { s2 with current_state := BMAC_IDLE }), (3, { s3 with current_state := BMAC_IDLE }),
      (4, { s4 with current_state := BMAC_IDLE }), (5, { s5 with current_state := BMAC_IDLE })],
    [(0, [0, 1, 2, 3, 4, 5])], [(0, 3)], [(0, BMAC_CLOCKWISE)], hubcfg⟩

/-- Ring order `initializeBMAC` uses for a channel: the configured one, or the fallback
when none is configured. -/
def ChannelConfig.hubOrder (cfg : ChannelConfig) : List Int :=
  if cfg.tokenRingOrder.length > 0 then cfg.tokenRingOrder else defaultHubOrder

/-- Every entry of `hub_states` is in state `BMAC_IDLE`. -/
def AllIdle (hs : List (Int × BMACState)) : Prop :=
  ∀ e ∈ hs, e.2.current_state = BMAC_IDLE

/-! ## Distance-aware routing (`routingAlgorithms/Routing_DA_BMAC.cpp`) -/

/-- The struct `Coord` of grid coordinates (declared in a header outside the sources). -/
structure Coord where
  x : Int
  y : Int
  deriving DecidableEq, Repr

/-- The fields of `RouteData` that `Routing_DA_BMAC::route` reads. -/
structure RouteData where
  current_id : Int
  dst_id : Int
  deriving DecidableEq, Repr

/-- What the routing algorithm reads from outside the sources: the fields `mesh_dim_x`,
`da_threshold` and `use_winoc` of `GlobalParams`, the value of the macro `DIRECTION_HUB`, and
the algorithm registered as "XY" (`none` when `RoutingAlgorithms::get` returns null), which
is a function of the route data. -/
structure RoutingEnv where
  mesh_dim_x : Int
  da_threshold : Int
  use_winoc : Bool
  DIRECTION_HUB : Int
  xy : Option (RouteData → List Int)

/-- The C library function `abs`. -/
def cabs (x : Int) : Int := if x < 0 then -x else x

/-- Method `Routing_DA_BMAC::id2Coord`; the remainder by a zero mesh width is undefined. -/
def id2Coord (E : RoutingEnv) (id : Int) : Option Coord :=
  if E.mesh_dim_x = 0 then none
  else some ⟨Int.tmod id E.mesh_dim_x, Int.tdiv id E.mesh_dim_x⟩

/-- Method `Routing_DA_BMAC::getHubId`. -/
def getHubId (M : Consts) (E : RoutingEnv) (node_id : Int) : Option Int :=
  match id2Coord E node_id with
  | none => none
  | some coord =>
    let hub_x := Int.tdiv coord.x 2
    let hub_y := Int.tdiv coord.y 2
    if hub_x ≥ 0 ∧ hub_x < 4 ∧ hub_y ≥ 0 ∧ hub_y < 4 then some (hub_y * 4 + hub_x)
    else some M.NOT_VALID

/-- Method `Routing_DA_BMAC::canHubsCommunicate`. -/
def canHubsCommunicate (hub1_id hub2_id : Int) : Bool :=
  if hub1_id = hub2_id then false else true

/-- Method `Routing_DA_BMAC::getWirelessDirection`. -/
def getWirelessDirection (M : Consts) (E : RoutingEnv) (current_id destination_id : Int) :
    Option Int :=
  match getHubId M E current_id with
  | none => none
  | some current_hub_id =>
    match getHubId M E destination_id with
    | none => none
    | some destination_hub_id =>
      if current_hub_id = M.NOT_VALID ∨ destination_hub_id = M.NOT_VALID then some M.NOT_VALID
      else if canHubsCommunicate current_hub_id destination_hub_id then some E.DIRECTION_HUB
      else some M.NOT_VALID

/-- Method `Routing_DA_BMAC::routeXY`: the assertion fails when no "XY" algorithm is
registered. -/
def routeXY (E : RoutingEnv) (route_data : RouteData) : Option (List Int) :=
  match E.xy with
  | none => none
  | some xy => some (xy route_data)

/-- Manhattan distance computed by `Routing_DA_BMAC::route`. -/
def manhattanDistance (a b : Coord) : Int :=
  cabs (a.x - b.x) + cabs (a.y - b.y)

/-- Method `Routing_DA_BMAC::route`. -/
def route (M : Consts) (E : RoutingEnv) (route_data : RouteData) : Option (List Int) :=
  match id2Coord E route_data.current_id with
  | none => none
  | some current_coord =>
    match id2Coord E route_data.dst_id with
    | none => none
    | some destination_coord =>
      let manhattan_distance := manhattanDistance current_coord destination_coord
      let distance_threshold := E.da_threshold
      if manhattan_distance > distance_threshold ∧ E.use_winoc = true then
        match getWirelessDirection M E route_data.current_id route_data.dst_id with
        | none => none
        | some wireless_direction =>
          if wireless_direction ≠ M.NOT_VALID then some [wireless_direction]
          else routeXY E route_data
      else routeXY E route_data

/-- Sample routing parameters: the canonical 8 by 8 mesh with threshold 5, wireless
enabled, 5 for `DIRECTION_HUB` and a stand-in for the XY algorithm. -/
def sampleRouting : RoutingEnv := ⟨8, 5, true, 5, some (fun _ => [1])⟩

/-- A configuration with two channels whose rings `[0, 1]` and `[14, 15]` are disjoint. -/
def twoDisjointRings : List (Int × ChannelConfig) :=
  [(0, ⟨["TOKEN_PACKET"], 0, [0, 1]⟩), (1, ⟨["TOKEN_PACKET"], 0, [14, 15]⟩)]

/-! ## Failures of a clock edge of the arbiter told apart -/

/-- The entries of a `std::map<int, T>` are in increasing key order. -/
@[reducible] def SortedKeys {α : Type} (m : List (Int × α)) : Prop :=
  (m.map Prod.fst).Pairwise (fun a b => a < b)

/-- Body of the second loop of the reset branch of `bmacProcess` for one channel. -/
def resetHolder (channel : Int) (b : BMACController) : BMACController :=
  let b1 := { b with token_ring_order := mapTouch [] b.token_ring_order channel }
  let ring := mapAt [] b1.token_ring_order channel
  if ring.length > 0 then
    { b1 with current_token_holder := mapSet channel (ring.headD 0) b1.current_token_holder }
  else b1

/-- The channel has a ring, and when the ring is not empty its holder is `ring[0]`. -/
def HolderAtHead (b : BMACController) (c : Int) : Prop :=
  ∃ ring, mapFind b.token_ring_order c = some ring ∧
    (ring.length > 0 → mapFind b.current_token_holder c = some (ring.headD 0))

/-- Clock edges of the controller, one for each element of `resets`, the value `reset` has
at that edge. -/
def bmacTicks (M : Consts) : List Bool → BMACController → BMACController
  | [], b => b
  | reset :: rest, b => bmacTicks M rest (bmacProcess M reset b)

/-- Every hub, read through `hub_states[x]`, has between 0 and 6 hold cycles. -/
def HoldBounded (hs : List (Int × BMACState)) : Prop :=
  ∀ x, 0 ≤ (mapAt BMACState.zero hs x).token_hold_cycles ∧
    (mapAt BMACState.zero hs x).token_hold_cycles ≤ 6

/-- Every hub, read through `hub_states[x]`, is idle with no hold cycle counted. -/
def Fresh (hs : List (Int × BMACState)) : Prop :=
  ∀ x, (mapAt BMACState.zero hs x).current_state = BMAC_IDLE ∧
    (mapAt BMACState.zero hs x).token_hold_cycles = 0

/-- The three assignments of `passBidirectionalToken` to `hub_states[current_holder]`. -/
def releaseToken (st : BMACState) : BMACState :=
  { st with has_token := false, current_state := BMAC_IDLE, token_hold_cycles := 0 }

/-- The two assignments of `passBidirectionalToken` to `hub_states[next_hub]`. -/
def acquireToken (st : BMACState) : BMACState :=
  { st with has_token := true, current_state := BMAC_TOKEN_HOLD }

/-- The increment `hub_state.token_hold_cycles++` of `updateTokenRing`. -/
def countHold (st : BMACState) : BMACState :=
  { st with token_hold_cycles := st.token_hold_cycles + 1 }

/-- Controller states with the single ring `ring`, on channel `c`, whose holder `h` is a hub
of the ring and in which no other hub has a hold cycle counted. -/
def RingState (c : Int) (ring : List Int) (h : Int) (b : BMACController) : Prop :=
  ∃ hs d hc, b = ⟨hs, [(c, ring)], [(c, h)], [(c, d)], hc⟩ ∧ h ∈ ring ∧
    ∀ x, x ≠ h → (mapAt BMACState.zero hs x).token_hold_cycles = 0

/-- Two `BMAC_BIDIRECTIONAL` channels whose rings are both `[0, 1]`. -/
def twoSharedRings : List (Int × ChannelConfig) :=
  [(0, ⟨["BMAC_BIDIRECTIONAL", "10"], 0, [0, 1]⟩), (1, ⟨["BMAC_BIDIRECTIONAL", "10"], 0, [0, 1]⟩)]

/-- The ring `[0, 1, ..., n - 1]`. -/
def ringUpTo (n : Nat) : List Int := (List.range n).map Int.ofNat

/-- Controller states of a single ring `[0, ..., n - 1]` in which every hub but the holder
is idle without the token, and the holder is hub 0, idle, with the direction clockwise, or
hub 1 in state `BMAC_TOKEN_HOLD` with the direction clockwise, or hub 0 in state
`BMAC_TOKEN_HOLD` with the direction counter-clockwise. -/
def PingPong (c : Int) (n : Nat) (b : BMACController) : Prop :=
  ∃ hs h d hc, b = ⟨hs, [(c, ringUpTo n)], [(c, h)], [(c, d)], hc⟩ ∧
    (∀ x, x ≠ h → (mapAt BMACState.zero hs x).current_state = BMAC_IDLE ∧
      (mapAt BMACState.zero hs x).has_token = false) ∧
    ((h = 0 ∧ d = BMAC_CLOCKWISE ∧ (mapAt BMACState.zero hs 0).current_state = BMAC_IDLE) ∨
      (h = 1 ∧ d = BMAC_CLOCKWISE ∧
        (mapAt BMACState.zero hs 1).current_state = BMAC_TOKEN_HOLD) ∨
      (h = 0 ∧ d = BMAC_COUNTERCLOCKWISE ∧
        (mapAt BMACState.zero hs 0).current_state = BMAC_TOKEN_HOLD))

/-! ## Properties -/

section Maps

variable {α : Type}

theorem mapFind_mapSet_self (key : Int) (v : α) (m : List (Int × α)) :
    mapFind (mapSet key v m) key = some v := by
  induction m with
  | nil => simp [mapSet, mapFind]
  | cons e rest ih =>
    obtain ⟨k, w⟩ := e
    by_cases h1 : k = key
    · simp [mapSet, mapFind, h1]
    · by_cases h2 : key < k
      · simp [mapSet, mapFind, h1, h2]
      · simp [mapSet, mapFind, h1, h2, ih]

theorem mapFind_mapSet_ne (key other : Int) (v : α) (m : List (Int × α))
    (hne : key ≠ other) : mapFind (mapSet key v m) other = mapFind m other := by
  induction m with
  | nil => simp [mapSet, mapFind, hne]
  | cons e rest ih =>
    obtain ⟨k, w⟩ := e
    by_cases h1 : k = key
    · have h3 : k ≠ other := by rw [h1]; exact hne
      simp [mapSet, mapFind, h1, hne, h3]
    · by_cases h2 : key < k
      · simp [mapSet, mapFind, h1, h2, hne]
      · simp [mapSet, mapFind, h1, h2, ih]

end Maps

theorem vecAt_of_lt (v : List Int) (i : Int) (h0 : 0 ≤ i) (hlt : i < v.length) :
    ∃ x, vecAt v i = some x ∧ x ∈ v := by
  have hn : i.toNat < v.length := by omega
  refine ⟨v[i.toNat], ?_, List.getElem_mem _⟩
  simp [vecAt, h0, hn]

theorem vecAt_some_iff_bounds {v : List Int} {i x : Int} (h : vecAt v i = some x) :
    0 ≤ i ∧ i < v.length ∧ x ∈ v := by
  unfold vecAt at h
  split at h
  · rename_i h0
    obtain ⟨hn, hx⟩ := List.getElem?_eq_some_iff.mp h
    exact ⟨h0, by omega, hx ▸ List.getElem_mem _⟩
  · cases h

theorem next_position_bounds (p n : Int) (hp : 0 ≤ p) (hn : p < n) :
    Int.tmod (p + 1) n = (p + 1) % n ∧ 0 ≤ (p + 1) % n ∧ (p + 1) % n < n := by
  have hn0 : 0 < n := by omega
  refine ⟨?_, Int.emod_nonneg _ (by omega), Int.emod_lt_of_pos _ hn0⟩
  exact Int.tmod_eq_emod (by omega) (by omega)

/-- **C1** (`TokenRing::updateTokenPacket`). For a channel whose token position is inside a
non-empty ring and whose ring members all have a flag, with `h` the incumbent
`ring[token_index]`: if the flag of `h` reads `RELEASE_CHANNEL` the tick returns a state
whose `token_index` is `(token_index + 1) mod |ring|`, whose published holder is the hub
at the new index and in which the flag of that hub is `HOLD_CHANNEL`; if the flag of `h`
reads anything else the tick returns the state unchanged (index, published holder and
every flag). -/
theorem updateTokenPacket_release_or_keep (M : Consts) (r : ChannelRing) (h : Int)
    (hpos : 0 ≤ r.token_position) (hlt : r.token_position < r.rings_mapping.length)
    (hflags : ∀ x ∈ r.rings_mapping, (mapFind r.flag x).isSome = true)
    (hinc : vecAt r.rings_mapping r.token_position = some h) :
    (mapFind r.flag h = some M.RELEASE_CHANNEL →
      ∃ r1 h1, updateTokenPacket M r = some r1 ∧
        r1.rings_mapping = r.rings_mapping ∧
        r1.token_position = (r.token_position + 1) % r.rings_mapping.length ∧
        vecAt r1.rings_mapping r1.token_position = some h1 ∧
        r1.current_token_holder = h1 ∧
        mapFind r1.flag h1 = some M.HOLD_CHANNEL) ∧
    (mapFind r.flag h ≠ some M.RELEASE_CHANNEL → updateTokenPacket M r = some r) := by
  obtain ⟨hmod, hlo, hhi⟩ := next_position_bounds _ _ hpos hlt
  constructor
  · intro hrel
    obtain ⟨h1, hh1, hmem⟩ := vecAt_of_lt r.rings_mapping _ hlo hhi
    obtain ⟨f1, hf1⟩ := Option.isSome_iff_exists.mp (hflags h1 hmem)
    refine ⟨{ r with
        token_position := (r.token_position + 1) % r.rings_mapping.length
        current_token_holder := h1
        flag := mapSet h1 M.HOLD_CHANNEL r.flag }, h1, ?_, rfl, rfl, hh1, rfl,
      mapFind_mapSet_self _ _ _⟩
    simp [updateTokenPacket, passOnRelease, hinc, hrel, hmod, hh1, hf1]
  · intro hne
    obtain ⟨f, hf⟩ := Option.isSome_iff_exists.mp (hflags h (vecAt_some_iff_bounds hinc).2.2)
    have hfr : f ≠ M.RELEASE_CHANNEL := by
      intro hEq
      exact hne (by rw [hf, hEq])
    simp [updateTokenPacket, passOnRelease, hinc, hf, hfr]

/-- Witness of **C1**: ring `[0, 1, 2]` at position 0 with the flag of hub 0 released. -/
theorem updateTokenPacket_release_or_keep_witness :
    (mapFind [(0, 1), (1, 2), (2, 2)] 0 = some sampleConsts.RELEASE_CHANNEL →
      ∃ r1 h1, updateTokenPacket sampleConsts ⟨0, [0, 1, 2], 0, 0, 0, [(0, 1), (1, 2), (2, 2)]⟩
          = some r1 ∧
        r1.rings_mapping = [0, 1, 2] ∧
        r1.token_position = (0 + 1) % ([0, 1, 2] : List Int).length ∧
        vecAt r1.rings_mapping r1.token_position = some h1 ∧
        r1.current_token_holder = h1 ∧
        mapFind r1.flag h1 = some sampleConsts.HOLD_CHANNEL) ∧
    (mapFind [(0, 1), (1, 2), (2, 2)] 0 ≠ some sampleConsts.RELEASE_CHANNEL →
      updateTokenPacket sampleConsts ⟨0, [0, 1, 2], 0, 0, 0, [(0, 1), (1, 2), (2, 2)]⟩
        = some ⟨0, [0, 1, 2], 0, 0, 0, [(0, 1), (1, 2), (2, 2)]⟩) :=
  updateTokenPacket_release_or_keep sampleConsts ⟨0, [0, 1, 2], 0, 0, 0, [(0, 1), (1, 2), (2, 2)]⟩ 0
    (by decide) (by decide) (by decide) (by decide)

/-! ### TokenHold -/

theorem hubWrite_withoutFlags (hub value : Int) (r : ChannelRing) :
    withoutFlags (hubWrite hub value r) = withoutFlags r := by
  unfold hubWrite
  cases mapFind r.flag hub <;> rfl

theorem hubWrites_withoutFlags (w : List (Int × Int)) (r : ChannelRing) :
    withoutFlags (hubWrites w r) = withoutFlags r := by
  induction w generalizing r with
  | nil => rfl
  | cons e rest ih =>
    obtain ⟨hub, value⟩ := e
    simp only [hubWrites]
    rw [ih, hubWrite_withoutFlags]

theorem withoutFlags_fields {a b : ChannelRing} (h : withoutFlags a = withoutFlags b) :
    a.token_position = b.token_position ∧ a.rings_mapping = b.rings_mapping ∧
    a.token_hold_count = b.token_hold_count ∧
    a.current_token_holder = b.current_token_holder ∧
    a.current_token_expiration = b.current_token_expiration := by
  cases a; cases b
  simp only [withoutFlags, ChannelRing.mk.injEq] at h
  simp [h]

theorem updateChannel_tokenHold (M : Consts) (bm : Bool) (cfg : ChannelConfig)
    (r : ChannelRing) (htag : cfg.tag = some TOKEN_HOLD) :
    updateChannel M bm cfg r = updateTokenHold cfg r := by
  have h1 : TOKEN_HOLD ≠ TOKEN_PACKET := by decide
  simp [updateChannel, htag, h1]

/-- One `updateTokenHold` step on a well-formed channel, in closed form. -/
theorem updateTokenHold_step (cfg : ChannelConfig) (max_hold : Int) (r : ChannelRing)
    (hparam : cfg.param = some max_hold)
    (hpos : 0 ≤ r.token_position) (hlt : r.token_position < r.rings_mapping.length) :
    (r.token_hold_count - 1 = 0 →
      ∃ h, vecAt r.rings_mapping ((r.token_position + 1) % r.rings_mapping.length) = some h ∧
        updateTokenHold cfg r = some { r with
          token_hold_count := max_hold
          token_position := (r.token_position + 1) % r.rings_mapping.length
          current_token_holder := h
          current_token_expiration := max_hold }) ∧
    (r.token_hold_count - 1 ≠ 0 →
      updateTokenHold cfg r = some { r with
        token_hold_count := r.token_hold_count - 1
        current_token_expiration := r.token_hold_count - 1 }) := by
  obtain ⟨hmod, hlo, hhi⟩ := next_position_bounds _ _ hpos hlt
  constructor
  · intro hz
    obtain ⟨h1, hh1, -⟩ := vecAt_of_lt r.rings_mapping _ hlo hhi
    refine ⟨h1, hh1, ?_⟩
    have hn : (r.rings_mapping.length : Int) ≠ 0 := by omega
    simp [updateTokenHold, hz, hparam, advanceHold, hn, hmod, hh1, writeExpiration]
  · intro hz
    simp [updateTokenHold, hz, writeExpiration]

/-- Closed form of a TokenHold run that starts `j` ticks into a quantum. -/
theorem tokenHold_run_from (M : Consts) (bm : Bool) (cfg : ChannelConfig) (max_hold : Int)
    (htag : cfg.tag = some TOKEN_HOLD) (hparam : cfg.param = some max_hold) :
    ∀ (ws : List (List (Int × Int))) (r : ChannelRing) (j : Int),
      0 ≤ j → j < max_hold → r.token_hold_count = max_hold - j →
      0 ≤ r.token_position → r.token_position < r.rings_mapping.length →
      ∃ r1, channelRun M bm cfg ws r = some r1 ∧
        r1.rings_mapping = r.rings_mapping ∧
        r1.token_position
          = (r.token_position + (j + ws.length) / max_hold) % r.rings_mapping.length ∧
        r1.token_hold_count = max_hold - (j + ws.length) % max_hold ∧
        (r.current_token_expiration = r.token_hold_count ∨ 1 ≤ ws.length →
          r1.current_token_expiration = r1.token_hold_count) ∧
        (vecAt r.rings_mapping r.token_position = some r.current_token_holder →
          vecAt r1.rings_mapping r1.token_position = some r1.current_token_holder) := by
  intro ws
  induction ws with
  | nil =>
    intro r j hj0 hj1 hcnt hpos hlt
    refine ⟨r, rfl, rfl, ?_, ?_, ?_, fun h => h⟩
    · simp only [List.length_nil, Nat.cast_zero, add_zero]
      rw [Int.ediv_eq_zero_of_lt hj0 hj1, add_zero, Int.emod_eq_of_lt hpos hlt]
    · simp only [List.length_nil, Nat.cast_zero, add_zero]
      rw [Int.emod_eq_of_lt hj0 hj1, hcnt]
    · intro h
      rcases h with h | h
      · exact h
      · simp at h
  | cons w ws ih =>
    intro r j hj0 hj1 hcnt hpos hlt
    obtain ⟨e1, e2, e3, e4, e5⟩ := withoutFlags_fields (hubWrites_withoutFlags w r)
    have hpos0 : 0 ≤ (hubWrites w r).token_position := by rw [e1]; exact hpos
    have hlt0 : (hubWrites w r).token_position < (hubWrites w r).rings_mapping.length := by
      rw [e1, e2]; exact hlt
    obtain ⟨hadv, hkeep⟩ := updateTokenHold_step cfg max_hold (hubWrites w r) hparam hpos0 hlt0
    have hmax : 0 < max_hold := by omega
    obtain ⟨hmod, hlo, hhi⟩ := next_position_bounds _ _ hpos hlt
    simp only [channelRun, updateChannel_tokenHold M bm cfg _ htag]
    by_cases hz : (hubWrites w r).token_hold_count - 1 = 0
    · obtain ⟨h, hh, hstep⟩ := hadv hz
      rw [hstep]
      have hj : j = max_hold - 1 := by rw [e3, hcnt] at hz; omega
      obtain ⟨r1, hr1, hring, hp1, hc1, hex1, hho1⟩ :=
        ih { (hubWrites w r) with
              token_hold_count := max_hold
              token_position := ((hubWrites w r).token_position + 1)
                % (hubWrites w r).rings_mapping.length
              current_token_holder := h
              current_token_expiration := max_hold } 0 (le_refl 0) hmax (by simp)
          (by simp only [e1, e2]; exact hlo) (by simp only [e1, e2]; exact hhi)
      refine ⟨r1, hr1, ?_, ?_, ?_, ?_, ?_⟩
      · rw [hring]; exact e2
      · rw [hp1]
        simp only [e1, e2, List.length_cons, Nat.cast_add, Nat.cast_one, zero_add]
        have hq : (j + ((ws.length : Int) + 1)) / max_hold = (ws.length : Int) / max_hold + 1 := by
          rw [hj]
          have : max_hold - 1 + ((ws.length : Int) + 1) = (ws.length : Int) + max_hold := by ring
          rw [this, Int.add_ediv_of_dvd_right (dvd_refl _), Int.ediv_self (by omega)]
        rw [hq, Int.emod_add_emod]
        congr 1
        ring
      · rw [hc1]
        simp only [List.length_cons, Nat.cast_add, Nat.cast_one, zero_add]
        have : j + ((ws.length : Int) + 1) = (ws.length : Int) + max_hold := by rw [hj]; ring
        rw [this, Int.add_emod_self]
      · intro _
        exact hex1 (Or.inl rfl)
      · intro _
        apply hho1
        simp only [e1, e2] at hh ⊢
        exact hh
    · rw [hkeep hz]
      have hj : j + 1 < max_hold := by rw [e3, hcnt] at hz; omega
      obtain ⟨r1, hr1, hring, hp1, hc1, hex1, hho1⟩ :=
        ih { (hubWrites w r) with
              token_hold_count := (hubWrites w r).token_hold_count - 1
              current_token_expiration := (hubWrites w r).token_hold_count - 1 } (j + 1)
          (by omega) hj (by simp only [e3, hcnt]; ring)
          (by simp only [e1]; exact hpos) (by simp only [e1, e2]; exact hlt)
      refine ⟨r1, hr1, ?_, ?_, ?_, ?_, ?_⟩
      · rw [hring]; exact e2
      · rw [hp1]
        simp only [e1, e2, List.length_cons, Nat.cast_add, Nat.cast_one]
        congr 3
        ring
      · rw [hc1]
        simp only [List.length_cons, Nat.cast_add, Nat.cast_one]
        congr 2
        ring
      · intro _
        exact hex1 (Or.inl rfl)
      · intro hh
        apply hho1
        simp only [e1, e2, e4]
        exact hh

/-- **C2**, the claim at `k = 0`: on the ring `[0, 1]` with `TOKEN_HOLD` and parameter 3,
the state the two calls of `attachHub` leave has counter 3 and published expiration 0,
since the expiration port is written by the handler only; no tick has run, and the claimed
expiration `3 - (0 mod 3)` is 3. -/
theorem tokenHold_expiration_before_first_tick :
    attachAll [(0, ⟨["TOKEN_HOLD", "3"], 1, []⟩)] [(0, 0), (0, 1)] ⟨[], false⟩
      = some ⟨[(0, ⟨0, [0, 1], 3, 0, 0, [(0, 0), (1, 0)]⟩)], false⟩ ∧
    channelRun sampleConsts false ⟨["TOKEN_HOLD", "3"], 1, []⟩ []
        ⟨0, [0, 1], 3, 0, 0, [(0, 0), (1, 0)]⟩
      = some ⟨0, [0, 1], 3, 0, 0, [(0, 0), (1, 0)]⟩ ∧
    (⟨0, [0, 1], 3, 0, 0, [(0, 0), (1, 0)]⟩ : ChannelRing).token_hold_count = 3 ∧
    (⟨0, [0, 1], 3, 0, 0, [(0, 0), (1, 0)]⟩ : ChannelRing).current_token_expiration = 0 ∧
    (⟨0, [0, 1], 3, 0, 0, [(0, 0), (1, 0)]⟩ : ChannelRing).current_token_expiration
      ≠ 3 - (([] : List (List (Int × Int))).length : Int) % 3 := by
  refine ⟨?_, ?_, ?_, ?_, ?_⟩ <;> decide

/-- **C2** as amended (`TokenRing::updateTokenHold`). For a channel with policy `TOKEN_HOLD`
and parameter `max_cycles ≥ 1` and a non-empty ring, starting from the initial state
(`token_index = 0`, `hold_countdown = max_cycles`, published holder `ring[0]`), every run of
`k` consecutive ticks with `reset` low returns a state with
`token_index = (k div max_cycles) mod |ring|` and
`hold_countdown = max_cycles - (k mod max_cycles)`; once a tick has run (`k ≥ 1`) the
published expiration has that same value, and the published holder is `ring[token_index]`.
The hubs may write any values to their flags between the ticks. -/
theorem tokenHold_quantum (M : Consts) (bm : Bool) (cfg : ChannelConfig) (max_cycles : Int)
    (r : ChannelRing) (ws : List (List (Int × Int)))
    (htag : cfg.tag = some TOKEN_HOLD) (hparam : cfg.param = some max_cycles)
    (hmax : 1 ≤ max_cycles) (hring : r.rings_mapping ≠ [])
    (hpos : r.token_position = 0) (hcnt : r.token_hold_count = max_cycles)
    (hholder : vecAt r.rings_mapping 0 = some r.current_token_holder) :
    ∃ r1, channelRun M bm cfg ws r = some r1 ∧
      r1.token_position = ((ws.length : Int) / max_cycles) % r.rings_mapping.length ∧
      r1.token_hold_count = max_cycles - (ws.length : Int) % max_cycles ∧
      (1 ≤ ws.length →
        r1.current_token_expiration = max_cycles - (ws.length : Int) % max_cycles) ∧
      vecAt r.rings_mapping r1.token_position = some r1.current_token_holder := by
  have hlen : 0 < r.rings_mapping.length := List.length_pos.mpr hring
  obtain ⟨r1, hr1, hring1, hp1, hc1, hex1, hho1⟩ :=
    tokenHold_run_from M bm cfg max_cycles htag hparam ws r 0 (le_refl 0) (by omega)
      (by rw [hcnt]; ring) (by rw [hpos]) (by rw [hpos]; exact_mod_cast hlen)
  refine ⟨r1, hr1, ?_, ?_, ?_, ?_⟩
  · rw [hp1, hpos, zero_add, zero_add]
  · rw [hc1, zero_add]
  · intro hk
    rw [hex1 (Or.inr hk), hc1, zero_add]
  · rw [← hring1]
    exact hho1 (by rw [hpos]; exact hholder)

/-- Witness of **C2** as amended: ring `[0, 1]`, `TOKEN_HOLD` with parameter 3, three ticks. -/
theorem tokenHold_quantum_witness :
    ∃ r1, channelRun sampleConsts false ⟨["TOKEN_HOLD", "3"], 1, []⟩ [[], [], []]
        ⟨0, [0, 1], 3, 0, 0, [(0, 0), (1, 0)]⟩ = some r1 ∧
      r1.token_position = (((3 : Nat) : Int) / 3) % (([0, 1] : List Int).length : Int) ∧
      r1.token_hold_count = 3 - ((3 : Nat) : Int) % 3 ∧
      (1 ≤ 3 → r1.current_token_expiration = 3 - ((3 : Nat) : Int) % 3) ∧
      vecAt [0, 1] r1.token_position = some r1.current_token_holder :=
  tokenHold_quantum sampleConsts false ⟨["TOKEN_HOLD", "3"], 1, []⟩ 3
    ⟨0, [0, 1], 3, 0, 0, [(0, 0), (1, 0)]⟩ [[], [], []]
    (by decide) (by decide) (by decide) (by decide) (by decide) (by decide) (by decide)

/-! ### TokenMaxHold -/

/-- **C3** (`TokenRing::updateTokenMaxHold`), the code at the failing input. Ring `[1, 0]`
with the token at position 0, so the incumbent is hub 1; `TOKEN_MAX_HOLD` with parameter 5
and counter 5; the flag of the incumbent hub 1 reads `RELEASE_CHANNEL`, the flag of hub 0
reads `HOLD_CHANNEL`. The handler reads the flag stored under key `token_position = 0`, that
of hub 0, and does not advance: position and holder stay, the counter goes to 4. -/
theorem updateTokenMaxHold_ignores_incumbent_release (M : Consts)
    (hne : M.HOLD_CHANNEL ≠ M.RELEASE_CHANNEL) :
    vecAt [1, 0] 0 = some 1 ∧
    mapFind [(0, M.HOLD_CHANNEL), (1, M.RELEASE_CHANNEL)] 1 = some M.RELEASE_CHANNEL ∧
    updateTokenMaxHold M ⟨["TOKEN_MAX_HOLD", "5"], 1, []⟩
        ⟨0, [1, 0], 5, 1, 5, [(0, M.HOLD_CHANNEL), (1, M.RELEASE_CHANNEL)]⟩
      = some ⟨0, [1, 0], 4, 1, 4, [(0, M.HOLD_CHANNEL), (1, M.RELEASE_CHANNEL)]⟩ := by
  refine ⟨by decide, by simp [mapFind], ?_⟩
  simp [updateTokenMaxHold, maxHoldCondition, mapFind, hne, writeExpiration]

/-- Witness of the evaluation for **C3** at the sample constants. -/
theorem updateTokenMaxHold_ignores_incumbent_release_witness :
    vecAt [1, 0] 0 = some 1 ∧
    mapFind [(0, sampleConsts.HOLD_CHANNEL), (1, sampleConsts.RELEASE_CHANNEL)] 1
      = some sampleConsts.RELEASE_CHANNEL ∧
    updateTokenMaxHold sampleConsts ⟨["TOKEN_MAX_HOLD", "5"], 1, []⟩
        ⟨0, [1, 0], 5, 1, 5, [(0, sampleConsts.HOLD_CHANNEL), (1, sampleConsts.RELEASE_CHANNEL)]⟩
      = some ⟨0, [1, 0], 4, 1, 4,
          [(0, sampleConsts.HOLD_CHANNEL), (1, sampleConsts.RELEASE_CHANNEL)]⟩ :=
  updateTokenMaxHold_ignores_incumbent_release sampleConsts (by decide)

/-- **C4** (`TokenRing::updateTokenMaxHold`). Whenever the condition of the handler holds,
that is the decremented counter is zero or the flag it samples reads `RELEASE_CHANNEL` (or
both on the same tick), the tick on a well-formed channel returns a state in which
`token_index` is `(token_index + 1) mod |ring|`, the published holder is the hub at that
index, and `hold_countdown` and the published expiration both equal `max_cycles`. -/
theorem updateTokenMaxHold_single_advance (M : Consts) (cfg : ChannelConfig)
    (max_cycles : Int) (r : ChannelRing)
    (hparam : cfg.param = some max_cycles)
    (hpos : 0 ≤ r.token_position) (hlt : r.token_position < r.rings_mapping.length)
    (hadv : r.token_hold_count - 1 = 0 ∨
      mapFind r.flag r.token_position = some M.RELEASE_CHANNEL) :
    ∃ r1 h1, updateTokenMaxHold M cfg r = some r1 ∧
      r1.rings_mapping = r.rings_mapping ∧
      r1.token_position = (r.token_position + 1) % r.rings_mapping.length ∧
      vecAt r1.rings_mapping r1.token_position = some h1 ∧
      r1.current_token_holder = h1 ∧
      r1.token_hold_count = max_cycles ∧
      r1.current_token_expiration = max_cycles := by
  obtain ⟨hmod, hlo, hhi⟩ := next_position_bounds _ _ hpos hlt
  obtain ⟨h1, hh1, -⟩ := vecAt_of_lt r.rings_mapping _ hlo hhi
  have hn : (r.rings_mapping.length : Int) ≠ 0 := by omega
  have hcond : maxHoldCondition M r = some true := by
    unfold maxHoldCondition
    by_cases hz : r.token_hold_count - 1 = 0
    · simp [hz]
    · rcases hadv with h | h
      · exact absurd h hz
      · simp [hz, h]
  refine ⟨{ r with
      token_hold_count := max_cycles
      token_position := (r.token_position + 1) % r.rings_mapping.length
      current_token_holder := h1
      current_token_expiration := max_cycles }, h1, ?_, rfl, rfl, hh1, rfl, rfl, rfl⟩
  simp [updateTokenMaxHold, hcond, hparam, advanceHold, hn, hmod, hh1, writeExpiration]

/-- Witness of **C4**: ring `[0, 1, 2]`, parameter 5, hub 0 releases on the second tick. -/
theorem updateTokenMaxHold_single_advance_witness :
    ∃ r1 h1, updateTokenMaxHold sampleConsts ⟨["TOKEN_MAX_HOLD", "5"], 1, []⟩
        ⟨0, [0, 1, 2], 4, 0, 4, [(0, 1), (1, 2), (2, 2)]⟩ = some r1 ∧
      r1.rings_mapping = [0, 1, 2] ∧
      r1.token_position = (0 + 1) % (([0, 1, 2] : List Int).length : Int) ∧
      vecAt r1.rings_mapping r1.token_position = some h1 ∧
      r1.current_token_holder = h1 ∧
      r1.token_hold_count = 5 ∧
      r1.current_token_expiration = 5 :=
  updateTokenMaxHold_single_advance sampleConsts ⟨["TOKEN_MAX_HOLD", "5"], 1, []⟩ 5
    ⟨0, [0, 1, 2], 4, 0, 4, [(0, 1), (1, 2), (2, 2)]⟩
    (by decide) (by decide) (by decide) (Or.inr (by decide))

/-! ### TokenHold and the request flags -/

theorem updateTokenHold_withoutFlags (cfg : ChannelConfig) (r : ChannelRing) :
    (updateTokenHold cfg r).map withoutFlags = updateTokenHold cfg (withoutFlags r) := by
  unfold updateTokenHold
  have hcnt : (withoutFlags r).token_hold_count = r.token_hold_count := rfl
  rw [hcnt]
  by_cases hz : r.token_hold_count - 1 = 0
  · simp only [hz, if_true]
    cases cfg.param with
    | none => rfl
    | some max_hold =>
      simp only [advanceHold]
      have hr : (withoutFlags r).rings_mapping = r.rings_mapping := rfl
      have hp : (withoutFlags r).token_position = r.token_position := rfl
      rw [hr, hp]
      by_cases hn : (r.rings_mapping.length : Int) = 0
      · simp [hn]
      · simp only [hn, if_false]
        cases vecAt r.rings_mapping (Int.tmod (r.token_position + 1) r.rings_mapping.length)
          <;> rfl
  · simp only [hz, if_false]
    rfl

theorem tokenHold_run_withoutFlags (M : Consts) (bm : Bool) (cfg : ChannelConfig)
    (htag : cfg.tag = some TOKEN_HOLD) :
    ∀ (ws1 ws2 : List (List (Int × Int))) (a b : ChannelRing),
      ws1.length = ws2.length → withoutFlags a = withoutFlags b →
      (channelRun M bm cfg ws1 a).map withoutFlags
        = (channelRun M bm cfg ws2 b).map withoutFlags := by
  intro ws1
  induction ws1 with
  | nil =>
    intro ws2 a b hlen hab
    cases ws2 with
    | nil => simp [channelRun, hab]
    | cons _ _ => simp at hlen
  | cons w1 ws1 ih =>
    intro ws2 a b hlen hab
    cases ws2 with
    | nil => simp at hlen
    | cons w2 ws2 =>
      have hlen1 : ws1.length = ws2.length := by simpa using hlen
      have hstep : (updateTokenHold cfg (hubWrites w1 a)).map withoutFlags
          = (updateTokenHold cfg (hubWrites w2 b)).map withoutFlags := by
        rw [updateTokenHold_withoutFlags, updateTokenHold_withoutFlags,
          hubWrites_withoutFlags, hubWrites_withoutFlags, hab]
      simp only [channelRun, updateChannel_tokenHold M bm cfg _ htag]
      cases h1 : updateTokenHold cfg (hubWrites w1 a) with
      | none =>
        cases h2 : updateTokenHold cfg (hubWrites w2 b) with
        | none => rfl
        | some y => rw [h1, h2] at hstep; cases hstep
      | some x =>
        cases h2 : updateTokenHold cfg (hubWrites w2 b) with
        | none => rw [h1, h2] at hstep; cases hstep
        | some y =>
          rw [h1, h2] at hstep
          exact ih ws2 x y hlen1 (by simpa using hstep)

/-- **C5** (`TokenRing::updateTokenHold`). For a `TOKEN_HOLD` channel, two runs that start
from the same channel state and differ only in what the hubs write to their request flags
before each tick agree after every number of ticks on everything but the flags:
`token_index`, `hold_countdown`, the ring, the published holder and the published
expiration (and one run fails exactly when the other does). -/
theorem tokenHold_ignores_flags (M : Consts) (bm : Bool) (cfg : ChannelConfig)
    (r : ChannelRing) (ws1 ws2 : List (List (Int × Int)))
    (htag : cfg.tag = some TOKEN_HOLD) (hlen : ws1.length = ws2.length) :
    (channelRun M bm cfg ws1 r).map withoutFlags
      = (channelRun M bm cfg ws2 r).map withoutFlags :=
  tokenHold_run_withoutFlags M bm cfg htag ws1 ws2 r r hlen rfl

/-- Witness of **C5**: ring `[0, 1]`, parameter 2; hub 0 keeps releasing in the first run
and keeps holding in the second. -/
theorem tokenHold_ignores_flags_witness :
    (channelRun sampleConsts false ⟨["TOKEN_HOLD", "2"], 1, []⟩ [[(0, 1)], [(0, 1)]]
        ⟨0, [0, 1], 2, 0, 0, [(0, 0), (1, 0)]⟩).map withoutFlags
      = (channelRun sampleConsts false ⟨["TOKEN_HOLD", "2"], 1, []⟩ [[(0, 2)], [(0, 2)]]
        ⟨0, [0, 1], 2, 0, 0, [(0, 0), (1, 0)]⟩).map withoutFlags :=
  tokenHold_ignores_flags sampleConsts false ⟨["TOKEN_HOLD", "2"], 1, []⟩
    ⟨0, [0, 1], 2, 0, 0, [(0, 0), (1, 0)]⟩ [[(0, 1)], [(0, 1)]] [[(0, 2)], [(0, 2)]]
    (by decide) (by decide)

/-! ### The whole arbiter: generic facts about the loops -/

theorem mapFind_of_mem {α : Type} (m : List (Int × α)) (hk : (m.map Prod.fst).Nodup)
    (k : Int) (v : α) (hmem : (k, v) ∈ m) : mapFind m k = some v := by
  induction m with
  | nil => cases hmem
  | cons e rest ih =>
    obtain ⟨k0, v0⟩ := e
    simp only [List.map_cons, List.nodup_cons] at hk
    rcases List.mem_cons.mp hmem with h | h
    · cases h
      simp [mapFind]
    · have hne : k0 ≠ k := by
        intro hEq
        apply hk.1
        rw [hEq]
        exact List.mem_map_of_mem Prod.fst h
      simp [mapFind, hne, ih hk.2 h]

theorem mem_of_mapFind {α : Type} (m : List (Int × α)) (k : Int) (v : α)
    (h : mapFind m k = some v) : (k, v) ∈ m := by
  induction m with
  | nil => cases h
  | cons e rest ih =>
    obtain ⟨k0, v0⟩ := e
    by_cases hk : k0 = k
    · simp only [mapFind, hk, if_true, Option.some.injEq] at h
      rw [hk, h]
      exact List.mem_cons_self _ _
    · simp only [mapFind, hk, if_false] at h
      exact List.mem_cons_of_mem _ (ih h)

/-- A property of channel states that every loop body preserves is preserved by the loop. -/
theorem forChannels_preserves (step : ChannelConfig → ChannelRing → Option ChannelRing)
    (P : Int → ChannelRing → Prop) :
    ∀ (cfgs : List (Int × ChannelConfig)) (chs chs1 : List (Int × ChannelRing)),
      (∀ c cfg r r1, (c, cfg) ∈ cfgs → P c r → step cfg r = some r1 → P c r1) →
      (∀ c r, mapFind chs c = some r → P c r) →
      forChannels step cfgs chs = some chs1 →
      ∀ c r, mapFind chs1 c = some r → P c r := by
  intro cfgs
  induction cfgs with
  | nil =>
    intro chs chs1 _ hP hrun
    simp only [forChannels, Option.some.injEq] at hrun
    rw [← hrun]
    exact hP
  | cons e rest ih =>
    obtain ⟨c0, cfg0⟩ := e
    intro chs chs1 hstep hP hrun
    cases h0 : mapFind chs c0 with
    | none => simp [forChannels, h0] at hrun
    | some r0 =>
      cases h1 : step cfg0 r0 with
      | none => simp [forChannels, h0, h1] at hrun
      | some r1 =>
        simp only [forChannels, h0, h1] at hrun
        refine ih (mapSet c0 r1 chs) chs1
          (fun c cfg r r2 hm => hstep c cfg r r2 (List.mem_cons_of_mem _ hm)) ?_ hrun
        intro c r hc
        by_cases hcc : c0 = c
        · rw [← hcc, mapFind_mapSet_self] at hc
          cases hc
          rw [← hcc]
          exact hstep c0 cfg0 r0 r1 (List.mem_cons_self _ _) (hP c0 r0 h0) h1
        · rw [mapFind_mapSet_ne _ _ _ _ hcc] at hc
          exact hP c r hc

/-- The loop returns when every configured channel has a state on which the body
returns, and the body keeps that so. -/
theorem forChannels_total (step : ChannelConfig → ChannelRing → Option ChannelRing)
    (Q : ChannelRing → Prop)
    (hstep : ∀ cfg r, Q r → ∃ r1, step cfg r = some r1 ∧ Q r1) :
    ∀ (cfgs : List (Int × ChannelConfig)) (chs : List (Int × ChannelRing)),
      (∀ c cfg, (c, cfg) ∈ cfgs → ∃ r, mapFind chs c = some r) →
      (∀ c r, mapFind chs c = some r → Q r) →
      ∃ chs1, forChannels step cfgs chs = some chs1 := by
  intro cfgs
  induction cfgs with
  | nil => intro chs _ _; exact ⟨chs, rfl⟩
  | cons e rest ih =>
    obtain ⟨c0, cfg0⟩ := e
    intro chs hall hQ
    obtain ⟨r0, h0⟩ := hall c0 cfg0 (List.mem_cons_self _ _)
    obtain ⟨r1, h1, hQ1⟩ := hstep cfg0 r0 (hQ c0 r0 h0)
    simp only [forChannels, h0, h1]
    apply ih
    · intro c cfg hm
      by_cases hcc : c0 = c
      · exact ⟨r1, by rw [← hcc, mapFind_mapSet_self]⟩
      · obtain ⟨r, hr⟩ := hall c cfg (List.mem_cons_of_mem _ hm)
        exact ⟨r, by rw [mapFind_mapSet_ne _ _ _ _ hcc]; exact hr⟩
    · intro c r hc
      by_cases hcc : c0 = c
      · rw [← hcc, mapFind_mapSet_self] at hc
        cases hc
        exact hQ1
      · rw [mapFind_mapSet_ne _ _ _ _ hcc] at hc
        exact hQ c r hc

theorem writeFlag_find (channel hub value : Int) (t : TokenRing) (c : Int) :
    (mapFind (writeFlag channel hub value t).channels c).map withoutFlags
      = (mapFind t.channels c).map withoutFlags := by
  unfold writeFlag
  cases h : mapFind t.channels channel with
  | none => rfl
  | some r =>
    by_cases hcc : channel = c
    · simp only [← hcc, mapFind_mapSet_self, h, Option.map_some', hubWrite_withoutFlags]
    · simp only [mapFind_mapSet_ne _ _ _ _ hcc]

theorem writeFlags_find (ws : List (Int × Int × Int)) (t : TokenRing) (c : Int) :
    (mapFind (writeFlags ws t).channels c).map withoutFlags
      = (mapFind t.channels c).map withoutFlags := by
  induction ws generalizing t with
  | nil => rfl
  | cons e rest ih =>
    obtain ⟨channel, hub, value⟩ := e
    simp only [writeFlags]
    rw [ih, writeFlag_find]

theorem writeFlag_controller (channel hub value : Int) (t : TokenRing) :
    (writeFlag channel hub value t).bmac_controller = t.bmac_controller := by
  unfold writeFlag
  cases mapFind t.channels channel <;> rfl

theorem writeFlags_controller (ws : List (Int × Int × Int)) (t : TokenRing) :
    (writeFlags ws t).bmac_controller = t.bmac_controller := by
  induction ws generalizing t with
  | nil => rfl
  | cons e rest ih =>
    obtain ⟨channel, hub, value⟩ := e
    simp only [writeFlags]
    rw [ih, writeFlag_controller]

/-- Flag writes preserve every property that does not look at the flags. -/
theorem writeFlags_preserves (P : Int → ChannelRing → Prop)
    (hP : ∀ c a b, withoutFlags a = withoutFlags b → P c a → P c b)
    (ws : List (Int × Int × Int)) (t : TokenRing)
    (h : ∀ c r, mapFind t.channels c = some r → P c r) :
    ∀ c r, mapFind (writeFlags ws t).channels c = some r → P c r := by
  intro c r hr
  have hf := writeFlags_find ws t c
  rw [hr] at hf
  cases h0 : mapFind t.channels c with
  | none => rw [h0] at hf; cases hf
  | some r0 =>
    rw [h0] at hf
    simp only [Option.map_some', Option.some.injEq] at hf
    exact hP c r0 r hf.symm (h c r0 h0)

theorem writeFlags_isSome (ws : List (Int × Int × Int)) (t : TokenRing) (c : Int)
    (h : ∃ r, mapFind t.channels c = some r) :
    ∃ r, mapFind (writeFlags ws t).channels c = some r := by
  obtain ⟨r0, h0⟩ := h
  have hf := writeFlags_find ws t c
  rw [h0] at hf
  cases h1 : mapFind (writeFlags ws t).channels c with
  | none => rw [h1] at hf; cases hf
  | some r => exact ⟨r, rfl⟩

/-! ### Shape of one step of a channel -/

theorem passOnRelease_shape (M : Consts) (r r1 : ChannelRing)
    (h : passOnRelease M r = some r1) :
    r1.rings_mapping = r.rings_mapping ∧ r1.token_hold_count = r.token_hold_count ∧
    r1.current_token_expiration = r.current_token_expiration ∧
    ((r1.token_position = r.token_position ∧ r1.current_token_holder = r.current_token_holder)
      ∨ vecAt r.rings_mapping r1.token_position = some r1.current_token_holder) := by
  unfold passOnRelease at h
  cases h1 : vecAt r.rings_mapping r.token_position with
  | none => simp [h1] at h
  | some holder =>
    cases h2 : mapFind r.flag holder with
    | none => simp [h1, h2] at h
    | some f =>
      by_cases hf : f = M.RELEASE_CHANNEL
      · cases h3 : vecAt r.rings_mapping
            (Int.tmod (r.token_position + 1) r.rings_mapping.length) with
        | none => simp [h1, h2, hf, h3] at h
        | some nh =>
          cases h4 : mapFind r.flag nh with
          | none => simp [h1, h2, hf, h3, h4] at h
          | some g =>
            simp only [h1, h2, hf, h3, h4, if_true, Option.some.injEq] at h
            rw [← h]
            exact ⟨rfl, rfl, rfl, Or.inr h3⟩
      · simp only [h1, h2, hf, if_false, Option.some.injEq] at h
        rw [← h]
        exact ⟨rfl, rfl, rfl, Or.inl ⟨rfl, rfl⟩⟩

theorem advanceHold_shape (max_hold : Int) (r r1 : ChannelRing)
    (h : (advanceHold max_hold r).map writeExpiration = some r1) :
    r1.rings_mapping = r.rings_mapping ∧ r1.token_hold_count = max_hold ∧
    r1.current_token_expiration = max_hold ∧
    vecAt r.rings_mapping r1.token_position = some r1.current_token_holder := by
  unfold advanceHold at h
  by_cases hn : (r.rings_mapping.length : Int) = 0
  · simp [hn] at h
  · cases h3 : vecAt r.rings_mapping
        (Int.tmod (r.token_position + 1) r.rings_mapping.length) with
    | none => simp [hn, h3] at h
    | some nh =>
      simp only [hn, h3, if_false, Option.map_some', Option.some.injEq] at h
      rw [← h]
      exact ⟨rfl, rfl, rfl, h3⟩

theorem updateChannel_tokenPacket (M : Consts) (bm : Bool) (cfg : ChannelConfig)
    (r : ChannelRing) (htag : cfg.tag = some TOKEN_PACKET) :
    updateChannel M bm cfg r = updateTokenPacket M r := by
  simp [updateChannel, htag]

theorem updateChannel_tokenMaxHold (M : Consts) (bm : Bool) (cfg : ChannelConfig)
    (r : ChannelRing) (htag : cfg.tag = some TOKEN_MAX_HOLD) :
    updateChannel M bm cfg r = updateTokenMaxHold M cfg r := by
  have h1 : TOKEN_MAX_HOLD ≠ TOKEN_PACKET := by decide
  have h2 : TOKEN_MAX_HOLD ≠ TOKEN_HOLD := by decide
  simp [updateChannel, htag, h1, h2]

theorem updateChannel_bidirectional (M : Consts) (bm : Bool) (cfg : ChannelConfig)
    (r : ChannelRing) (htag : cfg.tag = some BMAC_BIDIRECTIONAL) :
    updateChannel M bm cfg r = updateTokenBMAC M bm r := by
  have h1 : BMAC_BIDIRECTIONAL ≠ TOKEN_PACKET := by decide
  have h2 : BMAC_BIDIRECTIONAL ≠ TOKEN_HOLD := by decide
  have h3 : BMAC_BIDIRECTIONAL ≠ TOKEN_MAX_HOLD := by decide
  simp [updateChannel, htag, h1, h2, h3]

theorem updateChannel_known_tag (M : Consts) (bm : Bool) (cfg : ChannelConfig)
    (r r1 : ChannelRing) (h : updateChannel M bm cfg r = some r1) :
    cfg.tag = some TOKEN_PACKET ∨ cfg.tag = some TOKEN_HOLD ∨
    cfg.tag = some TOKEN_MAX_HOLD ∨ cfg.tag = some BMAC_BIDIRECTIONAL := by
  unfold updateChannel at h
  cases htag : cfg.tag with
  | none => simp [htag] at h
  | some tg =>
    by_cases h1 : tg = TOKEN_PACKET
    · exact Or.inl (by rw [h1])
    · by_cases h2 : tg = TOKEN_HOLD
      · exact Or.inr (Or.inl (by rw [h2]))
      · by_cases h3 : tg = TOKEN_MAX_HOLD
        · exact Or.inr (Or.inr (Or.inl (by rw [h3])))
        · by_cases h4 : tg = BMAC_BIDIRECTIONAL
          · exact Or.inr (Or.inr (Or.inr (by rw [h4])))
          · simp [htag, h1, h2, h3, h4] at h

/-- What one step of the loop body of `updateTokens` (`reset` low) can do to a channel. -/
theorem updateChannel_shape (M : Consts) (bm : Bool) (cfg : ChannelConfig)
    (r r1 : ChannelRing) (h : updateChannel M bm cfg r = some r1) :
    r1.rings_mapping = r.rings_mapping ∧
    ((r1.token_position = r.token_position ∧ r1.current_token_holder = r.current_token_holder)
      ∨ vecAt r.rings_mapping r1.token_position = some r1.current_token_holder) ∧
    (¬ cfg.holdBased → r1.token_hold_count = r.token_hold_count) ∧
    (cfg.holdBased →
      (cfg.param = some r1.token_hold_count) ∨
      (r1.token_hold_count = r.token_hold_count - 1 ∧ r.token_hold_count - 1 ≠ 0)) := by
  rcases updateChannel_known_tag M bm cfg r r1 h with htag | htag | htag | htag
  · rw [updateChannel_tokenPacket M bm cfg r htag, updateTokenPacket] at h
    obtain ⟨a, b, _, d⟩ := passOnRelease_shape M r r1 h
    exact ⟨a, d, fun _ => b, fun hb => absurd htag hb.1⟩
  · rw [updateChannel_tokenHold M bm cfg r htag] at h
    have hhb : cfg.holdBased := by
      constructor <;> rw [htag] <;> decide
    unfold updateTokenHold at h
    by_cases hz : r.token_hold_count - 1 = 0
    · simp only [hz, if_true] at h
      cases hp : cfg.param with
      | none => simp [hp] at h
      | some m =>
        simp only [hp] at h
        obtain ⟨a, b, _, d⟩ := advanceHold_shape m r r1 h
        exact ⟨a, Or.inr d, fun hn => absurd hhb hn, fun _ => Or.inl (by rw [b])⟩
    · simp only [hz, if_false, Option.some.injEq] at h
      rw [← h]
      exact ⟨rfl, Or.inl ⟨rfl, rfl⟩, fun hn => absurd hhb hn, fun _ => Or.inr ⟨rfl, hz⟩⟩
  · rw [updateChannel_tokenMaxHold M bm cfg r htag] at h
    have hhb : cfg.holdBased := by
      constructor <;> rw [htag] <;> decide
    unfold updateTokenMaxHold at h
    cases hc : maxHoldCondition M r with
    | none => simp [hc] at h
    | some b =>
      cases b with
      | true =>
        simp only [hc] at h
        cases hp : cfg.param with
        | none => simp [hp] at h
        | some m =>
          simp only [hp] at h
          obtain ⟨a, b, _, d⟩ := advanceHold_shape m r r1 h
          exact ⟨a, Or.inr d, fun hn => absurd hhb hn, fun _ => Or.inl (by rw [b])⟩
      | false =>
        simp only [hc, Option.some.injEq] at h
        have hz : r.token_hold_count - 1 ≠ 0 := by
          intro hz
          simp [maxHoldCondition, hz] at hc
        rw [← h]
        exact ⟨rfl, Or.inl ⟨rfl, rfl⟩, fun hn => absurd hhb hn,
          fun _ => Or.inr ⟨rfl, hz⟩⟩
  · rw [updateChannel_bidirectional M bm cfg r htag] at h
    have hnb : ¬ cfg.holdBased := fun hb => hb.2 htag
    unfold updateTokenBMAC at h
    cases bm with
    | true =>
      simp only [if_true, Option.some.injEq] at h
      rw [← h]
      exact ⟨rfl, Or.inl ⟨rfl, rfl⟩, fun _ => rfl, fun hb => absurd hb hnb⟩
    | false =>
      simp only [Bool.false_eq_true, if_false] at h
      obtain ⟨a, b, _, d⟩ := passOnRelease_shape M r r1 h
      exact ⟨a, d, fun _ => b, fun hb => absurd hb hnb⟩

theorem resetChannel_shape (r r1 : ChannelRing) (h : resetChannel r = some r1) :
    r1.rings_mapping = r.rings_mapping ∧ r1.token_position = r.token_position ∧
    r1.token_hold_count = r.token_hold_count ∧
    vecAt r.rings_mapping 0 = some r1.current_token_holder := by
  unfold resetChannel at h
  cases h0 : vecAt r.rings_mapping 0 with
  | none => simp [h0] at h
  | some x =>
    simp only [h0, Option.some.injEq] at h
    rw [← h]
    exact ⟨rfl, rfl, rfl, rfl⟩

/-! ### Invariants of the arbiter -/

/-- A clock edge preserves every property of channel states that ignores the flags and
that the loop body it runs preserves. -/
theorem tick_preserves (M : Consts) (cfgs : List (Int × ChannelConfig))
    (P : Int → ChannelRing → Prop)
    (hflag : ∀ c a b, withoutFlags a = withoutFlags b → P c a → P c b)
    (hreset : ∀ c cfg r r1, (c, cfg) ∈ cfgs → P c r → resetChannel r = some r1 → P c r1)
    (i : TickInput) (hi : i.reset = true ∨
      ∀ bm c cfg r r1, (c, cfg) ∈ cfgs → P c r → updateChannel M bm cfg r = some r1 → P c r1)
    (t t1 : TokenRing) (hP : ∀ c r, mapFind t.channels c = some r → P c r)
    (h : tick M cfgs i t = some t1) :
    ∀ c r, mapFind t1.channels c = some r → P c r := by
  have hw := writeFlags_preserves P hflag i.writes t hP
  unfold tick updateTokens at h
  cases hr : i.reset with
  | true =>
    simp only [hr, if_true] at h
    cases hf : forChannels (fun _ r => resetChannel r) cfgs (writeFlags i.writes t).channels with
    | none => simp [hf] at h
    | some chs =>
      simp only [hf, Option.map_some', Option.some.injEq] at h
      rw [← h]
      exact forChannels_preserves _ P cfgs _ chs hreset hw hf
  | false =>
    simp only [hr, Bool.false_eq_true, if_false] at h
    cases hf : forChannels (updateChannel M (writeFlags i.writes t).bmac_controller) cfgs
        (writeFlags i.writes t).channels with
    | none => simp [hf] at h
    | some chs =>
      simp only [hf, Option.map_some', Option.some.injEq] at h
      rw [← h]
      rcases hi with hi | hi
      · rw [hr] at hi; cases hi
      · exact forChannels_preserves _ P cfgs _ chs (hi _) hw hf

/-- A run preserves what every clock edge preserves. -/
theorem run_preserves (M : Consts) (cfgs : List (Int × ChannelConfig))
    (P : Int → ChannelRing → Prop)
    (hflag : ∀ c a b, withoutFlags a = withoutFlags b → P c a → P c b)
    (hreset : ∀ c cfg r r1, (c, cfg) ∈ cfgs → P c r → resetChannel r = some r1 → P c r1)
    (hstep : ∀ bm c cfg r r1, (c, cfg) ∈ cfgs → P c r →
      updateChannel M bm cfg r = some r1 → P c r1) :
    ∀ (ins : List TickInput) (t t1 : TokenRing),
      (∀ c r, mapFind t.channels c = some r → P c r) → run M cfgs ins t = some t1 →
      ∀ c r, mapFind t1.channels c = some r → P c r := by
  intro ins
  induction ins with
  | nil =>
    intro t t1 hP h
    simp only [run, Option.some.injEq] at h
    rw [← h]
    exact hP
  | cons i rest ih =>
    intro t t1 hP h
    cases ht : tick M cfgs i t with
    | none => simp [run, ht] at h
    | some t2 =>
      simp only [run, ht] at h
      exact ih t2 t1 (tick_preserves M cfgs P hflag hreset i (Or.inr hstep) t t2 hP ht) h

/-- A run of clock edges that all have `reset` high preserves what the reset loop body
preserves. -/
theorem run_reset_preserves (M : Consts) (cfgs : List (Int × ChannelConfig))
    (P : Int → ChannelRing → Prop)
    (hflag : ∀ c a b, withoutFlags a = withoutFlags b → P c a → P c b)
    (hreset : ∀ c cfg r r1, (c, cfg) ∈ cfgs → P c r → resetChannel r = some r1 → P c r1) :
    ∀ (ins : List TickInput) (t t1 : TokenRing), (∀ i ∈ ins, i.reset = true) →
      (∀ c r, mapFind t.channels c = some r → P c r) → run M cfgs ins t = some t1 →
      ∀ c r, mapFind t1.channels c = some r → P c r := by
  intro ins
  induction ins with
  | nil =>
    intro t t1 _ hP h
    simp only [run, Option.some.injEq] at h
    rw [← h]
    exact hP
  | cons i rest ih =>
    intro t t1 hall hP h
    cases ht : tick M cfgs i t with
    | none => simp [run, ht] at h
    | some t2 =>
      simp only [run, ht] at h
      exact ih t2 t1 (fun i2 hi2 => hall i2 (List.mem_cons_of_mem _ hi2))
        (tick_preserves M cfgs P hflag hreset i (Or.inl (hall i (List.mem_cons_self _ _)))
          t t2 hP ht) h

theorem vecAt_append_zero (l : List Int) (hub : Int) :
    vecAt (l ++ [hub]) 0 = some (l.headD hub) := by
  cases l <;> simp [vecAt]

theorem headD_of_vecAt_zero (l : List Int) (hub x : Int) (h : vecAt l 0 = some x) :
    l.headD hub = x := by
  cases l with
  | nil => simp [vecAt] at h
  | cons a rest => simpa [vecAt] using h

theorem initialHoldCount_cases (cfg : ChannelConfig) (cnt : Int)
    (h : initialHoldCount cfg = some cnt) :
    (cfg.holdBased ∧ cfg.param = some cnt ∧ cfg.cycles < cnt) ∨
    (cfg.tag = some BMAC_BIDIRECTIONAL ∧ cnt = 10) ∨
    (cfg.tag = some TOKEN_PACKET ∧ cnt = 0) := by
  unfold initialHoldCount at h
  cases htag : cfg.tag with
  | none => simp [htag] at h
  | some tg =>
    simp only [htag] at h
    by_cases h1 : tg = TOKEN_PACKET
    · have hne : TOKEN_PACKET ≠ BMAC_BIDIRECTIONAL := by decide
      simp only [h1, ne_eq, not_true_eq_false, false_and, if_false, hne,
        Option.some.injEq] at h
      exact Or.inr (Or.inr ⟨by rw [h1], h.symm⟩)
    · by_cases h2 : tg = BMAC_BIDIRECTIONAL
      · simp only [h2, ne_eq, not_true_eq_false, and_false, if_false, if_true,
          Option.some.injEq] at h
        exact Or.inr (Or.inl ⟨by rw [h2], h.symm⟩)
      · left
        have hb : cfg.holdBased := by
          constructor
          · rw [htag]; intro hEq; exact h1 (Option.some.inj hEq)
          · rw [htag]; intro hEq; exact h2 (Option.some.inj hEq)
        simp only [ne_eq, h1, not_false_eq_true, h2, and_self, if_true] at h
        cases hp : cfg.param with
        | none => simp [hp] at h
        | some m =>
          simp only [hp] at h
          by_cases hc : cfg.cycles < m
          · simp only [hc, if_true, Option.some.injEq] at h
            rw [← h]
            exact ⟨hb, rfl, hc⟩
          · simp [hc] at h

theorem attachHub_attachState (cfgs : List (Int × ChannelConfig)) (channel hub : Int)
    (t t1 : TokenRing)
    (hA : ∀ c r, mapFind t.channels c = some r → AttachState cfgs c r)
    (h : attachHub cfgs channel hub t = some t1) :
    ∀ c r, mapFind t1.channels c = some r → AttachState cfgs c r := by
  unfold attachHub at h
  cases hch : mapFind t.channels channel with
  | some r0 =>
    simp only [hch, vecAt_append_zero, Option.some.injEq] at h
    obtain ⟨hp, hv, hc⟩ := hA channel r0 hch
    intro c r hr
    rw [← h] at hr
    by_cases hcc : channel = c
    · simp only [← hcc, mapFind_mapSet_self, Option.some.injEq] at hr
      rw [← hr, ← hcc]
      refine ⟨hp, ?_, hc⟩
      simp only [vecAt_append_zero]
    · simp only [mapFind_mapSet_ne _ _ _ _ hcc] at hr
      exact hA c r hr
  | none =>
    cases hcfg : mapFind cfgs channel with
    | none => simp [hch, hcfg] at h
    | some cfg =>
      cases hi : initialHoldCount cfg with
      | none => simp [hch, hcfg, hi] at h
      | some cnt =>
        simp only [hch, hcfg, hi, Option.map_some', vecAt_append_zero, Option.some.injEq] at h
        intro c r hr
        rw [← h] at hr
        by_cases hcc : channel = c
        · simp only [← hcc, mapFind_mapSet_self, Option.some.injEq] at hr
          rw [← hr, ← hcc]
          refine ⟨rfl, ?_, cfg, hcfg, hi⟩
          simp only [vecAt_append_zero]
        · simp only [mapFind_mapSet_ne _ _ _ _ hcc] at hr
          exact hA c r hr

theorem attachAll_attachState (cfgs : List (Int × ChannelConfig)) :
    ∀ (hubs : List (Int × Int)) (t t1 : TokenRing),
      (∀ c r, mapFind t.channels c = some r → AttachState cfgs c r) →
      attachAll cfgs hubs t = some t1 →
      ∀ c r, mapFind t1.channels c = some r → AttachState cfgs c r := by
  intro hubs
  induction hubs with
  | nil =>
    intro t t1 hA h
    simp only [attachAll, Option.some.injEq] at h
    rw [← h]
    exact hA
  | cons e rest ih =>
    obtain ⟨channel, hub⟩ := e
    intro t t1 hA h
    cases ha : attachHub cfgs channel hub t with
    | none => simp [attachAll, ha] at h
    | some t2 =>
      simp only [attachAll, ha] at h
      exact ih t2 t1 (attachHub_attachState cfgs channel hub t t2 hA ha) h

theorem initial_attachState (cfgs : List (Int × ChannelConfig)) (t : TokenRing)
    (h : Initial cfgs t) : ∀ c r, mapFind t.channels c = some r → AttachState cfgs c r := by
  obtain ⟨hubs, bm, t0, h0, rfl⟩ := h
  exact attachAll_attachState cfgs hubs ⟨[], false⟩ t0
    (fun c r hr => by simp [mapFind] at hr) h0

theorem attachState_flags (cfgs : List (Int × ChannelConfig)) (c : Int) (a b : ChannelRing)
    (hab : withoutFlags a = withoutFlags b) (h : AttachState cfgs c a) :
    AttachState cfgs c b := by
  obtain ⟨e1, e2, e3, e4, _⟩ := withoutFlags_fields hab
  unfold AttachState at h ⊢
  rw [← e1, ← e2, ← e3, ← e4]
  exact h

theorem attachState_reset (cfgs : List (Int × ChannelConfig)) (c : Int) (r r1 : ChannelRing)
    (h : AttachState cfgs c r) (hr : resetChannel r = some r1) : AttachState cfgs c r1 := by
  obtain ⟨a, b, d, e⟩ := resetChannel_shape r r1 hr
  unfold AttachState at h ⊢
  rw [a, b, d]
  exact ⟨h.1, e, h.2.2⟩

theorem startUp_attachState (M : Consts) (cfgs : List (Int × ChannelConfig)) (s : TokenRing)
    (h : StartUp M cfgs s) : ∀ c r, mapFind s.channels c = some r → AttachState cfgs c r := by
  obtain ⟨t, ins, hinit, hall, hrun⟩ := h
  exact run_reset_preserves M cfgs (AttachState cfgs) (attachState_flags cfgs)
    (fun c _ r r1 _ hP hr => attachState_reset cfgs c r r1 hP hr) ins t s hall
    (initial_attachState cfgs t hinit) hrun

theorem attachState_bounded (cfgs : List (Int × ChannelConfig)) (c : Int) (r : ChannelRing)
    (h : AttachState cfgs c r) : Bounded cfgs c r := by
  obtain ⟨hp, hv, cfg, hcfg, hcnt⟩ := h
  obtain ⟨_, hlen, _⟩ := vecAt_some_iff_bounds hv
  refine ⟨by rw [hp], by rw [hp]; exact hlen, ?_⟩
  intro cfg1 hcfg1 hmax
  rw [hcfg] at hcfg1
  cases hcfg1
  rcases initialHoldCount_cases cfg _ hcnt with ⟨hb, hpar, _⟩ | ⟨htag, h10⟩ | ⟨htag, h0⟩
  · have := hmax hb _ hpar
    exact ⟨by omega, fun _ => this⟩
  · exact ⟨by omega, fun hb => absurd htag hb.2⟩
  · exact ⟨by omega, fun hb => absurd htag hb.1⟩

theorem bounded_flags (cfgs : List (Int × ChannelConfig)) (c : Int) (a b : ChannelRing)
    (hab : withoutFlags a = withoutFlags b) (h : Bounded cfgs c a) : Bounded cfgs c b := by
  obtain ⟨e1, e2, e3, _, _⟩ := withoutFlags_fields hab
  unfold Bounded at h ⊢
  rw [← e1, ← e2, ← e3]
  exact h

theorem bounded_reset (cfgs : List (Int × ChannelConfig)) (c : Int) (r r1 : ChannelRing)
    (h : Bounded cfgs c r) (hr : resetChannel r = some r1) : Bounded cfgs c r1 := by
  obtain ⟨a, b, d, _⟩ := resetChannel_shape r r1 hr
  unfold Bounded at h ⊢
  rw [a, b, d]
  exact h

theorem bounded_step (M : Consts) (cfgs : List (Int × ChannelConfig))
    (hk : DistinctChannels cfgs) (bm : Bool) (c : Int) (cfg : ChannelConfig)
    (r r1 : ChannelRing) (hmem : (c, cfg) ∈ cfgs) (h : Bounded cfgs c r)
    (hr : updateChannel M bm cfg r = some r1) : Bounded cfgs c r1 := by
  obtain ⟨hring, hposn, hnb, hb⟩ := updateChannel_shape M bm cfg r r1 hr
  obtain ⟨h0, h1, hc⟩ := h
  have hcfg := mapFind_of_mem cfgs hk c cfg hmem
  refine ⟨?_, ?_, ?_⟩
  · rcases hposn with ⟨e, _⟩ | hv
    · rw [e]; exact h0
    · exact (vecAt_some_iff_bounds hv).1
  · rw [hring]
    rcases hposn with ⟨e, _⟩ | hv
    · rw [e]; exact h1
    · exact (vecAt_some_iff_bounds hv).2.1
  · intro cfg1 hcfg1 hmax
    rw [hcfg] at hcfg1
    cases hcfg1
    obtain ⟨hc0, hc1⟩ := hc cfg hcfg hmax
    by_cases hhb : cfg.holdBased
    · have h1c := hc1 hhb
      rcases hb hhb with hpar | ⟨e, hz⟩
      · have := hmax hhb _ hpar
        exact ⟨by omega, fun _ => this⟩
      · exact ⟨by omega, fun _ => by omega⟩
    · rw [hnb hhb]
      exact ⟨hc0, fun hb2 => absurd hb2 hhb⟩

theorem reachable_bounded (M : Consts) (cfgs : List (Int × ChannelConfig))
    (hk : DistinctChannels cfgs) (s : TokenRing) (h : Reachable M cfgs s) :
    ∀ c r, mapFind s.channels c = some r → Bounded cfgs c r := by
  obtain ⟨t, ins, hinit, hrun⟩ := h
  exact run_preserves M cfgs (Bounded cfgs) (bounded_flags cfgs)
    (fun c _ r r1 _ hP hr => bounded_reset cfgs c r r1 hP hr)
    (fun bm c cfg r r1 hmem hP hr => bounded_step M cfgs hk bm c cfg r r1 hmem hP hr)
    ins t s (fun c r hr => attachState_bounded cfgs c r (initial_attachState cfgs t hinit c r hr))
    hrun

/-- **C8** (`updateTokens`, `attachHub`). In every state reachable from an initial state by
clock edges (with `reset` high or low and any flag writes of the hubs), every configured
channel that has a state has a non-empty ring, `0 ≤ token_index < |ring|` and
`hold_countdown ≥ 0`, provided that the parameter of a hold-based policy is at least 1. -/
theorem ring_state_well_formed (M : Consts) (cfgs : List (Int × ChannelConfig))
    (hk : DistinctChannels cfgs) (s : TokenRing) (hs : Reachable M cfgs s)
    (c : Int) (cfg : ChannelConfig) (r : ChannelRing)
    (hcfg : mapFind cfgs c = some cfg) (hr : mapFind s.channels c = some r)
    (hmax : cfg.holdBased → ∀ m, cfg.param = some m → 1 ≤ m) :
    r.rings_mapping ≠ [] ∧ 0 ≤ r.token_position ∧
    r.token_position < r.rings_mapping.length ∧ 0 ≤ r.token_hold_count := by
  obtain ⟨h0, h1, hc⟩ := reachable_bounded M cfgs hk s hs c r hr
  refine ⟨?_, h0, h1, (hc cfg hcfg hmax).1⟩
  intro hnil
  rw [hnil] at h1
  simp only [List.length_nil, Nat.cast_zero] at h1
  omega

/-- Witness of **C8**: a `TOKEN_HOLD` channel with parameter 3 and ring `[0, 1]` after three
clock edges with `reset` low. -/
theorem ring_state_well_formed_witness :
    ([0, 1] : List Int) ≠ [] ∧ (0 : Int) ≤ 1 ∧ (1 : Int) < ([0, 1] : List Int).length ∧
    (0 : Int) ≤ 3 :=
  ring_state_well_formed sampleConsts [(0, ⟨["TOKEN_HOLD", "3"], 1, []⟩)] (by decide)
    ⟨[(0, ⟨1, [0, 1], 3, 1, 3, [(0, 0), (1, 0)]⟩)], false⟩
    ⟨⟨[(0, ⟨0, [0, 1], 3, 0, 0, [(0, 0), (1, 0)]⟩)], false⟩,
      [⟨false, []⟩, ⟨false, []⟩, ⟨false, []⟩],
      ⟨[(0, 0), (0, 1)], false, ⟨[(0, ⟨0, [0, 1], 3, 0, 0, [(0, 0), (1, 0)]⟩)], false⟩,
        by decide, by decide⟩,
      by decide⟩
    0 ⟨["TOKEN_HOLD", "3"], 1, []⟩ ⟨1, [0, 1], 3, 1, 3, [(0, 0), (1, 0)]⟩
    (by decide) (by decide)
    (fun _ m hm => by
      have h3 : (⟨["TOKEN_HOLD", "3"], 1, []⟩ : ChannelConfig).param = some 3 := by decide
      rw [h3] at hm
      cases hm
      decide)

/-- **C7** (`updateTokens`), the code at the failing input. A `TOKEN_PACKET` channel with
ring `[0, 1]`: hub 0 writes `RELEASE_CHANNEL`, a clock edge with `reset` low moves the token
to position 1, then a clock edge with `reset` high publishes `ring[0] = 0` and leaves
`token_position` at 1, where the ring holds hub 1. -/
theorem reset_publishes_head_keeps_position (M : Consts) :
    (attachAll [(0, ⟨["TOKEN_PACKET"], 0, []⟩)] [(0, 0), (0, 1)] ⟨[], false⟩).bind
        (run M [(0, ⟨["TOKEN_PACKET"], 0, []⟩)]
          [⟨false, [(0, 0, M.RELEASE_CHANNEL)]⟩, ⟨true, []⟩])
      = some ⟨[(0, ⟨1, [0, 1], 0, 0, 0, [(0, M.RELEASE_CHANNEL), (1, M.HOLD_CHANNEL)]⟩)], false⟩
    ∧ vecAt [0, 1] 1 = some 1 := by
  have ht : Int.tmod 1 2 = 1 := by decide
  constructor
  · simp [ht, attachAll, attachHub, mapFind, initialHoldCount, ChannelConfig.tag, TOKEN_PACKET,
      BMAC_BIDIRECTIONAL, vecAt, mapSet, run, tick, writeFlags, writeFlag, hubWrite,
      updateTokens, forChannels, updateChannel, updateTokenPacket, passOnRelease, resetChannel]
  · decide

/-! ### Reset -/

/-- After the loop, the state of every configured channel is a result of the loop body. -/
theorem forChannels_establishes (step : ChannelConfig → ChannelRing → Option ChannelRing)
    (Q : ChannelRing → Prop) (hstep : ∀ cfg r r1, step cfg r = some r1 → Q r1) :
    ∀ (cfgs : List (Int × ChannelConfig)) (chs chs1 : List (Int × ChannelRing)),
      forChannels step cfgs chs = some chs1 →
      ∀ c cfg, (c, cfg) ∈ cfgs → ∀ r, mapFind chs1 c = some r → Q r := by
  intro cfgs
  induction cfgs with
  | nil => intro chs chs1 _ c cfg hm; cases hm
  | cons e rest ih =>
    obtain ⟨c0, cfg0⟩ := e
    intro chs chs1 hrun c cfg hm r hr
    cases h0 : mapFind chs c0 with
    | none => simp [forChannels, h0] at hrun
    | some r0 =>
      cases h1 : step cfg0 r0 with
      | none => simp [forChannels, h0, h1] at hrun
      | some r1 =>
        simp only [forChannels, h0, h1] at hrun
        rcases List.mem_cons.mp hm with heq | hrest
        · cases heq
          refine forChannels_preserves step (fun k x => k = c0 → Q x) rest
            (mapSet c0 r1 chs) chs1 (fun _ cfg2 x x1 _ _ hx _ => hstep cfg2 x x1 hx) ?_ hrun
            c0 r hr rfl
          intro k x hk hkc
          rw [hkc, mapFind_mapSet_self] at hk
          cases hk
          exact hstep cfg0 r0 r1 h1
        · exact ih (mapSet c0 r1 chs) chs1 hrun c cfg hrest r hr

/-- A clock edge with `reset` high returns when every configured channel has a state with
a non-empty ring, and then every configured channel publishes `ring[0]`. -/
theorem reset_tick_publishes (M : Consts) (cfgs : List (Int × ChannelConfig))
    (ws : List (Int × Int × Int)) (s : TokenRing)
    (hall : ∀ c cfg, (c, cfg) ∈ cfgs → ∃ r, mapFind s.channels c = some r)
    (hne : ∀ c r, mapFind s.channels c = some r → ∃ x, vecAt r.rings_mapping 0 = some x) :
    ∃ s1, tick M cfgs ⟨true, ws⟩ s = some s1 ∧
      ∀ c cfg r1, (c, cfg) ∈ cfgs → mapFind s1.channels c = some r1 →
        vecAt r1.rings_mapping 0 = some r1.current_token_holder := by
  have hall1 : ∀ c cfg, (c, cfg) ∈ cfgs → ∃ r, mapFind (writeFlags ws s).channels c = some r :=
    fun c cfg hm => writeFlags_isSome ws s c (hall c cfg hm)
  have hne1 := writeFlags_preserves (fun _ r => ∃ x, vecAt r.rings_mapping 0 = some x)
    (fun _ a b hab h => by
      obtain ⟨x, hx⟩ := h
      exact ⟨x, by rw [← (withoutFlags_fields hab).2.1]; exact hx⟩) ws s hne
  obtain ⟨chs, hchs⟩ := forChannels_total (fun _ r => resetChannel r)
    (fun r => ∃ x, vecAt r.rings_mapping 0 = some x)
    (fun _ r hq => by
      obtain ⟨x, hx⟩ := hq
      exact ⟨{ r with current_token_holder := x }, by simp [resetChannel, hx], x, hx⟩)
    cfgs (writeFlags ws s).channels hall1 hne1
  refine ⟨{ (writeFlags ws s) with channels := chs }, by simp [tick, updateTokens, hchs], ?_⟩
  intro c cfg r1 hm hr1
  exact forChannels_establishes (fun _ r => resetChannel r)
    (fun r => vecAt r.rings_mapping 0 = some r.current_token_holder)
    (fun _ r r2 h => by
      obtain ⟨a, _, _, e⟩ := resetChannel_shape r r2 h
      rw [a]; exact e)
    cfgs _ chs hchs c cfg hm r1 hr1

/-- **C6**, the claim at a concrete input. A `BMAC_BIDIRECTIONAL` channel with ring `[0, 1]`
and the controller set: a clock edge with `reset` high on the initial state returns a state
whose `hold_countdown` is 10, the value `attachHub` loads for this policy, and not 0. -/
theorem reset_bidirectional_hold_count_is_ten :
    (attachAll [(0, ⟨["BMAC_BIDIRECTIONAL"], 0, [0, 1]⟩)] [(0, 0), (0, 1)] ⟨[], false⟩).bind
        (fun t => tick sampleConsts [(0, ⟨["BMAC_BIDIRECTIONAL"], 0, [0, 1]⟩)] ⟨true, []⟩
          (setBMACController true t))
      = some ⟨[(0, ⟨0, [0, 1], 10, 0, 0, [(0, 0), (1, 0)]⟩)], true⟩
    ∧ (⟨0, [0, 1], 10, 0, 0, [(0, 0), (1, 0)]⟩ : ChannelRing).token_hold_count ≠ 0 := by
  constructor <;> decide

/-- **C6** as amended (`updateTokens` with `reset` high, `attachHub`). Let every configured
channel have a hub attached. In every reachable state a clock edge with `reset` high returns
and leaves `ring[0]` as published holder of every configured channel. In a start-up state
(only clock edges with `reset` high so far) the returned state moreover has
`token_index = 0` and `hold_countdown` at its initial value: 0 for `TOKEN_PACKET`, 10 for
`BMAC_BIDIRECTIONAL`, the policy parameter for `TOKEN_HOLD` and `TOKEN_MAX_HOLD`. -/
theorem reset_tick_effect (M : Consts) (cfgs : List (Int × ChannelConfig))
    (hk : DistinctChannels cfgs) (s : TokenRing) (ws : List (Int × Int × Int))
    (hall : ∀ c cfg, (c, cfg) ∈ cfgs → ∃ r, mapFind s.channels c = some r) :
    (Reachable M cfgs s →
      ∃ s1, tick M cfgs ⟨true, ws⟩ s = some s1 ∧
        ∀ c cfg r1, (c, cfg) ∈ cfgs → mapFind s1.channels c = some r1 →
          vecAt r1.rings_mapping 0 = some r1.current_token_holder) ∧
    (StartUp M cfgs s →
      ∃ s1, tick M cfgs ⟨true, ws⟩ s = some s1 ∧
        ∀ c cfg r1, (c, cfg) ∈ cfgs → mapFind s1.channels c = some r1 →
          r1.token_position = 0 ∧
          vecAt r1.rings_mapping 0 = some r1.current_token_holder ∧
          (cfg.tag = some TOKEN_PACKET → r1.token_hold_count = 0) ∧
          (cfg.tag = some BMAC_BIDIRECTIONAL → r1.token_hold_count = 10) ∧
          (cfg.tag = some TOKEN_HOLD ∨ cfg.tag = some TOKEN_MAX_HOLD →
            cfg.param = some r1.token_hold_count)) := by
  constructor
  · intro hs
    refine reset_tick_publishes M cfgs ws s hall ?_
    intro c r hr
    obtain ⟨h0, h1, _⟩ := reachable_bounded M cfgs hk s hs c r hr
    obtain ⟨x, hx, _⟩ := vecAt_of_lt r.rings_mapping 0 (le_refl 0) (by omega)
    exact ⟨x, hx⟩
  · intro hs
    have hA := startUp_attachState M cfgs s hs
    obtain ⟨s1, hs1, hpub⟩ := reset_tick_publishes M cfgs ws s hall
      (fun c r hr => ⟨_, (hA c r hr).2.1⟩)
    refine ⟨s1, hs1, ?_⟩
    intro c cfg r1 hm hr1
    have hA1 := tick_preserves M cfgs (AttachState cfgs) (attachState_flags cfgs)
      (fun c _ r r1 _ hP hr => attachState_reset cfgs c r r1 hP hr) ⟨true, ws⟩ (Or.inl rfl)
      s s1 hA hs1 c r1 hr1
    obtain ⟨hp, hv, cfg1, hcfg1, hcnt⟩ := hA1
    rw [mapFind_of_mem cfgs hk c cfg hm] at hcfg1
    cases hcfg1
    refine ⟨hp, hv, ?_, ?_, ?_⟩
    · intro htag
      rcases initialHoldCount_cases cfg _ hcnt with ⟨hb, _, _⟩ | ⟨ht, _⟩ | ⟨_, h0⟩
      · exact absurd htag hb.1
      · rw [htag] at ht; exact absurd ht (by decide)
      · exact h0
    · intro htag
      rcases initialHoldCount_cases cfg _ hcnt with ⟨hb, _, _⟩ | ⟨_, h10⟩ | ⟨ht, _⟩
      · exact absurd htag hb.2
      · exact h10
      · rw [htag] at ht; exact absurd ht (by decide)
    · intro htag
      rcases initialHoldCount_cases cfg _ hcnt with ⟨_, hpar, _⟩ | ⟨ht, _⟩ | ⟨ht, _⟩
      · exact hpar
      · rcases htag with h | h <;> rw [h] at ht <;> exact absurd ht (by decide)
      · rcases htag with h | h <;> rw [h] at ht <;> exact absurd ht (by decide)

/-- Witness of **C6** as amended: the bidirectional channel of the example above in its
initial state, which is a start-up state and a reachable state. -/
theorem reset_tick_effect_witness :
    (∃ s1, tick sampleConsts [(0, ⟨["BMAC_BIDIRECTIONAL"], 0, [0, 1]⟩)] ⟨true, []⟩
        ⟨[(0, ⟨0, [0, 1], 10, 0, 0, [(0, 0), (1, 0)]⟩)], true⟩ = some s1 ∧
      ∀ c cfg r1, (c, cfg) ∈ [((0 : Int), (⟨["BMAC_BIDIRECTIONAL"], 0, [0, 1]⟩ : ChannelConfig))] →
        mapFind s1.channels c = some r1 →
        vecAt r1.rings_mapping 0 = some r1.current_token_holder) ∧
    (∃ s1, tick sampleConsts [(0, ⟨["BMAC_BIDIRECTIONAL"], 0, [0, 1]⟩)] ⟨true, []⟩
        ⟨[(0, ⟨0, [0, 1], 10, 0, 0, [(0, 0), (1, 0)]⟩)], true⟩ = some s1 ∧
      ∀ c cfg r1, (c, cfg) ∈ [((0 : Int), (⟨["BMAC_BIDIRECTIONAL"], 0, [0, 1]⟩ : ChannelConfig))] →
        mapFind s1.channels c = some r1 →
        r1.token_position = 0 ∧
        vecAt r1.rings_mapping 0 = some r1.current_token_holder ∧
        (cfg.tag = some TOKEN_PACKET → r1.token_hold_count = 0) ∧
        (cfg.tag = some BMAC_BIDIRECTIONAL → r1.token_hold_count = 10) ∧
        (cfg.tag = some TOKEN_HOLD ∨ cfg.tag = some TOKEN_MAX_HOLD →
          cfg.param = some r1.token_hold_count)) :=
  have hall : ∀ c cfg,
      (c, cfg) ∈ [((0 : Int), (⟨["BMAC_BIDIRECTIONAL"], 0, [0, 1]⟩ : ChannelConfig))] →
      ∃ r, mapFind (⟨[(0, ⟨0, [0, 1], 10, 0, 0, [(0, 0), (1, 0)]⟩)], true⟩ : TokenRing).channels c
        = some r := by
    intro c cfg hm
    simp only [List.mem_singleton, Prod.mk.injEq] at hm
    rw [hm.1]
    exact ⟨_, rfl⟩
  have hinit : Initial [(0, ⟨["BMAC_BIDIRECTIONAL"], 0, [0, 1]⟩)]
      ⟨[(0, ⟨0, [0, 1], 10, 0, 0, [(0, 0), (1, 0)]⟩)], true⟩ :=
    ⟨[(0, 0), (0, 1)], true, ⟨[(0, ⟨0, [0, 1], 10, 0, 0, [(0, 0), (1, 0)]⟩)], false⟩,
      by decide, by decide⟩
  ⟨(reset_tick_effect sampleConsts [(0, ⟨["BMAC_BIDIRECTIONAL"], 0, [0, 1]⟩)] (by decide)
      ⟨[(0, ⟨0, [0, 1], 10, 0, 0, [(0, 0), (1, 0)]⟩)], true⟩ [] hall).1
      ⟨_, [], hinit, rfl⟩,
    (reset_tick_effect sampleConsts [(0, ⟨["BMAC_BIDIRECTIONAL"], 0, [0, 1]⟩)] (by decide)
      ⟨[(0, ⟨0, [0, 1], 10, 0, 0, [(0, 0), (1, 0)]⟩)], true⟩ [] hall).2
      ⟨_, [], hinit, fun _ h => absurd h (List.not_mem_nil _), rfl⟩⟩

/-! ### The bidirectional controller -/

theorem maxHoldCycles_eq (hubcfg : List (Int × Int)) (k : Int) : maxHoldCycles hubcfg k = 10 := by
  unfold maxHoldCycles touchHubConfiguration mapTouch
  cases h : mapFind hubcfg k with
  | none => simp [mapFind_mapSet_self]
  | some v => simp [h]

theorem scenarioD_init (hubcfg : List (Int × Int)) :
    BMACController.init scenarioD hubcfg =
      ⟨[(0, ⟨0, 0, 0, 0, true, true, 1, 3⟩), (1, ⟨1, 0, 0, 0, true, false, 2, 0⟩),
          (2, ⟨2, 0, 0, 0, true, false, 3, 1⟩), (3, ⟨3, 0, 0, 0, true, false, 0, 2⟩)],
        [(0, [0, 1, 2, 3])], [(0, 0)], [(0, 0)], hubcfg⟩ := by
  rfl

/-- First clock edge of scenario D: the idle holder 0 passes the token clockwise to hub 1. -/
theorem scenarioD_first_tick (M : Consts) (hNV : M.NOT_VALID < 0) (hubcfg : List (Int × Int)) :
    bmacProcess M false (BMACController.init scenarioD hubcfg) = scenarioDHolding 0 hubcfg := by
  rw [scenarioD_init]
  have h0 : (0 : Int) ≠ M.NOT_VALID := by omega
  have h1 : (1 : Int) ≠ M.NOT_VALID := by omega
  simp [bmacProcess, updateTokenRings, updateTokenRing, mapFind, mapTouch, mapAt, touchHub,
    hubState, BMAC_TOKEN_HOLD, BMAC_IDLE, passBidirectionalToken, shouldReverseDirection,
    countPending, getNextHub, findHub, h0, h1, BMAC_CLOCKWISE, sizeT, setHubState, mapSet,
    scenarioDHolding, Ne.symm h1]

/-- A clock edge of scenario D while hub 1 has counted at most 5 hold cycles: one more cycle
is counted and nothing else changes but the accessed hub configuration. -/
theorem scenarioD_hold_tick (M : Consts) (c : Int) (hc5 : c ≤ 5) (hubcfg : List (Int × Int)) :
    bmacProcess M false (scenarioDHolding c hubcfg)
      = scenarioDHolding (c + 1) (touchHubConfiguration hubcfg 1) := by
  have h5 : ¬ (5 < c) := by omega
  have h10 : ¬ (10 ≤ c) := by omega
  simp [bmacProcess, updateTokenRings, updateTokenRing, mapFind, mapTouch, mapAt, touchHub,
    hubState, BMAC_TOKEN_HOLD, BMAC_IDLE, scenarioDHolding, isTransmissionComplete, setHubState,
    mapSet, h5, h10, maxHoldCycles_eq]

theorem scenarioD_hold_run (M : Consts) :
    ∀ (j : Nat) (c : Int) (hubcfg : List (Int × Int)), c + j ≤ 6 →
      ∃ hubcfg1, bmacRun M j (scenarioDHolding c hubcfg) = scenarioDHolding (c + j) hubcfg1 := by
  intro j
  induction j with
  | zero => intro c hubcfg _; exact ⟨hubcfg, by simp [bmacRun]⟩
  | succ j ih =>
    intro c hubcfg hle
    push_cast at hle
    obtain ⟨hubcfg1, h1⟩ := ih (c + 1) (touchHubConfiguration hubcfg 1) (by omega)
    refine ⟨hubcfg1, ?_⟩
    simp only [bmacRun]
    rw [scenarioD_hold_tick M c (by omega), h1]
    push_cast
    congr 1
    ring

/-- **C10**, the claim at a concrete input: in scenario D the holders after 0, 1, 2, 3 and 4
clock edges are hubs 0, 1, 1, 1, 1 and not 0, 1, 2, 3, 0. -/
theorem scenarioD_holders_first_four_ticks :
    (List.range 5).map (fun k =>
        mapFind (bmacRun sampleConsts k (BMACController.init scenarioD [])).current_token_holder 0)
      = [some 0, some 1, some 1, some 1, some 1] := by
  decide

/-- **C10** as amended (`updateTokenRing`, `passBidirectionalToken`). Ring `[0, 1, 2, 3]`,
hold window 10, from the initial controller state: hub 0 holds the token, every hub is idle
and the direction is clockwise; the first clock edge passes the token from hub 0 to hub 1,
and after each of the clock edges 1 to 7 the holder is hub 1, in state `BMAC_TOKEN_HOLD` with
`has_token` set and `k - 1` hold cycles counted, hub 0 is idle without the token and the
direction is still clockwise. -/
theorem scenarioD_pass_then_hold (M : Consts) (hNV : M.NOT_VALID < 0)
    (hubcfg : List (Int × Int)) :
    (mapFind (BMACController.init scenarioD hubcfg).current_token_holder 0 = some 0 ∧
      mapFind (BMACController.init scenarioD hubcfg).token_direction 0 = some BMAC_CLOCKWISE ∧
      ∀ h ∈ [(0 : Int), 1, 2, 3],
        (hubState (BMACController.init scenarioD hubcfg) h).current_state = BMAC_IDLE) ∧
    ∀ k : Nat, 1 ≤ k → k ≤ 7 →
      mapFind (bmacRun M k (BMACController.init scenarioD hubcfg)).current_token_holder 0
        = some 1 ∧
      mapFind (bmacRun M k (BMACController.init scenarioD hubcfg)).token_direction 0
        = some BMAC_CLOCKWISE ∧
      (hubState (bmacRun M k (BMACController.init scenarioD hubcfg)) 1).current_state
        = BMAC_TOKEN_HOLD ∧
      (hubState (bmacRun M k (BMACController.init scenarioD hubcfg)) 1).has_token = true ∧
      (hubState (bmacRun M k (BMACController.init scenarioD hubcfg)) 1).token_hold_cycles
        = (k : Int) - 1 ∧
      (hubState (bmacRun M k (BMACController.init scenarioD hubcfg)) 0).current_state
        = BMAC_IDLE ∧
      (hubState (bmacRun M k (BMACController.init scenarioD hubcfg)) 0).has_token = false := by
  constructor
  · rw [scenarioD_init]
    refine ⟨rfl, rfl, ?_⟩
    intro h hh
    simp only [List.mem_cons, List.mem_singleton, List.not_mem_nil, or_false] at hh
    rcases hh with rfl | rfl | rfl | rfl <;> rfl
  · intro k h1 h7
    obtain ⟨j, rfl⟩ : ∃ j, k = j + 1 := ⟨k - 1, by omega⟩
    obtain ⟨hubcfg1, hrun⟩ := scenarioD_hold_run M j 0 hubcfg (by omega)
    simp only [bmacRun]
    rw [scenarioD_first_tick M hNV, hrun]
    simp [scenarioDHolding, mapFind, hubState, mapAt, BMAC_CLOCKWISE, BMAC_TOKEN_HOLD, BMAC_IDLE]

/-- Witness of **C10** as amended, at the sample constants and an empty hub configuration. -/
theorem scenarioD_pass_then_hold_witness :
    (mapFind (BMACController.init scenarioD []).current_token_holder 0 = some 0 ∧
      mapFind (BMACController.init scenarioD []).token_direction 0 = some BMAC_CLOCKWISE ∧
      ∀ h ∈ [(0 : Int), 1, 2, 3],
        (hubState (BMACController.init scenarioD []) h).current_state = BMAC_IDLE) ∧
    ∀ k : Nat, 1 ≤ k → k ≤ 7 →
      mapFind (bmacRun sampleConsts k (BMACController.init scenarioD [])).current_token_holder 0
        = some 1 ∧
      mapFind (bmacRun sampleConsts k (BMACController.init scenarioD [])).token_direction 0
        = some BMAC_CLOCKWISE ∧
      (hubState (bmacRun sampleConsts k (BMACController.init scenarioD [])) 1).current_state
        = BMAC_TOKEN_HOLD ∧
      (hubState (bmacRun sampleConsts k (BMACController.init scenarioD [])) 1).has_token = true ∧
      (hubState (bmacRun sampleConsts k (BMACController.init scenarioD [])) 1).token_hold_cycles
        = (k : Int) - 1 ∧
      (hubState (bmacRun sampleConsts k (BMACController.init scenarioD [])) 0).current_state
        = BMAC_IDLE ∧
      (hubState (bmacRun sampleConsts k (BMACController.init scenarioD [])) 0).has_token = false :=
  scenarioD_pass_then_hold sampleConsts (by decide) []

/-- **C9** (`updateTokenBMAC`, `passBidirectionalToken`), the code at the failing input.
Scenario D with the four hubs attached to the arbiter and the controller set: on the first
clock edge with `reset` low the controller passes the token to hub 1, while the arbiter
returns its state unchanged and still publishes hub 0 as holder of the channel. -/
theorem arbiter_ignores_controller_pass (M : Consts) (hNV : M.NOT_VALID < 0)
    (hubcfg : List (Int × Int)) :
    (attachAll scenarioD [(0, 0), (0, 1), (0, 2), (0, 3)] ⟨[], false⟩).bind
        (fun t => systemTick M scenarioD ⟨false, []⟩
          (setBMACController true t, BMACController.init scenarioD hubcfg))
      = some (⟨[(0, ⟨0, [0, 1, 2, 3], 10, 0, 0, [(0, 0), (1, 0), (2, 0), (3, 0)]⟩)], true⟩,
          scenarioDHolding 0 hubcfg)
    ∧ (⟨0, [0, 1, 2, 3], 10, 0, 0, [(0, 0), (1, 0), (2, 0), (3, 0)]⟩ : ChannelRing).current_token_holder
        = 0
    ∧ mapFind (scenarioDHolding 0 hubcfg).current_token_holder 0 = some 1 := by
  refine ⟨?_, rfl, rfl⟩
  have hatt : attachAll scenarioD [(0, 0), (0, 1), (0, 2), (0, 3)] ⟨[], false⟩
      = some ⟨[(0, ⟨0, [0, 1, 2, 3], 10, 0, 0, [(0, 0), (1, 0), (2, 0), (3, 0)]⟩)], false⟩ := by
    decide
  have htick : tick M scenarioD ⟨false, []⟩
      ⟨[(0, ⟨0, [0, 1, 2, 3], 10, 0, 0, [(0, 0), (1, 0), (2, 0), (3, 0)]⟩)], true⟩
      = some ⟨[(0, ⟨0, [0, 1, 2, 3], 10, 0, 0, [(0, 0), (1, 0), (2, 0), (3, 0)]⟩)], true⟩ := by
    have htag : (⟨["BMAC_BIDIRECTIONAL", "10"], 0, [0, 1, 2, 3]⟩ : ChannelConfig).tag
        = some BMAC_BIDIRECTIONAL := by decide
    simp [tick, writeFlags, updateTokens, scenarioD, forChannels, mapFind,
      updateChannel_bidirectional M true _ _ htag, updateTokenBMAC, mapSet]
  rw [hatt]
  simp only [Option.bind, systemTick, setBMACController, htick, Option.map_some',
    scenarioD_first_tick M hNV hubcfg]

/-- Witness of the evaluation for **C9** at the sample constants. -/
theorem arbiter_ignores_controller_pass_witness :
    (attachAll scenarioD [(0, 0), (0, 1), (0, 2), (0, 3)] ⟨[], false⟩).bind
        (fun t => systemTick sampleConsts scenarioD ⟨false, []⟩
          (setBMACController true t, BMACController.init scenarioD []))
      = some (⟨[(0, ⟨0, [0, 1, 2, 3], 10, 0, 0, [(0, 0), (1, 0), (2, 0), (3, 0)]⟩)], true⟩,
          scenarioDHolding 0 [])
    ∧ (⟨0, [0, 1, 2, 3], 10, 0, 0, [(0, 0), (1, 0), (2, 0), (3, 0)]⟩ : ChannelRing).current_token_holder
        = 0
    ∧ mapFind (scenarioDHolding 0 []).current_token_holder 0 = some 1 :=
  arbiter_ignores_controller_pass sampleConsts (by decide) []

/-! ### Token passing of the controller -/

/-- Result of `passBidirectionalToken` once the reversal decision `rev`, the direction
`direction1` it leads to and a valid next hub are known. -/
theorem passBidirectionalToken_of (M : Consts) (channel current_holder : Int)
    (b b1 : BMACController) (rev : Bool) (direction1 next_hub : Int)
    (hrev : shouldReverseDirection channel current_holder
      { b with token_direction := mapTouch 0 b.token_direction channel } = (rev, b1))
    (hdir : direction1 = if rev = true then
        (if mapAt 0 (mapTouch 0 b.token_direction channel) channel = BMAC_CLOCKWISE
          then BMAC_COUNTERCLOCKWISE else BMAC_CLOCKWISE)
      else mapAt 0 (mapTouch 0 b.token_direction channel) channel)
    (b2 : BMACController)
    (hb2 : b2 = if rev = true then
        { b1 with token_direction := mapSet channel direction1 b1.token_direction } else b1)
    (hnext : getNextHub M b2 channel current_holder direction1 = next_hub)
    (hv : next_hub ≠ M.NOT_VALID) :
    passBidirectionalToken M channel current_holder b =
      setHubState
        (setHubState { b2 with
            current_token_holder := mapSet channel next_hub b2.current_token_holder }
          current_holder
          { (hubState { b2 with
              current_token_holder := mapSet channel next_hub b2.current_token_holder }
              current_holder) with
            has_token := false, current_state := BMAC_IDLE, token_hold_cycles := 0 })
        next_hub
        { (hubState (setHubState { b2 with
              current_token_holder := mapSet channel next_hub b2.current_token_holder }
            current_holder
            { (hubState { b2 with
                current_token_holder := mapSet channel next_hub b2.current_token_holder }
                current_holder) with
              has_token := false, current_state := BMAC_IDLE, token_hold_cycles := 0 })
            next_hub) with
          has_token := true, current_state := BMAC_TOKEN_HOLD } := by
  subst hdir
  subst hb2
  subst hnext
  unfold passBidirectionalToken
  simp only [hrev]
  rw [if_pos hv]

theorem bmacRun_succ (M : Consts) (k : Nat) (b : BMACController) :
    bmacRun M (k + 1) b = bmacProcess M false (bmacRun M k b) := by
  induction k generalizing b with
  | zero => rfl
  | succ k ih =>
    show bmacRun M (k + 1) (bmacProcess M false b) = _
    rw [ih]
    rfl

theorem scenarioD_shouldReverse (c : Int) (hubcfg : List (Int × Int)) :
    shouldReverseDirection 0 1 (scenarioDHolding c hubcfg)
      = (true, scenarioDHolding c hubcfg) := by
  rfl

theorem scenarioD_next_counterclockwise (M : Consts) (hNV : M.NOT_VALID < 0)
    (b : BMACController) (hr : b.token_ring_order = [(0, [0, 1, 2, 3])]) :
    getNextHub M b 0 1 BMAC_COUNTERCLOCKWISE = 0 := by
  have h1 : (1 : Int) ≠ M.NOT_VALID := by omega
  simp [getNextHub, hr, mapFind, findHub, h1, BMAC_COUNTERCLOCKWISE, BMAC_CLOCKWISE, sizeT]

theorem scenarioD_pass_back (M : Consts) (hNV : M.NOT_VALID < 0) (c : Int)
    (hubcfg : List (Int × Int)) :
    passBidirectionalToken M 0 1 (scenarioDHolding c hubcfg) = scenarioDReturned hubcfg := by
  have h0 : (0 : Int) ≠ M.NOT_VALID := by omega
  rw [passBidirectionalToken_of M 0 1 (scenarioDHolding c hubcfg) (scenarioDHolding c hubcfg)
    true BMAC_COUNTERCLOCKWISE 0 rfl rfl _ rfl
    (scenarioD_next_counterclockwise M hNV _ rfl) h0]
  rfl

/-- The clock edge of scenario D on which hub 1 has counted more than 5 hold cycles: the
direction is reversed and the token goes back to hub 0. -/
theorem scenarioD_reverse_tick (M : Consts) (hNV : M.NOT_VALID < 0) (c : Int) (hc : 5 < c)
    (hubcfg : List (Int × Int)) :
    bmacProcess M false (scenarioDHolding c hubcfg)
      = scenarioDReturned (touchHubConfiguration hubcfg 1) := by
  have hstep : bmacProcess M false (scenarioDHolding c hubcfg)
      = if isTransmissionComplete (scenarioDHolding c (touchHubConfiguration hubcfg 1)) 1 = true ∨
          c ≥ maxHoldCycles hubcfg 1
        then passBidirectionalToken M 0 1 (scenarioDHolding c (touchHubConfiguration hubcfg 1))
        else scenarioDHolding (c + 1) (touchHubConfiguration hubcfg 1) := rfl
  have hcomp :
      isTransmissionComplete (scenarioDHolding c (touchHubConfiguration hubcfg 1)) 1 = true := by
    simp [isTransmissionComplete, hubState, scenarioDHolding, mapAt, mapFind, hc]
  rw [hstep, if_pos (Or.inl hcomp), scenarioD_pass_back M hNV]

theorem scenarioD_eight_ticks (M : Consts) (hNV : M.NOT_VALID < 0) (hubcfg : List (Int × Int)) :
    ∃ hubcfg1, bmacRun M 8 (BMACController.init scenarioD hubcfg) = scenarioDReturned hubcfg1 := by
  obtain ⟨hubcfg1, h6⟩ := scenarioD_hold_run M 6 0 hubcfg (by norm_num)
  refine ⟨touchHubConfiguration hubcfg1 1, ?_⟩
  rw [bmacRun_succ]
  show bmacProcess M false (bmacRun M 6 (bmacProcess M false (BMACController.init scenarioD hubcfg)))
    = _
  rw [scenarioD_first_tick M hNV, h6]
  exact scenarioD_reverse_tick M hNV _ (by norm_num) hubcfg1

/-- **C11** (`shouldReverseDirection`), the code at two failing inputs. First: ring
`[0, 1, 2, 3]`, direction clockwise, holder hub 1 at index 1 in state `BMAC_TOKEN_HOLD`, every
other hub idle; no hub that is not idle sits before or after index 1, yet the function
returns true, because the holder is counted as backward. Second: ring `[5, 6]`, direction
clockwise, holder hub 5 at index 0, hub 6 at index 1 not idle; the only pending hub lies
forward of index 0, yet the function returns true, because the index is compared with the
hub id 5. -/
theorem shouldReverseDirection_counts_holder (c : Int) (hubcfg : List (Int × Int)) :
    (shouldReverseDirection 0 1 (scenarioDHolding c hubcfg)).1 = true ∧
    (shouldReverseDirection 0 5
      ⟨[(5, ⟨5, 0, 0, 0, true, true, 6, 6⟩), (6, ⟨6, 1, 0, 0, true, false, 5, 5⟩)],
        [(0, [5, 6])], [(0, 5)], [(0, 0)], hubcfg⟩).1 = true := by
  constructor <;> rfl

theorem scenarioE_next (M : Consts) (hNV : M.NOT_VALID < 0) (b : BMACController)
    (hr : b.token_ring_order = [(0, [0, 1, 2, 3, 4, 5])]) :
    getNextHub M b 0 3 BMAC_COUNTERCLOCKWISE = 2 := by
  have h3 : (3 : Int) ≠ M.NOT_VALID := by omega
  simp [getNextHub, hr, mapFind, findHub, h3, BMAC_COUNTERCLOCKWISE, BMAC_CLOCKWISE, sizeT]

theorem mapTouch_of_find {α : Type} (d : α) (m : List (Int × α)) (k : Int) (v : α)
    (h : mapFind m k = some v) : mapTouch d m k = m := by
  simp [mapTouch, h]

theorem mapAt_of_find {α : Type} (d : α) (m : List (Int × α)) (k : Int) (v : α)
    (h : mapFind m k = some v) : mapAt d m k = v := by
  simp [mapAt, h]

/-- A controller with a single ring runs `updateTokenRing` once per clock edge. -/
theorem bmacProcess_single (M : Consts) (b : BMACController) (channel : Int) (ring : List Int)
    (hro : b.token_ring_order = [(channel, ring)]) :
    bmacProcess M false b = updateTokenRing M channel b := by
  simp only [bmacProcess, Bool.false_eq_true, if_false, hro, updateTokenRings]

/-- With an idle holder `updateTokenRing` passes the token. -/
theorem updateTokenRing_idle (M : Consts) (channel : Int) (b : BMACController)
    (ring : List Int) (holder : Int) (st : BMACState)
    (hring : mapFind b.token_ring_order channel = some ring)
    (hholder : mapFind b.current_token_holder channel = some holder)
    (hst : mapFind b.hub_states holder = some st) (hidle : st.current_state = BMAC_IDLE) :
    updateTokenRing M channel b = passBidirectionalToken M channel holder b := by
  have hne : BMAC_IDLE ≠ BMAC_TOKEN_HOLD := by decide
  unfold updateTokenRing
  simp only [hring, mapTouch_of_find _ _ _ _ hholder, mapAt_of_find _ _ _ _ hholder, touchHub,
    mapTouch_of_find _ _ _ _ hst, hubState, mapAt_of_find _ _ _ _ hst, hidle, hne, if_false,
    if_true]

theorem scenarioE_shouldReverse (s0 s1 s2 s3 s4 s5 : BMACState) (hubcfg : List (Int × Int)) :
    shouldReverseDirection 0 3 (scenarioE s0 s1 s2 s3 s4 s5 hubcfg)
      = (true, scenarioE s0 s1 s2 s3 s4 s5 hubcfg) := rfl

theorem scenarioE_tick (M : Consts) (hNV : M.NOT_VALID < 0)
    (s0 s1 s2 s3 s4 s5 : BMACState) (hubcfg : List (Int × Int)) :
    bmacProcess M false (scenarioE s0 s1 s2 s3 s4 s5 hubcfg) =
      ⟨[(0, { s0 with current_state := BMAC_IDLE }),
          (1, { s1 with current_state := BMAC_TOKEN_HOLD }),
          (2, { s2 with current_state := BMAC_TOKEN_HOLD, has_token := true }),
          (3, { s3 with current_state := BMAC_IDLE, has_token := false, token_hold_cycles := 0 }),
          (4, { s4 with current_state := BMAC_IDLE }), (5, { s5 with current_state := BMAC_IDLE })],
        [(0, [0, 1, 2, 3, 4, 5])], [(0, 2)], [(0, BMAC_COUNTERCLOCKWISE)], hubcfg⟩ := by
  have h2 : (2 : Int) ≠ M.NOT_VALID := by omega
  rw [bmacProcess_single M (scenarioE s0 s1 s2 s3 s4 s5 hubcfg) 0 [0, 1, 2, 3, 4, 5] rfl,
    updateTokenRing_idle M 0 (scenarioE s0 s1 s2 s3 s4 s5 hubcfg) [0, 1, 2, 3, 4, 5] 3
      { s3 with current_state := BMAC_IDLE } rfl rfl rfl rfl,
    passBidirectionalToken_of M 0 3 (scenarioE s0 s1 s2 s3 s4 s5 hubcfg)
      (scenarioE s0 s1 s2 s3 s4 s5 hubcfg) true BMAC_COUNTERCLOCKWISE 2
      (scenarioE_shouldReverse _ _ _ _ _ _ _) rfl _ rfl (scenarioE_next M hNV _ rfl) h2]
  rfl

/-- **C12** (`updateTokenRing`, `passBidirectionalToken`, `shouldReverseDirection`). Ring
`[0, ..., 5]`, holder hub 3, direction clockwise, hub 1 in state `BMAC_TOKEN_HOLD` and every
other hub idle, whatever the other fields of the hub states: one clock edge with `reset` low
sets the direction to counter-clockwise and makes hub 2 the holder; hub 3 is idle without
the token and with 0 hold cycles, hub 2 is in state `BMAC_TOKEN_HOLD` with `has_token`. -/
theorem scenarioE_reversal (M : Consts) (hNV : M.NOT_VALID < 0)
    (s0 s1 s2 s3 s4 s5 : BMACState) (hubcfg : List (Int × Int)) :
    mapFind (bmacProcess M false (scenarioE s0 s1 s2 s3 s4 s5 hubcfg)).token_direction 0
      = some BMAC_COUNTERCLOCKWISE ∧
    mapFind (bmacProcess M false (scenarioE s0 s1 s2 s3 s4 s5 hubcfg)).current_token_holder 0
      = some 2 ∧
    hubState (bmacProcess M false (scenarioE s0 s1 s2 s3 s4 s5 hubcfg)) 3
      = { s3 with has_token := false, current_state := BMAC_IDLE, token_hold_cycles := 0 } ∧
    hubState (bmacProcess M false (scenarioE s0 s1 s2 s3 s4 s5 hubcfg)) 2
      = { s2 with has_token := true, current_state := BMAC_TOKEN_HOLD } := by
  rw [scenarioE_tick M hNV]
  exact ⟨rfl, rfl, rfl, rfl⟩

/-- Witness of **C12** at the sample constants, with hub 3 holding the token flag. -/
theorem scenarioE_reversal_witness :
    mapFind (bmacProcess sampleConsts false
        (scenarioE BMACState.zero BMACState.zero BMACState.zero
          { BMACState.zero with has_token := true } BMACState.zero BMACState.zero
          [])).token_direction 0
      = some BMAC_COUNTERCLOCKWISE ∧
    mapFind (bmacProcess sampleConsts false
        (scenarioE BMACState.zero BMACState.zero BMACState.zero
          { BMACState.zero with has_token := true } BMACState.zero BMACState.zero
          [])).current_token_holder 0
      = some 2 ∧
    hubState (bmacProcess sampleConsts false
        (scenarioE BMACState.zero BMACState.zero BMACState.zero
          { BMACState.zero with has_token := true } BMACState.zero BMACState.zero [])) 3
      = { ({ BMACState.zero with has_token := true } : BMACState) with
          has_token := false, current_state := BMAC_IDLE, token_hold_cycles := 0 } ∧
    hubState (bmacProcess sampleConsts false
        (scenarioE BMACState.zero BMACState.zero BMACState.zero
          { BMACState.zero with has_token := true } BMACState.zero BMACState.zero [])) 2
      = { BMACState.zero with has_token := true, current_state := BMAC_TOKEN_HOLD } :=
  scenarioE_reversal sampleConsts (by decide) BMACState.zero BMACState.zero BMACState.zero
    { BMACState.zero with has_token := true } BMACState.zero BMACState.zero []

/-- **C13** (`bmacProcess`, `configureBMACRing`), the code at the failing input. Scenario D
in its initial state, where hub 0 holds the token and has `has_token` set: a clock edge with
`reset` high clears `has_token` of every hub and keeps hub 0 as holder of the channel, so no
hub of the ring has `has_token`. -/
theorem reset_clears_every_has_token (M : Consts) (hubcfg : List (Int × Int)) :
    (hubState (BMACController.init scenarioD hubcfg) 0).has_token = true ∧
    mapFind (bmacProcess M true (BMACController.init scenarioD hubcfg)).token_ring_order 0
      = some [0, 1, 2, 3] ∧
    mapFind (bmacProcess M true (BMACController.init scenarioD hubcfg)).current_token_holder 0
      = some 0 ∧
    ∀ h ∈ [(0 : Int), 1, 2, 3],
      (hubState (bmacProcess M true (BMACController.init scenarioD hubcfg)) h).has_token
        = false := by
  refine ⟨rfl, rfl, rfl, ?_⟩
  intro h hh
  simp only [List.mem_cons, List.mem_singleton, List.not_mem_nil, or_false] at hh
  rcases hh with rfl | rfl | rfl | rfl <;> rfl

/-- **C15** (`bmacProcess`), the code at the failing input. Scenario D after eight clock
edges with `reset` low, when the direction has been reversed to counter-clockwise: a clock
edge with `reset` high makes every hub idle with 0 hold cycles and hub 0 the holder, and
leaves the direction counter-clockwise. -/
theorem reset_keeps_direction (M : Consts) (hNV : M.NOT_VALID < 0)
    (hubcfg : List (Int × Int)) :
    mapFind (bmacRun M 8 (BMACController.init scenarioD hubcfg)).token_direction 0
      = some BMAC_COUNTERCLOCKWISE ∧
    mapFind (bmacProcess M true
        (bmacRun M 8 (BMACController.init scenarioD hubcfg))).token_direction 0
      = some BMAC_COUNTERCLOCKWISE ∧
    mapFind (bmacProcess M true
        (bmacRun M 8 (BMACController.init scenarioD hubcfg))).current_token_holder 0
      = some 0 ∧
    ∀ h ∈ [(0 : Int), 1, 2, 3],
      (hubState (bmacProcess M true
        (bmacRun M 8 (BMACController.init scenarioD hubcfg))) h).current_state = BMAC_IDLE ∧
      (hubState (bmacProcess M true
        (bmacRun M 8 (BMACController.init scenarioD hubcfg))) h).token_hold_cycles = 0 := by
  obtain ⟨hubcfg1, h8⟩ := scenarioD_eight_ticks M hNV hubcfg
  rw [h8]
  refine ⟨rfl, rfl, rfl, ?_⟩
  intro h hh
  simp only [List.mem_cons, List.mem_singleton, List.not_mem_nil, or_false] at hh
  rcases hh with rfl | rfl | rfl | rfl <;> exact ⟨rfl, rfl⟩

/-- Witness of the evaluation for **C15** at the sample constants. -/
theorem reset_keeps_direction_witness :
    mapFind (bmacRun sampleConsts 8 (BMACController.init scenarioD [])).token_direction 0
      = some BMAC_COUNTERCLOCKWISE ∧
    mapFind (bmacProcess sampleConsts true
        (bmacRun sampleConsts 8 (BMACController.init scenarioD []))).token_direction 0
      = some BMAC_COUNTERCLOCKWISE ∧
    mapFind (bmacProcess sampleConsts true
        (bmacRun sampleConsts 8 (BMACController.init scenarioD []))).current_token_holder 0
      = some 0 ∧
    ∀ h ∈ [(0 : Int), 1, 2, 3],
      (hubState (bmacProcess sampleConsts true
        (bmacRun sampleConsts 8 (BMACController.init scenarioD []))) h).current_state
          = BMAC_IDLE ∧
      (hubState (bmacProcess sampleConsts true
        (bmacRun sampleConsts 8 (BMACController.init scenarioD []))) h).token_hold_cycles = 0 :=
  reset_keeps_direction sampleConsts (by decide) []

/-- **C16** (`updateTokenRing`, `isTransmissionComplete`), the code at the failing input.
Scenario D configured with hold window 3: after four clock edges hub 1 holds the token in
state `BMAC_TOKEN_HOLD` with 3 hold cycles counted, as many as the hold window; the fifth
clock edge does not pass the token, it counts a fourth cycle and hub 1 stays the holder. -/
theorem hold_window_parameter_ignored (M : Consts) (hNV : M.NOT_VALID < 0)
    (hubcfg : List (Int × Int)) :
    (scenarioDWindow3.map (fun e => e.2.param)) = [some 3] ∧
    ∃ hubcfg1 hubcfg2,
      bmacRun M 4 (BMACController.init scenarioDWindow3 hubcfg) = scenarioDHolding 3 hubcfg1 ∧
      bmacProcess M false (scenarioDHolding 3 hubcfg1) = scenarioDHolding 4 hubcfg2 := by
  refine ⟨by decide, ?_⟩
  obtain ⟨hubcfg1, h3⟩ := scenarioD_hold_run M 3 0 hubcfg (by norm_num)
  refine ⟨hubcfg1, touchHubConfiguration hubcfg1 1, ?_, ?_⟩
  · show bmacRun M 3 (bmacProcess M false (BMACController.init scenarioD hubcfg)) = _
    rw [scenarioD_first_tick M hNV, h3]
    norm_num
  · have h := scenarioD_hold_tick M 3 (by norm_num) hubcfg1
    norm_num at h
    exact h

/-- Witness of the evaluation for **C16** at the sample constants. -/
theorem hold_window_parameter_ignored_witness :
    (scenarioDWindow3.map (fun e => e.2.param)) = [some 3] ∧
    ∃ hubcfg1 hubcfg2,
      bmacRun sampleConsts 4 (BMACController.init scenarioDWindow3 [])
        = scenarioDHolding 3 hubcfg1 ∧
      bmacProcess sampleConsts false (scenarioDHolding 3 hubcfg1) = scenarioDHolding 4 hubcfg2 :=
  hold_window_parameter_ignored sampleConsts (by decide) []

/-! ### Initial state of the controller -/

theorem mem_mapSet {α : Type} (key : Int) (v : α) (m : List (Int × α)) (e : Int × α)
    (h : e ∈ mapSet key v m) : e = (key, v) ∨ e ∈ m := by
  induction m with
  | nil =>
    simp only [mapSet, List.mem_singleton] at h
    exact Or.inl h
  | cons x rest ih =>
    obtain ⟨k, w⟩ := x
    by_cases h1 : k = key
    · simp only [mapSet, h1, if_true, List.mem_cons] at h
      rcases h with h | h
      · exact Or.inl h
      · exact Or.inr (List.mem_cons_of_mem _ h)
    · by_cases h2 : key < k
      · simp only [mapSet, h1, h2, if_true, if_false, List.mem_cons] at h
        rcases h with h | h | h
        · exact Or.inl h
        · exact Or.inr (by rw [h]; exact List.mem_cons_self _ _)
        · exact Or.inr (List.mem_cons_of_mem _ h)
      · simp only [mapSet, h1, h2, if_false, List.mem_cons] at h
        rcases h with h | h
        · exact Or.inr (by rw [h]; exact List.mem_cons_self _ _)
        · rcases ih h with h3 | h3
          · exact Or.inl h3
          · exact Or.inr (List.mem_cons_of_mem _ h3)

theorem allIdle_mapSet (key : Int) (st : BMACState) (hs : List (Int × BMACState))
    (hst : st.current_state = BMAC_IDLE) (h : AllIdle hs) : AllIdle (mapSet key st hs) := by
  intro e he
  rcases mem_mapSet key st hs e he with h1 | h1
  · rw [h1]; exact hst
  · exact h e h1

theorem allIdle_mapAt (hs : List (Int × BMACState)) (h : AllIdle hs) (hub : Int) :
    (mapAt BMACState.zero hs hub).current_state = BMAC_IDLE := by
  unfold mapAt
  cases hf : mapFind hs hub with
  | none => rfl
  | some st => exact h (hub, st) (mem_of_mapFind hs hub st hf)

theorem allIdle_configureHubs (hub_order : List Int) :
    ∀ (l : List Int) (i : Nat) (hs : List (Int × BMACState)), AllIdle hs →
      AllIdle (configureHubs hub_order l i hs) := by
  intro l
  induction l with
  | nil => intro i hs h; exact h
  | cons hub rest ih =>
    intro i hs h
    simp only [configureHubs]
    exact ih _ _ (allIdle_mapSet _ _ _ rfl h)

theorem allIdle_enableHubs (enable : Bool) :
    ∀ (l : List Int) (hs : List (Int × BMACState)), AllIdle hs →
      AllIdle (enableHubs enable l hs) := by
  intro l
  induction l with
  | nil => intro hs h; exact h
  | cons hub rest ih =>
    intro hs h
    simp only [enableHubs]
    exact ih _ (allIdle_mapSet _ _ _ (allIdle_mapAt hs h hub) h)

theorem allIdle_enableBidirectionalMode (channel : Int) (enable : Bool) (b : BMACController)
    (h : AllIdle b.hub_states) :
    AllIdle (enableBidirectionalMode channel enable b).hub_states := by
  unfold enableBidirectionalMode
  cases mapFind b.token_ring_order channel with
  | none => exact h
  | some ring => exact allIdle_enableHubs enable ring _ h

theorem enableBidirectionalMode_ring (channel : Int) (enable : Bool) (b : BMACController) :
    (enableBidirectionalMode channel enable b).token_ring_order = b.token_ring_order := by
  unfold enableBidirectionalMode
  cases mapFind b.token_ring_order channel <;> rfl

theorem enableBidirectionalMode_holder (channel : Int) (enable : Bool) (b : BMACController) :
    (enableBidirectionalMode channel enable b).current_token_holder
      = b.current_token_holder := by
  unfold enableBidirectionalMode
  cases mapFind b.token_ring_order channel <;> rfl

theorem enableBidirectionalMode_direction (channel : Int) (enable : Bool)
    (b : BMACController) :
    (enableBidirectionalMode channel enable b).token_direction = b.token_direction := by
  unfold enableBidirectionalMode
  cases mapFind b.token_ring_order channel <;> rfl

theorem allIdle_initializeBMAC :
    ∀ (cfgs : List (Int × ChannelConfig)) (b : BMACController), AllIdle b.hub_states →
      AllIdle (initializeBMAC cfgs b).hub_states := by
  intro cfgs
  induction cfgs with
  | nil => intro b h; exact h
  | cons e rest ih =>
    obtain ⟨channel, config⟩ := e
    intro b h
    simp only [initializeBMAC]
    split
    · apply ih
      exact allIdle_enableBidirectionalMode channel true _
        (allIdle_configureHubs _ _ _ _ h)
    · exact ih b h

/-- Channels that are not configured keep their entries through `initializeBMAC`. -/
theorem initializeBMAC_frame :
    ∀ (cfgs : List (Int × ChannelConfig)) (b : BMACController) (c : Int),
      c ∉ cfgs.map Prod.fst →
      mapFind (initializeBMAC cfgs b).token_ring_order c = mapFind b.token_ring_order c ∧
      mapFind (initializeBMAC cfgs b).current_token_holder c
        = mapFind b.current_token_holder c ∧
      mapFind (initializeBMAC cfgs b).token_direction c = mapFind b.token_direction c := by
  intro cfgs
  induction cfgs with
  | nil => intro b c _; exact ⟨rfl, rfl, rfl⟩
  | cons e rest ih =>
    obtain ⟨channel, config⟩ := e
    intro b c hc
    simp only [List.map_cons, List.mem_cons, not_or] at hc
    have hne : channel ≠ c := fun h => hc.1 h.symm
    simp only [initializeBMAC]
    split
    · refine ⟨?_, ?_, ?_⟩
      · rw [(ih _ c hc.2).1]
        simp only [enableBidirectionalMode_ring, configureBMACRing,
          mapFind_mapSet_ne _ _ _ _ hne]
      · rw [(ih _ c hc.2).2.1]
        simp only [enableBidirectionalMode_holder, configureBMACRing,
          mapFind_mapSet_ne _ _ _ _ hne]
      · rw [(ih _ c hc.2).2.2]
        simp only [enableBidirectionalMode_direction, configureBMACRing,
          mapFind_mapSet_ne _ _ _ _ hne]
    · exact ih b c hc.2

/-- Entries `initializeBMAC` leaves for a configured bidirectional channel. -/
theorem initializeBMAC_channel :
    ∀ (cfgs : List (Int × ChannelConfig)) (b : BMACController) (c : Int)
      (cfg : ChannelConfig), (cfgs.map Prod.fst).Nodup → (c, cfg) ∈ cfgs →
      cfg.tag = some BMAC_BIDIRECTIONAL →
      mapFind (initializeBMAC cfgs b).token_ring_order c = some cfg.hubOrder ∧
      mapFind (initializeBMAC cfgs b).current_token_holder c = some (cfg.hubOrder.headD 0) ∧
      mapFind (initializeBMAC cfgs b).token_direction c = some BMAC_CLOCKWISE := by
  intro cfgs
  induction cfgs with
  | nil => intro b c cfg _ hm; cases hm
  | cons e rest ih =>
    obtain ⟨channel, config⟩ := e
    intro b c cfg hk hm htag
    simp only [List.map_cons, List.nodup_cons] at hk
    rcases List.mem_cons.mp hm with heq | hrest
    · cases heq
      have hlen : config.macPolicy.length > 0 := by
        unfold ChannelConfig.tag at htag
        cases hmp : config.macPolicy with
        | nil => rw [hmp] at htag; simp at htag
        | cons x xs => simp
      have hcond : config.macPolicy.length > 0 ∧
          config.macPolicy[0]? = some BMAC_BIDIRECTIONAL := ⟨hlen, htag⟩
      simp only [initializeBMAC, hcond, and_self, if_true]
      refine ⟨?_, ?_, ?_⟩
      · rw [(initializeBMAC_frame rest _ channel hk.1).1]
        simp only [enableBidirectionalMode_ring, configureBMACRing, mapFind_mapSet_self,
          ChannelConfig.hubOrder]
      · rw [(initializeBMAC_frame rest _ channel hk.1).2.1]
        simp only [mapFind_mapSet_self, ChannelConfig.hubOrder]
      · rw [(initializeBMAC_frame rest _ channel hk.1).2.2]
        simp only [mapFind_mapSet_self]
    · simp only [initializeBMAC]
      split
      · exact ih _ c cfg hk.2 hrest htag
      · exact ih b c cfg hk.2 hrest htag

theorem hubOrder_ne_nil (cfg : ChannelConfig) : cfg.hubOrder ≠ [] := by
  unfold ChannelConfig.hubOrder
  split
  · rename_i h
    intro hnil
    rw [hnil] at h
    simp at h
  · decide

/-- **C14**, the claim at a concrete input: in the initial controller state of scenario D the
state of `ring[0]`, hub 0, is `BMAC_IDLE` and not `BMAC_TOKEN_HOLD`. -/
theorem initial_holder_is_idle :
    (hubState (BMACController.init scenarioD []) 0).current_state = BMAC_IDLE ∧
    (hubState (BMACController.init scenarioD []) 0).current_state ≠ BMAC_TOKEN_HOLD := by
  constructor <;> decide

/-- **C14** as amended (`initializeBMAC`, `configureBMACRing`). After the initialization of
the controller, for every configured channel with tag `BMAC_BIDIRECTIONAL` the ring is the
configured ring order (the fallback order when none is configured) and is not empty, the
holder is `ring[0]`, the direction is clockwise, and every hub of the ring, `ring[0]`
included, is in state `BMAC_IDLE`. -/
theorem initial_controller_state (cfgs : List (Int × ChannelConfig))
    (hk : DistinctChannels cfgs) (hubcfg : List (Int × Int)) (c : Int) (cfg : ChannelConfig)
    (hm : (c, cfg) ∈ cfgs) (htag : cfg.tag = some BMAC_BIDIRECTIONAL) :
    mapFind (BMACController.init cfgs hubcfg).token_ring_order c = some cfg.hubOrder ∧
    cfg.hubOrder ≠ [] ∧
    (∃ h0, vecAt cfg.hubOrder 0 = some h0 ∧
      mapFind (BMACController.init cfgs hubcfg).current_token_holder c = some h0) ∧
    mapFind (BMACController.init cfgs hubcfg).token_direction c = some BMAC_CLOCKWISE ∧
    ∀ h ∈ cfg.hubOrder,
      (hubState (BMACController.init cfgs hubcfg) h).current_state = BMAC_IDLE := by
  obtain ⟨h1, h2, h3⟩ := initializeBMAC_channel cfgs ⟨[], [], [], [], hubcfg⟩ c cfg hk hm htag
  have hidle : AllIdle (BMACController.init cfgs hubcfg).hub_states :=
    allIdle_initializeBMAC cfgs ⟨[], [], [], [], hubcfg⟩ (fun e he => by cases he)
  refine ⟨h1, hubOrder_ne_nil cfg, ⟨cfg.hubOrder.headD 0, ?_, h2⟩, h3, ?_⟩
  · have hne := hubOrder_ne_nil cfg
    cases hl : cfg.hubOrder with
    | nil => exact absurd hl hne
    | cons x xs => simp [vecAt]
  · intro h _
    exact allIdle_mapAt _ hidle h

/-- Witness of **C14** as amended: scenario D. -/
theorem initial_controller_state_witness :
    mapFind (BMACController.init scenarioD []).token_ring_order 0
      = some (⟨["BMAC_BIDIRECTIONAL", "10"], 0, [0, 1, 2, 3]⟩ : ChannelConfig).hubOrder ∧
    (⟨["BMAC_BIDIRECTIONAL", "10"], 0, [0, 1, 2, 3]⟩ : ChannelConfig).hubOrder ≠ [] ∧
    (∃ h0, vecAt (⟨["BMAC_BIDIRECTIONAL", "10"], 0, [0, 1, 2, 3]⟩ : ChannelConfig).hubOrder 0
        = some h0 ∧
      mapFind (BMACController.init scenarioD []).current_token_holder 0 = some h0) ∧
    mapFind (BMACController.init scenarioD []).token_direction 0 = some BMAC_CLOCKWISE ∧
    ∀ h ∈ (⟨["BMAC_BIDIRECTIONAL", "10"], 0, [0, 1, 2, 3]⟩ : ChannelConfig).hubOrder,
      (hubState (BMACController.init scenarioD []) h).current_state = BMAC_IDLE :=
  initial_controller_state scenarioD (by decide) [] 0 ⟨["BMAC_BIDIRECTIONAL", "10"], 0, [0, 1, 2, 3]⟩
    (by decide) (by decide)

/-! ### Distance-aware routing -/

/-- **C18** (`Routing_DA_BMAC::canHubsCommunicate`), the code at the failing input: in the
configuration with two channels whose rings are `[0, 1]` and `[14, 15]`, hubs 0 and 15 belong
to no common ring, yet `canHubsCommunicate` is true. -/
theorem canHubsCommunicate_without_shared_ring :
    canHubsCommunicate 0 15 = true ∧
    ¬ ∃ e ∈ twoDisjointRings, (0 : Int) ∈ e.2.tokenRingOrder ∧ (15 : Int) ∈ e.2.tokenRingOrder := by
  constructor <;> decide

/-- What the body of `canHubsCommunicate` computes: the result is true if and only if the
two ids differ; the channel configuration is not consulted. -/
theorem canHubsCommunicate_iff_distinct (h1 h2 : Int) :
    (canHubsCommunicate h1 h2 = true ↔ h1 ≠ h2) ∧ canHubsCommunicate h1 h1 = false := by
  constructor
  · unfold canHubsCommunicate
    by_cases h : h1 = h2 <;> simp [h]
  · simp [canHubsCommunicate]

/-! ### The assertion on an unknown policy tag -/

theorem mapSet_same {α : Type} (k : Int) (v : α) :
    ∀ (m : List (Int × α)), SortedKeys m → mapFind m k = some v → mapSet k v m = m := by
  intro m
  induction m with
  | nil => intro _ h; cases h
  | cons e rest ih =>
    obtain ⟨k0, w⟩ := e
    intro hs hf
    simp only [SortedKeys, List.map_cons, List.pairwise_cons] at hs
    by_cases h1 : k0 = k
    · simp only [mapFind, h1, if_true, Option.some.injEq] at hf
      simp [mapSet, h1, hf]
    · simp only [mapFind, h1, if_false] at hf
      have hmem : k ∈ rest.map Prod.fst := List.mem_map_of_mem Prod.fst (mem_of_mapFind rest k v hf)
      have hlt : k0 < k := hs.1 k hmem
      have h2 : ¬ k < k0 := by omega
      simp only [mapSet, h1, h2, if_false]
      rw [ih hs.2 hf]

theorem mapSet_keys {α : Type} (k : Int) (v w : α) :
    ∀ (m : List (Int × α)), SortedKeys m → mapFind m k = some w →
      (mapSet k v m).map Prod.fst = m.map Prod.fst := by
  intro m
  induction m with
  | nil => intro _ h; cases h
  | cons e rest ih =>
    obtain ⟨k0, w0⟩ := e
    intro hs hf
    simp only [SortedKeys, List.map_cons, List.pairwise_cons] at hs
    by_cases h1 : k0 = k
    · simp [mapSet, h1]
    · simp only [mapFind, h1, if_false] at hf
      have hmem : k ∈ rest.map Prod.fst := List.mem_map_of_mem Prod.fst (mem_of_mapFind rest k w hf)
      have hlt : k0 < k := hs.1 k hmem
      have h2 : ¬ k < k0 := by omega
      simp only [mapSet, h1, h2, if_false, List.map_cons]
      rw [ih hs.2 hf]

theorem mapFind_of_key {α : Type} (k : Int) :
    ∀ (m : List (Int × α)), k ∈ m.map Prod.fst → ∃ v, mapFind m k = some v := by
  intro m
  induction m with
  | nil => intro h; cases h
  | cons e rest ih =>
    obtain ⟨k0, w⟩ := e
    intro h
    by_cases h1 : k0 = k
    · exact ⟨w, by simp [mapFind, h1]⟩
    · simp only [List.map_cons, List.mem_cons] at h
      rcases h with h | h
      · exact absurd h.symm h1
      · obtain ⟨v, hv⟩ := ih h
        exact ⟨v, by simp [mapFind, h1, hv]⟩

/-- A loop over the channels replaces states in place: the keys stay as they are and
every configured channel is among them. -/
theorem forChannels_keys (step : ChannelConfig → ChannelRing → Option ChannelRing) :
    ∀ (cfgs : List (Int × ChannelConfig)) (chs chs1 : List (Int × ChannelRing)),
      SortedKeys chs → forChannels step cfgs chs = some chs1 →
      chs1.map Prod.fst = chs.map Prod.fst ∧
      ∀ c cfg, (c, cfg) ∈ cfgs → c ∈ chs.map Prod.fst := by
  intro cfgs
  induction cfgs with
  | nil =>
    intro chs chs1 _ h
    simp only [forChannels, Option.some.injEq] at h
    rw [h]
    exact ⟨rfl, fun c cfg hm => by cases hm⟩
  | cons e rest ih =>
    obtain ⟨c0, cfg0⟩ := e
    intro chs chs1 hs h
    cases h0 : mapFind chs c0 with
    | none => simp [forChannels, h0] at h
    | some r0 =>
      cases h1 : step cfg0 r0 with
      | none => simp [forChannels, h0, h1] at h
      | some r1 =>
        simp only [forChannels, h0, h1] at h
        have hkeys := mapSet_keys c0 r1 r0 chs hs h0
        have hs1 : SortedKeys (mapSet c0 r1 chs) := by
          unfold SortedKeys
          rw [hkeys]
          exact hs
        obtain ⟨ih1, ih2⟩ := ih (mapSet c0 r1 chs) chs1 hs1 h
        refine ⟨by rw [ih1, hkeys], ?_⟩
        intro c cfg hm
        rcases List.mem_cons.mp hm with heq | hrest
        · cases heq
          exact List.mem_map_of_mem Prod.fst (mem_of_mapFind chs c0 r0 h0)
        · rw [← hkeys]
          exact ih2 c cfg hrest

/-- A loop whose body returns every state it finds returns the states unchanged. -/
theorem forChannels_fixed (step : ChannelConfig → ChannelRing → Option ChannelRing) :
    ∀ (cfgs : List (Int × ChannelConfig)) (chs : List (Int × ChannelRing)),
      SortedKeys chs →
      (∀ c cfg, (c, cfg) ∈ cfgs → ∃ r, mapFind chs c = some r ∧ step cfg r = some r) →
      forChannels step cfgs chs = some chs := by
  intro cfgs
  induction cfgs with
  | nil => intro chs _ _; rfl
  | cons e rest ih =>
    obtain ⟨c0, cfg0⟩ := e
    intro chs hs hall
    obtain ⟨r0, h0, h1⟩ := hall c0 cfg0 (List.mem_cons_self _ _)
    simp only [forChannels, h0, h1, mapSet_same c0 r0 chs hs h0]
    exact ih chs hs (fun c cfg hm => hall c cfg (List.mem_cons_of_mem _ hm))

theorem resetChannel_fixed (r : ChannelRing)
    (h : vecAt r.rings_mapping 0 = some r.current_token_holder) : resetChannel r = some r := by
  cases r
  simp only [resetChannel] at h ⊢
  simp [h]

/-- The reset loop of the arbiter applied to its own result returns that result. -/
theorem resetLoop_idempotent (cfgs : List (Int × ChannelConfig))
    (chs chs1 : List (Int × ChannelRing)) (hs : SortedKeys chs)
    (h : forChannels (fun _ r => resetChannel r) cfgs chs = some chs1) :
    forChannels (fun _ r => resetChannel r) cfgs chs1 = some chs1 := by
  obtain ⟨hkeys, hpresent⟩ := forChannels_keys _ cfgs chs chs1 hs h
  have hs1 : SortedKeys chs1 := by
    unfold SortedKeys
    rw [hkeys]
    exact hs
  apply forChannels_fixed _ cfgs chs1 hs1
  intro c cfg hm
  obtain ⟨r, hr⟩ := mapFind_of_key c chs1 (by rw [hkeys]; exact hpresent c cfg hm)
  refine ⟨r, hr, resetChannel_fixed r ?_⟩
  exact forChannels_establishes (fun _ r => resetChannel r)
    (fun r => vecAt r.rings_mapping 0 = some r.current_token_holder)
    (fun _ r r2 h => by
      obtain ⟨a, _, _, e⟩ := resetChannel_shape r r2 h
      rw [a]; exact e)
    cfgs chs chs1 h c cfg hm r hr

theorem resetHolders_cons (c h : Int) (rest : List (Int × Int)) (b : BMACController) :
    resetHolders ((c, h) :: rest) b = resetHolders rest (resetHolder c b) := by
  simp only [resetHolders, resetHolder]
  split <;> rfl

theorem mapFind_mapTouch_keep {α : Type} (d : α) (m : List (Int × α)) (k k0 : Int) (v : α)
    (h : mapFind m k0 = some v) : mapFind (mapTouch d m k) k0 = some v := by
  unfold mapTouch
  cases hk : mapFind m k with
  | some w => exact h
  | none =>
    have hne : k ≠ k0 := by
      intro hEq
      rw [hEq, h] at hk
      cases hk
    simp only [mapFind_mapSet_ne _ _ _ _ hne, h]

theorem mapFind_mapTouch_self_eq {α : Type} (d : α) (m : List (Int × α)) (k : Int) :
    mapFind (mapTouch d m k) k = some (mapAt d (mapTouch d m k) k) := by
  unfold mapAt mapTouch
  cases hk : mapFind m k with
  | some w => simp [hk]
  | none => simp [mapFind_mapSet_self]

theorem resetHolder_other (c : Int) (b : BMACController) :
    (resetHolder c b).hub_states = b.hub_states ∧
    (resetHolder c b).token_direction = b.token_direction ∧
    (resetHolder c b).hub_configuration = b.hub_configuration := by
  unfold resetHolder
  simp only
  split <;> exact ⟨rfl, rfl, rfl⟩

theorem resetHolder_establishes (c : Int) (b : BMACController) :
    HolderAtHead (resetHolder c b) c := by
  refine ⟨mapAt [] (mapTouch [] b.token_ring_order c) c, ?_, ?_⟩
  · unfold resetHolder
    simp only
    split <;> exact mapFind_mapTouch_self_eq [] b.token_ring_order c
  · intro hlen
    unfold resetHolder
    simp only [hlen, if_true, mapFind_mapSet_self]

theorem resetHolder_preserves (c c0 : Int) (b : BMACController) (h : HolderAtHead b c0) :
    HolderAtHead (resetHolder c b) c0 := by
  by_cases hcc : c = c0
  · rw [← hcc]
    exact resetHolder_establishes c b
  · obtain ⟨ring, hring, hhead⟩ := h
    refine ⟨ring, ?_, ?_⟩
    · unfold resetHolder
      simp only
      split <;> exact mapFind_mapTouch_keep [] b.token_ring_order c c0 ring hring
    · intro hlen
      unfold resetHolder
      simp only
      split
      · simp only [mapFind_mapSet_ne _ _ _ _ hcc]
        exact hhead hlen
      · exact hhead hlen

theorem resetHolder_fixed (c : Int) (b : BMACController) (h : HolderAtHead b c)
    (hs : SortedKeys b.current_token_holder) : resetHolder c b = b := by
  obtain ⟨ring, hring, hhead⟩ := h
  cases b with
  | mk hub_states token_ring_order current_token_holder token_direction hub_configuration =>
    simp only at hring hhead hs
    simp only [resetHolder, mapTouch_of_find _ _ _ _ hring, mapAt_of_find _ _ _ _ hring]
    split
    · rename_i hlen
      rw [mapSet_same c (ring.headD 0) current_token_holder hs (hhead hlen)]
    · rfl

theorem resetHolder_keys (c : Int) (b : BMACController)
    (hs : SortedKeys b.current_token_holder)
    (hc : c ∈ b.current_token_holder.map Prod.fst) :
    (resetHolder c b).current_token_holder.map Prod.fst
      = b.current_token_holder.map Prod.fst := by
  obtain ⟨w, hw⟩ := mapFind_of_key c b.current_token_holder hc
  unfold resetHolder
  simp only
  split
  · exact mapSet_keys c _ w b.current_token_holder hs hw
  · rfl

/-- What the second reset loop of the controller leaves. -/
theorem resetHolders_result :
    ∀ (l : List (Int × Int)) (b : BMACController), SortedKeys b.current_token_holder →
      (∀ e ∈ l, e.1 ∈ b.current_token_holder.map Prod.fst) →
      (resetHolders l b).current_token_holder.map Prod.fst
        = b.current_token_holder.map Prod.fst ∧
      (resetHolders l b).hub_states = b.hub_states ∧
      (∀ c, HolderAtHead b c → HolderAtHead (resetHolders l b) c) ∧
      (∀ e ∈ l, HolderAtHead (resetHolders l b) e.1) := by
  intro l
  induction l with
  | nil =>
    intro b _ _
    exact ⟨rfl, rfl, fun _ h => h, fun e he => by cases he⟩
  | cons e rest ih =>
    obtain ⟨c, h⟩ := e
    intro b hs hall
    have hkeys := resetHolder_keys c b hs (hall (c, h) (List.mem_cons_self _ _))
    have hs1 : SortedKeys (resetHolder c b).current_token_holder := by
      unfold SortedKeys
      rw [hkeys]
      exact hs
    obtain ⟨i1, i2, i3, i4⟩ := ih (resetHolder c b) hs1
      (fun e he => by rw [hkeys]; exact hall e (List.mem_cons_of_mem _ he))
    rw [resetHolders_cons]
    refine ⟨by rw [i1, hkeys], by rw [i2, (resetHolder_other c b).1], ?_, ?_⟩
    · intro c0 h0
      exact i3 c0 (resetHolder_preserves c c0 b h0)
    · intro e he
      rcases List.mem_cons.mp he with heq | hrest
      · rw [heq]
        exact i3 c (resetHolder_establishes c b)
      · exact i4 e hrest

theorem resetHolders_fixed :
    ∀ (l : List (Int × Int)) (b : BMACController), SortedKeys b.current_token_holder →
      (∀ e ∈ l, HolderAtHead b e.1) → resetHolders l b = b := by
  intro l
  induction l with
  | nil => intro b _ _; rfl
  | cons e rest ih =>
    obtain ⟨c, h⟩ := e
    intro b hs hall
    rw [resetHolders_cons, resetHolder_fixed c b (hall (c, h) (List.mem_cons_self _ _)) hs]
    exact ih b hs (fun e he => hall e (List.mem_cons_of_mem _ he))

/-- **C20** (`TokenRing::updateTokens` and `BMACController::bmacProcess` with `reset` high).
For every state of the arbiter and of the controller whose maps are in key order, a second
clock edge with `reset` high returns the state the first one returned, published holders
included, and the arbiter fails the second time exactly when it fails the first time. -/
theorem reset_idempotent (M : Consts) (cfgs : List (Int × ChannelConfig)) (t : TokenRing)
    (b : BMACController) (ht : SortedKeys t.channels)
    (hb : SortedKeys b.current_token_holder) :
    (updateTokens M cfgs true t).bind (updateTokens M cfgs true) = updateTokens M cfgs true t ∧
    bmacProcess M true (bmacProcess M true b) = bmacProcess M true b := by
  constructor
  · simp only [updateTokens, if_true]
    cases h : forChannels (fun _ r => resetChannel r) cfgs t.channels with
    | none => rfl
    | some chs1 =>
      simp only [Option.map_some', Option.some_bind, resetLoop_idempotent cfgs t.channels chs1 ht h]
  · have hmap : ∀ hs : List (Int × BMACState),
        (hs.map (fun e => (e.1, { e.2 with
          current_state := BMAC_IDLE, has_token := false, token_hold_cycles := 0 }))).map
          (fun e => (e.1, { e.2 with
            current_state := BMAC_IDLE, has_token := false, token_hold_cycles := 0 }))
        = hs.map (fun e => (e.1, { e.2 with
          current_state := BMAC_IDLE, has_token := false, token_hold_cycles := 0 })) := by
      intro hs
      rw [List.map_map]
      rfl
    obtain ⟨r1, r2, _, r4⟩ := resetHolders_result b.current_token_holder
      { b with hub_states := b.hub_states.map (fun e => (e.1, { e.2 with
          current_state := BMAC_IDLE, has_token := false, token_hold_cycles := 0 })) }
      hb (fun e he => List.mem_map_of_mem Prod.fst he)
    have hstep : bmacProcess M true b = resetHolders b.current_token_holder
        { b with hub_states := b.hub_states.map (fun e => (e.1, { e.2 with
          current_state := BMAC_IDLE, has_token := false, token_hold_cycles := 0 })) } := by
      simp only [bmacProcess, if_true]
    rw [← hstep] at r1 r2 r4
    have hs1 : SortedKeys (bmacProcess M true b).current_token_holder := by
      unfold SortedKeys
      rw [r1]
      exact hb
    have hsame : ({ (bmacProcess M true b) with
        hub_states := (bmacProcess M true b).hub_states.map (fun e => (e.1, { e.2 with
          current_state := BMAC_IDLE, has_token := false, token_hold_cycles := 0 })) }
        : BMACController) = bmacProcess M true b := by
      rw [r2, hmap]
      cases hb2 : bmacProcess M true b
      rw [hb2] at r2
      simp only at r2
      simp only [r2]
    have hstep2 : bmacProcess M true (bmacProcess M true b)
        = resetHolders (bmacProcess M true b).current_token_holder
          { (bmacProcess M true b) with
            hub_states := (bmacProcess M true b).hub_states.map (fun e => (e.1, { e.2 with
              current_state := BMAC_IDLE, has_token := false, token_hold_cycles := 0 })) } := by
      simp only [bmacProcess, if_true]
    rw [hstep2, hsame]
    apply resetHolders_fixed _ _ hs1
    intro e he
    have hk : e.1 ∈ b.current_token_holder.map Prod.fst := by
      have := List.mem_map_of_mem Prod.fst he
      rw [r1] at this
      exact this
    obtain ⟨e0, he0, heq⟩ := List.mem_map.mp hk
    rw [← heq]
    exact r4 e0 he0

/-- Witness of **C20**: a `TOKEN_PACKET` channel whose token sits at position 1, and the
controller of scenario D after its token went back to hub 0. -/
theorem reset_idempotent_witness :
    (updateTokens sampleConsts [(0, ⟨["TOKEN_PACKET"], 0, []⟩)] true
        ⟨[(0, ⟨1, [0, 1], 0, 1, 0, [(0, 1), (1, 2)]⟩)], false⟩).bind
        (updateTokens sampleConsts [(0, ⟨["TOKEN_PACKET"], 0, []⟩)] true)
      = updateTokens sampleConsts [(0, ⟨["TOKEN_PACKET"], 0, []⟩)] true
        ⟨[(0, ⟨1, [0, 1], 0, 1, 0, [(0, 1), (1, 2)]⟩)], false⟩ ∧
    bmacProcess sampleConsts true (bmacProcess sampleConsts true (scenarioDReturned []))
      = bmacProcess sampleConsts true (scenarioDReturned []) :=
  reset_idempotent sampleConsts [(0, ⟨["TOKEN_PACKET"], 0, []⟩)]
    ⟨[(0, ⟨1, [0, 1], 0, 1, 0, [(0, 1), (1, 2)]⟩)], false⟩ (scenarioDReturned [])
    (by decide) (by decide)

/-! ### The hub of a tile on the canonical mesh -/

theorem id2Coord_canonical (E : RoutingEnv) (hw : E.mesh_dim_x = 8) (id : Int) (h0 : 0 ≤ id) :
    id2Coord E id = some ⟨id % 8, id / 8⟩ := by
  unfold id2Coord
  rw [hw]
  simp only [show ¬ ((8 : Int) = 0) by decide, if_false]
  rw [Int.tmod_eq_emod h0 (by decide), Int.tdiv_eq_ediv h0 (by decide)]

theorem getHubId_canonical (M : Consts) (E : RoutingEnv) (hw : E.mesh_dim_x = 8) (id : Int)
    (h0 : 0 ≤ id) (h63 : id ≤ 63) :
    getHubId M E id = some (id / 8 / 2 * 4 + id % 8 / 2) := by
  unfold getHubId
  rw [id2Coord_canonical E hw id h0]
  simp only
  rw [Int.tdiv_eq_ediv (by omega : (0 : Int) ≤ id % 8) (by decide),
    Int.tdiv_eq_ediv (by omega : (0 : Int) ≤ id / 8) (by decide)]
  rw [if_pos (by omega)]

/-- **C21** (`Routing_DA_BMAC::getHubId`, `id2Coord`). With mesh width 8 and `NOT_VALID`
negative, for every tile id in 0..63 `getHubId` returns `(y div 2) * 4 + (x div 2)` for
`x = id mod 8` and `y = id div 8`, a value in 0..15 and not `NOT_VALID`; two such tiles get
the same hub exactly when their block coordinates `x div 2` and `y div 2` agree. -/
theorem getHubId_block (M : Consts) (E : RoutingEnv) (hw : E.mesh_dim_x = 8)
    (hNV : M.NOT_VALID < 0) (id : Int) (h0 : 0 ≤ id) (h63 : id ≤ 63) :
    getHubId M E id = some (id / 8 / 2 * 4 + id % 8 / 2) ∧
    0 ≤ id / 8 / 2 * 4 + id % 8 / 2 ∧ id / 8 / 2 * 4 + id % 8 / 2 ≤ 15 ∧
    getHubId M E id ≠ some M.NOT_VALID ∧
    ∀ id2 : Int, 0 ≤ id2 → id2 ≤ 63 →
      (getHubId M E id = getHubId M E id2 ↔
        id % 8 / 2 = id2 % 8 / 2 ∧ id / 8 / 2 = id2 / 8 / 2) := by
  refine ⟨getHubId_canonical M E hw id h0 h63, by omega, by omega, ?_, ?_⟩
  · rw [getHubId_canonical M E hw id h0 h63]
    intro h
    have h1 := Option.some.inj h
    omega
  · intro id2 h20 h263
    rw [getHubId_canonical M E hw id h0 h63, getHubId_canonical M E hw id2 h20 h263]
    constructor
    · intro h
      have h1 := Option.some.inj h
      omega
    · rintro ⟨h1, h2⟩
      rw [h1, h2]

/-- Witness of **C21**: tile 63 maps to hub 15 and tile 0 to hub 0, and tile 0 shares its
hub with tile 9. -/
theorem getHubId_block_witness :
    getHubId sampleConsts sampleRouting 63 = some 15 ∧
    getHubId sampleConsts sampleRouting 0 = some 0 ∧
    (getHubId sampleConsts sampleRouting 0 = getHubId sampleConsts sampleRouting 9 ↔
      (0 : Int) % 8 / 2 = 9 % 8 / 2 ∧ (0 : Int) / 8 / 2 = 9 / 8 / 2) :=
  ⟨(getHubId_block sampleConsts sampleRouting rfl (by decide) 63 (by decide) (by decide)).1,
    (getHubId_block sampleConsts sampleRouting rfl (by decide) 0 (by decide) (by decide)).1,
    (getHubId_block sampleConsts sampleRouting rfl (by decide) 0 (by decide)
      (by decide)).2.2.2.2 9 (by decide) (by decide)⟩

/-! ### The next hub of a ring -/

/-- The search loop returns the start index plus the position of the first occurrence. -/
theorem findHub_first (NV hub : Int) :
    ∀ (ring : List Int) (i : Int), hub ∈ ring →
      ∃ p : Nat, p < ring.length ∧ ring[p]? = some hub ∧ findHub NV hub ring i = i + p := by
  intro ring
  induction ring with
  | nil => intro i h; cases h
  | cons x rest ih =>
    intro i h
    by_cases hx : x = hub
    · exact ⟨0, by simp, by simp [hx], by simp [findHub, hx]⟩
    · have hr : hub ∈ rest := by
        rcases List.mem_cons.mp h with h1 | h1
        · exact absurd h1.symm hx
        · exact h1
      obtain ⟨p, hp, hget, hf⟩ := ih (i + 1) hr
      refine ⟨p + 1, by simp; omega, by simpa using hget, ?_⟩
      simp only [findHub, hx, if_false, hf]
      push_cast
      omega

theorem findHub_nodup (NV hub : Int) :
    ∀ (ring : List Int) (i : Int) (p : Nat), ring.Nodup → ring[p]? = some hub →
      findHub NV hub ring i = i + p := by
  intro ring
  induction ring with
  | nil => intro i p _ h; simp at h
  | cons x rest ih =>
    intro i p hd h
    cases p with
    | zero =>
      simp only [List.getElem?_cons_zero, Option.some.injEq] at h
      simp [findHub, h]
    | succ p =>
      simp only [List.getElem?_cons_succ] at h
      have hmem : hub ∈ rest := List.getElem?_mem h
      have hx : x ≠ hub := by
        intro hEq
        rw [hEq] at hd
        exact (List.nodup_cons.mp hd).1 hmem
      simp only [findHub, hx, if_false, ih (i + 1) p (List.nodup_cons.mp hd).2 h]
      push_cast
      omega

theorem findHub_missing (NV hub : Int) :
    ∀ (ring : List Int) (i : Int), hub ∉ ring → findHub NV hub ring i = NV := by
  intro ring
  induction ring with
  | nil => intro i _; rfl
  | cons x rest ih =>
    intro i h
    have hx : x ≠ hub := fun hEq => h (by rw [hEq]; exact List.mem_cons_self _ _)
    have hr : hub ∉ rest := fun hm => h (List.mem_cons_of_mem _ hm)
    simp only [findHub, hx, if_false, ih (i + 1) hr]

theorem sizeT_succ (p n : Nat) (hp : p < n) (hn : n < 2 ^ 31) : sizeT ((p : Int) + 1) = p + 1 := by
  unfold sizeT
  have h : ((p : Int) + 1) % 2 ^ 64 = (p : Int) + 1 := by
    apply Int.emod_eq_of_lt <;> omega
  rw [h]
  omega

theorem sizeT_pred_add (p n : Nat) (hp : p < n) (hn : n < 2 ^ 31) :
    (sizeT ((p : Int) - 1) + n) % 2 ^ 64 = p + n - 1 := by
  unfold sizeT
  cases p with
  | zero =>
    have h : ((((0 : Nat) : Int) - 1) % 2 ^ 64).toNat = 2 ^ 64 - 1 := by decide
    rw [h]
    omega
  | succ q =>
    have h : (((q + 1 : Nat) : Int) - 1) % 2 ^ 64 = (q : Int) := by
      push_cast
      rw [Int.add_sub_cancel]
      apply Int.emod_eq_of_lt <;> omega
    rw [h]
    simp only [Int.toNat_ofNat]
    omega

/-- Value of `getNextHub` when the search loop finds the hub at index `p`. -/
theorem getNextHub_at (M : Consts) (hNV : M.NOT_VALID < 0) (b : BMACController)
    (channel : Int) (ring : List Int) (hring : mapFind b.token_ring_order channel = some ring)
    (hlen : ring.length < 2 ^ 31) (hub : Int) (p : Nat) (hp : p < ring.length)
    (hfind : findHub M.NOT_VALID hub ring 0 = (0 : Int) + p) (direction : Int) :
    some (getNextHub M b channel hub direction)
      = if direction = BMAC_CLOCKWISE then ring[(p + 1) % ring.length]?
        else ring[(p + ring.length - 1) % ring.length]? := by
  have hne : ¬ ((0 : Int) + (p : Int) = M.NOT_VALID) := by omega
  have hpos : 0 < ring.length := by omega
  unfold getNextHub
  simp only [hring, hfind, hne, if_false]
  rw [show (0 : Int) + (p : Int) + 1 = (p : Int) + 1 by omega,
    show (0 : Int) + (p : Int) - 1 = (p : Int) - 1 by omega,
    sizeT_succ p ring.length hp hlen, sizeT_pred_add p ring.length hp hlen]
  split
  · have hlt : (p + 1) % ring.length < ring.length := Nat.mod_lt _ hpos
    rw [List.getElem?_eq_getElem hlt]
    rfl
  · have hlt : (p + ring.length - 1) % ring.length < ring.length := Nat.mod_lt _ hpos
    rw [List.getElem?_eq_getElem hlt]
    rfl

/-- **C22** (`BMACController::getNextHub`). With `NOT_VALID` negative, for a configured
channel whose ring has distinct hubs and fewer than 2^31 of them, and the hub at ring
position `p`: `getNextHub` returns `ring[(p + 1) mod n]` for the clockwise direction and
`ring[(p + n - 1) mod n]` for any other direction, so `ring[n - 1]` counter-clockwise from
position 0, and the value is a member of the ring. It returns `NOT_VALID` for a hub that is
not in the ring and for a channel that is not configured. -/
theorem getNextHub_wraps (M : Consts) (hNV : M.NOT_VALID < 0) (b : BMACController)
    (channel : Int) (ring : List Int) (hring : mapFind b.token_ring_order channel = some ring)
    (hd : ring.Nodup) (hlen : ring.length < 2 ^ 31) (hub : Int) (p : Nat)
    (hget : ring[p]? = some hub) (direction : Int) :
    (direction = BMAC_CLOCKWISE →
      some (getNextHub M b channel hub direction) = ring[(p + 1) % ring.length]?) ∧
    (direction ≠ BMAC_CLOCKWISE →
      some (getNextHub M b channel hub direction)
        = ring[(p + ring.length - 1) % ring.length]?) ∧
    (direction ≠ BMAC_CLOCKWISE → p = 0 →
      some (getNextHub M b channel hub direction) = ring[ring.length - 1]?) ∧
    getNextHub M b channel hub direction ∈ ring ∧
    (∀ other : Int, other ∉ ring → getNextHub M b channel other direction = M.NOT_VALID) ∧
    (∀ (b0 : BMACController) (c0 : Int), mapFind b0.token_ring_order c0 = none →
      getNextHub M b0 c0 hub direction = M.NOT_VALID) := by
  have hp : p < ring.length := by
    by_contra hge
    rw [List.getElem?_eq_none (by omega)] at hget
    cases hget
  have hpos : 0 < ring.length := by omega
  have hat := getNextHub_at M hNV b channel ring hring hlen hub p hp
    (findHub_nodup M.NOT_VALID hub ring 0 p hd hget) direction
  refine ⟨?_, ?_, ?_, ?_, ?_, ?_⟩
  · intro hcw
    rw [hat, if_pos hcw]
  · intro hccw
    rw [hat, if_neg hccw]
  · intro hccw h0
    rw [hat, if_neg hccw, h0]
    have : (0 + ring.length - 1) % ring.length = ring.length - 1 := by
      rw [Nat.zero_add]
      exact Nat.mod_eq_of_lt (by omega)
    rw [this]
  · split at hat
    · exact List.getElem?_mem hat.symm
    · exact List.getElem?_mem hat.symm
  · intro other hno
    unfold getNextHub
    simp only [hring, findHub_missing M.NOT_VALID other ring 0 hno, if_true]
  · intro b0 c0 hnone
    unfold getNextHub
    simp only [hnone]

/-- Witness of **C22**: on the ring `[0, 1, 2, 3]` of scenario D, hub 0 at position 0. -/
theorem getNextHub_wraps_witness :
    getNextHub sampleConsts (scenarioDReturned []) 0 0 BMAC_COUNTERCLOCKWISE = 3 ∧
    getNextHub sampleConsts (scenarioDReturned []) 0 0 BMAC_CLOCKWISE = 1 :=
  ⟨Option.some.inj ((getNextHub_wraps sampleConsts (by decide) (scenarioDReturned []) 0
      [0, 1, 2, 3] rfl (by decide) (by decide) 0 0 rfl BMAC_COUNTERCLOCKWISE).2.2.1
      (by decide) rfl),
    Option.some.inj ((getNextHub_wraps sampleConsts (by decide) (scenarioDReturned []) 0
      [0, 1, 2, 3] rfl (by decide) (by decide) 0 0 rfl BMAC_CLOCKWISE).1 rfl)⟩

/-- Two tiles of the canonical mesh with the same hub are at most 2 apart. -/
theorem same_hub_distance (a d : Int) (ha0 : 0 ≤ a) (ha : a ≤ 63) (hd0 : 0 ≤ d) (hd : d ≤ 63)
    (h : a / 8 / 2 * 4 + a % 8 / 2 = d / 8 / 2 * 4 + d % 8 / 2) :
    manhattanDistance ⟨a % 8, a / 8⟩ ⟨d % 8, d / 8⟩ ≤ 2 := by
  have hx : a % 8 / 2 = d % 8 / 2 := by omega
  have hy : a / 8 / 2 = d / 8 / 2 := by omega
  have hx1 : a % 8 - d % 8 ≤ 1 ∧ d % 8 - a % 8 ≤ 1 := by omega
  have hy1 : a / 8 - d / 8 ≤ 1 ∧ d / 8 - a / 8 ≤ 1 := by omega
  unfold manhattanDistance cabs
  simp only
  split <;> split <;> omega

/-- Result of `route` on the canonical mesh with wireless enabled. -/
theorem route_canonical (M : Consts) (E : RoutingEnv) (hw : E.mesh_dim_x = 8)
    (hwin : E.use_winoc = true) (hNV : M.NOT_VALID < 0) (hdir : E.DIRECTION_HUB ≠ M.NOT_VALID)
    (xy : RouteData → List Int) (hxy : E.xy = some xy) (rd : RouteData)
    (hc0 : 0 ≤ rd.current_id) (hc63 : rd.current_id ≤ 63)
    (hd0 : 0 ≤ rd.dst_id) (hd63 : rd.dst_id ≤ 63) :
    route M E rd =
      if manhattanDistance ⟨rd.current_id % 8, rd.current_id / 8⟩
          ⟨rd.dst_id % 8, rd.dst_id / 8⟩ > E.da_threshold ∧
        rd.current_id / 8 / 2 * 4 + rd.current_id % 8 / 2
          ≠ rd.dst_id / 8 / 2 * 4 + rd.dst_id % 8 / 2
      then some [E.DIRECTION_HUB] else some (xy rd) := by
  have h1 : ¬ (rd.current_id / 8 / 2 * 4 + rd.current_id % 8 / 2 = M.NOT_VALID) := by omega
  have h2 : ¬ (rd.dst_id / 8 / 2 * 4 + rd.dst_id % 8 / 2 = M.NOT_VALID) := by omega
  unfold route
  simp only [id2Coord_canonical E hw _ hc0, id2Coord_canonical E hw _ hd0, hwin, and_true]
  by_cases hdist : manhattanDistance ⟨rd.current_id % 8, rd.current_id / 8⟩
      ⟨rd.dst_id % 8, rd.dst_id / 8⟩ > E.da_threshold
  · simp only [hdist, if_true, true_and, getWirelessDirection,
      getHubId_canonical M E hw _ hc0 hc63, getHubId_canonical M E hw _ hd0 hd63, h1, h2,
      or_self, if_false, canHubsCommunicate]
    by_cases hsame : rd.current_id / 8 / 2 * 4 + rd.current_id % 8 / 2
        = rd.dst_id / 8 / 2 * 4 + rd.dst_id % 8 / 2
    · simp [hsame, routeXY, hxy]
    · simp [hsame, hdir]
  · simp only [hdist, if_false, false_and, routeXY, hxy]

/-- **C25** (`Routing_DA_BMAC::route` on the canonical mesh). With mesh width 8, wireless
enabled, `da_threshold` at least 2, an XY algorithm registered, `NOT_VALID` negative and
different from `DIRECTION_HUB`, for tile ids in 0..63: two tiles more than 2 apart have
different hubs; `route` returns `[DIRECTION_HUB]` when the Manhattan distance exceeds
`da_threshold` and the XY result otherwise, so it returns `[DIRECTION_HUB]` if and only if
the distance exceeds the threshold whenever the XY result is not `[DIRECTION_HUB]` itself.
With `da_threshold` 1 the tiles 0 and 9, at distance 2 in one block, get the XY result. -/
theorem wireless_by_distance (M : Consts) (E : RoutingEnv) (hw : E.mesh_dim_x = 8)
    (hwin : E.use_winoc = true) (hth : 2 ≤ E.da_threshold) (hNV : M.NOT_VALID < 0)
    (hdir : E.DIRECTION_HUB ≠ M.NOT_VALID) (xy : RouteData → List Int) (hxy : E.xy = some xy)
    (rd : RouteData) (hc0 : 0 ≤ rd.current_id) (hc63 : rd.current_id ≤ 63)
    (hd0 : 0 ≤ rd.dst_id) (hd63 : rd.dst_id ≤ 63) :
    (manhattanDistance ⟨rd.current_id % 8, rd.current_id / 8⟩ ⟨rd.dst_id % 8, rd.dst_id / 8⟩ > 2
      → getHubId M E rd.current_id ≠ getHubId M E rd.dst_id) ∧
    (manhattanDistance ⟨rd.current_id % 8, rd.current_id / 8⟩ ⟨rd.dst_id % 8, rd.dst_id / 8⟩
        > E.da_threshold → route M E rd = some [E.DIRECTION_HUB]) ∧
    (¬ manhattanDistance ⟨rd.current_id % 8, rd.current_id / 8⟩ ⟨rd.dst_id % 8, rd.dst_id / 8⟩
        > E.da_threshold → route M E rd = some (xy rd)) ∧
    (xy rd ≠ [E.DIRECTION_HUB] →
      (route M E rd = some [E.DIRECTION_HUB] ↔
        manhattanDistance ⟨rd.current_id % 8, rd.current_id / 8⟩
          ⟨rd.dst_id % 8, rd.dst_id / 8⟩ > E.da_threshold)) ∧
    manhattanDistance ⟨0 % 8, 0 / 8⟩ ⟨9 % 8, 9 / 8⟩ = 2 ∧
    getHubId M E 0 = getHubId M E 9 ∧
    route M { E with da_threshold := 1 } ⟨0, 9⟩ = some (xy ⟨0, 9⟩) := by
  have hfar : manhattanDistance ⟨rd.current_id % 8, rd.current_id / 8⟩
      ⟨rd.dst_id % 8, rd.dst_id / 8⟩ > 2 →
      rd.current_id / 8 / 2 * 4 + rd.current_id % 8 / 2
        ≠ rd.dst_id / 8 / 2 * 4 + rd.dst_id % 8 / 2 := by
    intro hgt hsame
    have := same_hub_distance rd.current_id rd.dst_id hc0 hc63 hd0 hd63 hsame
    omega
  have hroute := route_canonical M E hw hwin hNV hdir xy hxy rd hc0 hc63 hd0 hd63
  have hwireless : manhattanDistance ⟨rd.current_id % 8, rd.current_id / 8⟩
      ⟨rd.dst_id % 8, rd.dst_id / 8⟩ > E.da_threshold → route M E rd = some [E.DIRECTION_HUB] := by
    intro hgt
    rw [hroute, if_pos ⟨hgt, hfar (by omega)⟩]
  have hwired : ¬ manhattanDistance ⟨rd.current_id % 8, rd.current_id / 8⟩
      ⟨rd.dst_id % 8, rd.dst_id / 8⟩ > E.da_threshold → route M E rd = some (xy rd) := by
    intro hle
    rw [hroute, if_neg (fun h => hle h.1)]
  refine ⟨?_, hwireless, hwired, ?_, by decide, ?_, ?_⟩
  · intro hgt
    rw [getHubId_canonical M E hw _ hc0 hc63, getHubId_canonical M E hw _ hd0 hd63]
    intro h
    exact hfar hgt (Option.some.inj h)
  · intro hne
    constructor
    · intro hr
      by_contra hle
      rw [hwired hle] at hr
      exact hne (Option.some.inj hr)
    · exact hwireless
  · rw [getHubId_canonical M E hw 0 (by decide) (by decide),
      getHubId_canonical M E hw 9 (by decide) (by decide)]
    decide
  · rw [route_canonical M { E with da_threshold := 1 } hw hwin hNV hdir xy hxy ⟨0, 9⟩
      (by decide) (by decide) (by decide) (by decide)]
    rw [if_neg (fun h => h.2 (by decide))]

/-- Witness of **C25**: threshold 5, tile 0 to tile 63 is wireless. -/
theorem wireless_by_distance_witness :
    route sampleConsts sampleRouting ⟨0, 63⟩ = some [sampleRouting.DIRECTION_HUB] ∧
    route sampleConsts { sampleRouting with da_threshold := 1 } ⟨0, 9⟩
      = some ((fun _ => [1]) (⟨0, 9⟩ : RouteData)) :=
  ⟨(wireless_by_distance sampleConsts sampleRouting rfl rfl (by decide) (by decide) (by decide)
      (fun _ => [1]) rfl ⟨0, 63⟩ (by decide) (by decide) (by decide) (by decide)).2.1
      (by decide),
    (wireless_by_distance sampleConsts sampleRouting rfl rfl (by decide) (by decide) (by decide)
      (fun _ => [1]) rfl ⟨0, 63⟩ (by decide) (by decide) (by decide)
      (by decide)).2.2.2.2.2.2⟩

/-! ### Hub states read through `operator[]` -/

theorem mapAt_mapTouch {α : Type} (d : α) (m : List (Int × α)) (k x : Int) :
    mapAt d (mapTouch d m k) x = mapAt d m x := by
  unfold mapAt mapTouch
  cases hk : mapFind m k with
  | some w => rfl
  | none =>
    by_cases hx : k = x
    · simp only [hx, mapFind_mapSet_self]
      rw [hx] at hk
      rw [hk]
      rfl
    · simp only [mapFind_mapSet_ne _ _ _ _ hx]

theorem mapAt_mapSet {α : Type} (d : α) (m : List (Int × α)) (k x : Int) (v : α) :
    mapAt d (mapSet k v m) x = if x = k then v else mapAt d m x := by
  unfold mapAt
  by_cases hx : x = k
  · simp only [hx, mapFind_mapSet_self, if_true, Option.getD_some]
  · simp only [mapFind_mapSet_ne _ _ _ _ (fun h => hx h.symm), hx, if_false]

theorem mapFind_map {α : Type} (f : α → α) (m : List (Int × α)) (x : Int) :
    mapFind (m.map (fun e => (e.1, f e.2))) x = (mapFind m x).map f := by
  induction m with
  | nil => rfl
  | cons e rest ih =>
    obtain ⟨k, v⟩ := e
    by_cases hk : k = x
    · simp [mapFind, hk]
    · simp [mapFind, hk, ih]

theorem holdBounded_mapTouch (hs : List (Int × BMACState)) (k : Int) (h : HoldBounded hs) :
    HoldBounded (mapTouch BMACState.zero hs k) := by
  intro x
  rw [mapAt_mapTouch]
  exact h x

theorem holdBounded_mapSet (hs : List (Int × BMACState)) (k : Int) (st : BMACState)
    (h : HoldBounded hs) (h0 : 0 ≤ st.token_hold_cycles) (h6 : st.token_hold_cycles ≤ 6) :
    HoldBounded (mapSet k st hs) := by
  intro x
  rw [mapAt_mapSet]
  split
  · exact ⟨h0, h6⟩
  · exact h x

theorem fresh_holdBounded (hs : List (Int × BMACState)) (h : Fresh hs) : HoldBounded hs := by
  intro x
  rw [(h x).2]
  exact ⟨le_refl 0, by decide⟩

/-- The counting loop of `shouldReverseDirection` changes no member but `hub_states`, and
there it only inserts value-initialised entries. -/
theorem countPending_frame (dir hid : Int) :
    ∀ (l : List Int) (i : Nat) (hs : List (Int × BMACState)) (tro : List (Int × List Int))
      (cth td hc : List (Int × Int)) (f bk : Int),
      ∃ hs1 f1 bk1, countPending dir hid l i (⟨hs, tro, cth, td, hc⟩, f, bk)
          = (⟨hs1, tro, cth, td, hc⟩, f1, bk1) ∧
        ∀ x, mapAt BMACState.zero hs1 x = mapAt BMACState.zero hs x := by
  intro l
  induction l with
  | nil =>
    intro i hs tro cth td hc f bk
    exact ⟨hs, f, bk, rfl, fun _ => rfl⟩
  | cons hub rest ih =>
    intro i hs tro cth td hc f bk
    simp only [countPending, touchHub]
    split
    · split
      · split
        · obtain ⟨hs1, f1, bk1, h1, h2⟩ := ih (i + 1) (mapTouch BMACState.zero hs hub) tro cth td
            hc (f + 1) bk
          exact ⟨hs1, f1, bk1, h1, fun x => by rw [h2 x, mapAt_mapTouch]⟩
        · obtain ⟨hs1, f1, bk1, h1, h2⟩ := ih (i + 1) (mapTouch BMACState.zero hs hub) tro cth td
            hc f (bk + 1)
          exact ⟨hs1, f1, bk1, h1, fun x => by rw [h2 x, mapAt_mapTouch]⟩
      · split
        · obtain ⟨hs1, f1, bk1, h1, h2⟩ := ih (i + 1) (mapTouch BMACState.zero hs hub) tro cth td
            hc (f + 1) bk
          exact ⟨hs1, f1, bk1, h1, fun x => by rw [h2 x, mapAt_mapTouch]⟩
        · obtain ⟨hs1, f1, bk1, h1, h2⟩ := ih (i + 1) (mapTouch BMACState.zero hs hub) tro cth td
            hc f (bk + 1)
          exact ⟨hs1, f1, bk1, h1, fun x => by rw [h2 x, mapAt_mapTouch]⟩
    · obtain ⟨hs1, f1, bk1, h1, h2⟩ := ih (i + 1) (mapTouch BMACState.zero hs hub) tro cth td
        hc f bk
      exact ⟨hs1, f1, bk1, h1, fun x => by rw [h2 x, mapAt_mapTouch]⟩

/-- Over hubs that are all idle the counting loop counts nothing. -/
theorem countPending_idle (dir hid : Int) :
    ∀ (l : List Int) (i : Nat) (hs : List (Int × BMACState)) (tro : List (Int × List Int))
      (cth td hc : List (Int × Int)) (f bk : Int),
      (∀ x ∈ l, (mapAt BMACState.zero hs x).current_state = BMAC_IDLE) →
      ∃ hs1, countPending dir hid l i (⟨hs, tro, cth, td, hc⟩, f, bk)
          = (⟨hs1, tro, cth, td, hc⟩, f, bk) ∧
        ∀ x, mapAt BMACState.zero hs1 x = mapAt BMACState.zero hs x := by
  intro l
  induction l with
  | nil =>
    intro i hs tro cth td hc f bk _
    exact ⟨hs, rfl, fun _ => rfl⟩
  | cons hub rest ih =>
    intro i hs tro cth td hc f bk hidle
    have h0 : (mapAt BMACState.zero (mapTouch BMACState.zero hs hub) hub).current_state
        = BMAC_IDLE := by
      rw [mapAt_mapTouch]
      exact hidle hub (List.mem_cons_self _ _)
    simp only [countPending, touchHub, hubState, h0, ne_eq, not_true_eq_false, if_false]
    obtain ⟨hs1, h1, h2⟩ := ih (i + 1) (mapTouch BMACState.zero hs hub) tro cth td hc f bk
      (fun x hx => by rw [mapAt_mapTouch]; exact hidle x (List.mem_cons_of_mem _ hx))
    exact ⟨hs1, h1, fun x => by rw [h2 x, mapAt_mapTouch]⟩

/-- What `shouldReverseDirection` leaves of the controller. -/
theorem shouldReverseDirection_frame (channel hub_id : Int) (hs : List (Int × BMACState))
    (tro : List (Int × List Int)) (cth td hc : List (Int × Int)) :
    ∃ hs1 rev, shouldReverseDirection channel hub_id ⟨hs, tro, cth, td, hc⟩
        = (rev, ⟨hs1, mapTouch [] tro channel, cth, mapTouch 0 td channel, hc⟩) ∧
      ∀ x, mapAt BMACState.zero hs1 x = mapAt BMACState.zero hs x := by
  obtain ⟨hs1, f1, bk1, h1, h2⟩ := countPending_frame
    (mapAt 0 (mapTouch 0 td channel) channel) hub_id
    (mapAt [] (mapTouch [] tro channel) channel) 0 hs (mapTouch [] tro channel) cth
    (mapTouch 0 td channel) hc 0 0
  refine ⟨hs1, decide (bk1 > f1), ?_, h2⟩
  simp only [shouldReverseDirection, h1]

theorem mapTouch_idem {α : Type} (d : α) (m : List (Int × α)) (k : Int) :
    mapTouch d (mapTouch d m k) k = mapTouch d m k := by
  cases hk : mapFind m k with
  | some w =>
    rw [mapTouch_of_find d m k w hk, mapTouch_of_find d m k w hk]
  | none =>
    have h1 : mapTouch d m k = mapSet k d m := by simp [mapTouch, hk]
    rw [h1]
    exact mapTouch_of_find d _ k d (mapFind_mapSet_self k d m)

/-- Result of `passBidirectionalToken` on any controller state, in terms of the reversal
decision and of the next hub. -/
theorem passBidirectionalToken_result (M : Consts) (channel current_holder : Int)
    (hs : List (Int × BMACState)) (tro : List (Int × List Int)) (cth td hc : List (Int × Int)) :
    ∃ hs0 rev,
      shouldReverseDirection channel current_holder ⟨hs, tro, cth, mapTouch 0 td channel, hc⟩
        = (rev, ⟨hs0, mapTouch [] tro channel, cth, mapTouch 0 td channel, hc⟩) ∧
      (∀ x, mapAt BMACState.zero hs0 x = mapAt BMACState.zero hs x) ∧
      ∀ (direction1 next_hub : Int) (td1 : List (Int × Int)),
        direction1 = (if rev = true then
            (if mapAt 0 td channel = BMAC_CLOCKWISE then BMAC_COUNTERCLOCKWISE
              else BMAC_CLOCKWISE)
          else mapAt 0 td channel) →
        td1 = (if rev = true then mapSet channel direction1 (mapTouch 0 td channel)
          else mapTouch 0 td channel) →
        next_hub = getNextHub M ⟨hs0, mapTouch [] tro channel, cth, td1, hc⟩ channel
          current_holder direction1 →
        passBidirectionalToken M channel current_holder ⟨hs, tro, cth, td, hc⟩ =
          if next_hub ≠ M.NOT_VALID then
            ⟨mapSet next_hub
                { (mapAt BMACState.zero
                    (mapSet current_holder
                      { (mapAt BMACState.zero hs0 current_holder) with
                        has_token := false, current_state := BMAC_IDLE, token_hold_cycles := 0 }
                      hs0) next_hub) with
                  has_token := true, current_state := BMAC_TOKEN_HOLD }
                (mapSet current_holder
                  { (mapAt BMACState.zero hs0 current_holder) with
                    has_token := false, current_state := BMAC_IDLE, token_hold_cycles := 0 }
                  hs0),
              mapTouch [] tro channel, mapSet channel next_hub cth, td1, hc⟩
          else ⟨hs0, mapTouch [] tro channel, cth, td1, hc⟩ := by
  obtain ⟨hs0, rev, h1, h2⟩ := shouldReverseDirection_frame channel current_holder hs tro cth
    (mapTouch 0 td channel) hc
  rw [mapTouch_idem] at h1
  refine ⟨hs0, rev, h1, h2, ?_⟩
  intro direction1 next_hub td1 hd htd hnext
  have hat : mapAt 0 (mapTouch 0 td channel) channel = mapAt 0 td channel :=
    mapAt_mapTouch 0 td channel channel
  unfold passBidirectionalToken
  simp only [h1, hat]
  cases rev with
  | true =>
    simp only [if_true] at hd htd ⊢
    rw [← hd, ← htd, ← hnext]
    split <;> rfl
  | false =>
    simp only [Bool.false_eq_true, if_false] at hd htd ⊢
    rw [← hd, ← htd, ← hnext]
    split <;> rfl

/-! ### The bound on the hold cycles -/

theorem holdBounded_pass (M : Consts) (channel current_holder : Int) (b : BMACController)
    (h : HoldBounded b.hub_states) :
    HoldBounded (passBidirectionalToken M channel current_holder b).hub_states := by
  obtain ⟨hs, tro, cth, td, hc⟩ := b
  obtain ⟨hs0, rev, _, h2, h3⟩ :=
    passBidirectionalToken_result M channel current_holder hs tro cth td hc
  have h4 := h3 _ _ _ rfl rfl rfl
  generalize getNextHub M _ channel current_holder _ = next at h4
  rw [h4]
  have h0 : HoldBounded hs0 := fun x => by rw [h2 x]; exact h x
  have h1 : HoldBounded (mapSet current_holder
      { (mapAt BMACState.zero hs0 current_holder) with
        has_token := false, current_state := BMAC_IDLE, token_hold_cycles := 0 } hs0) :=
    holdBounded_mapSet hs0 _ _ h0 (le_refl 0) (by show (0 : Int) ≤ 6; decide)
  by_cases hv : next = M.NOT_VALID
  · simp only [hv, ne_eq, not_true_eq_false, if_false]
    exact h0
  · simp only [hv, ne_eq, not_false_eq_true, if_true]
    exact holdBounded_mapSet _ _ _ h1 (h1 next).1 (h1 next).2

theorem holdBounded_updateTokenRing (M : Consts) (channel : Int) (b : BMACController)
    (h : HoldBounded b.hub_states) : HoldBounded (updateTokenRing M channel b).hub_states := by
  unfold updateTokenRing
  split
  · exact h
  · simp only
    split
    · split
      · exact holdBounded_pass M channel _ _ (holdBounded_mapTouch _ _ h)
      · rename_i hnot
        simp only [not_or, isTransmissionComplete, decide_eq_true_eq, hubState, touchHub,
          not_lt] at hnot
        simp only [setHubState, hubState, touchHub]
        have hb := holdBounded_mapTouch b.hub_states
          (mapAt 0 (mapTouch 0 b.current_token_holder channel) channel) h
        refine holdBounded_mapSet _ _ _ hb ?_ ?_
        · have := (hb (mapAt 0 (mapTouch 0 b.current_token_holder channel) channel)).1
          simp only
          omega
        · simp only
          omega
    · split
      · exact holdBounded_pass M channel _ _ (holdBounded_mapTouch _ _ h)
      · exact holdBounded_mapTouch _ _ h

theorem holdBounded_updateTokenRings (M : Consts) :
    ∀ (l : List (Int × List Int)) (b : BMACController), HoldBounded b.hub_states →
      HoldBounded (updateTokenRings M l b).hub_states := by
  intro l
  induction l with
  | nil => intro b h; exact h
  | cons e rest ih =>
    obtain ⟨c, r⟩ := e
    intro b h
    exact ih _ (holdBounded_updateTokenRing M c b h)

theorem resetHolders_hub_states :
    ∀ (l : List (Int × Int)) (b : BMACController),
      (resetHolders l b).hub_states = b.hub_states := by
  intro l
  induction l with
  | nil => intro b; rfl
  | cons e rest ih =>
    obtain ⟨c, h⟩ := e
    intro b
    rw [resetHolders_cons, ih, (resetHolder_other c b).1]

/-- After a clock edge with `reset` high every hub is idle with no hold cycle counted. -/
theorem fresh_reset (M : Consts) (b : BMACController) :
    Fresh (bmacProcess M true b).hub_states := by
  simp only [bmacProcess, if_true, resetHolders_hub_states]
  intro x
  unfold mapAt
  rw [mapFind_map (fun st : BMACState => { st with
    current_state := BMAC_IDLE, has_token := false, token_hold_cycles := 0 })]
  cases mapFind b.hub_states x with
  | none => exact ⟨rfl, rfl⟩
  | some st => exact ⟨rfl, rfl⟩

theorem holdBounded_bmacProcess (M : Consts) (reset : Bool) (b : BMACController)
    (h : HoldBounded b.hub_states) : HoldBounded (bmacProcess M reset b).hub_states := by
  cases reset with
  | true => exact fresh_holdBounded _ (fresh_reset M b)
  | false =>
    simp only [bmacProcess, Bool.false_eq_true, if_false]
    exact holdBounded_updateTokenRings M _ b h

theorem holdBounded_bmacTicks (M : Consts) :
    ∀ (resets : List Bool) (b : BMACController), HoldBounded b.hub_states →
      HoldBounded (bmacTicks M resets b).hub_states := by
  intro resets
  induction resets with
  | nil => intro b h; exact h
  | cons r rest ih =>
    intro b h
    exact ih _ (holdBounded_bmacProcess M r b h)

theorem fresh_mapSet (hs : List (Int × BMACState)) (k : Int) (st : BMACState) (h : Fresh hs)
    (h1 : st.current_state = BMAC_IDLE) (h2 : st.token_hold_cycles = 0) :
    Fresh (mapSet k st hs) := by
  intro x
  rw [mapAt_mapSet]
  split
  · exact ⟨h1, h2⟩
  · exact h x

theorem fresh_configureHubs (hub_order : List Int) :
    ∀ (l : List Int) (i : Nat) (hs : List (Int × BMACState)), Fresh hs →
      Fresh (configureHubs hub_order l i hs) := by
  intro l
  induction l with
  | nil => intro i hs h; exact h
  | cons hub rest ih =>
    intro i hs h
    simp only [configureHubs]
    exact ih _ _ (fresh_mapSet _ _ _ h rfl rfl)

theorem fresh_enableHubs (enable : Bool) :
    ∀ (l : List Int) (hs : List (Int × BMACState)), Fresh hs →
      Fresh (enableHubs enable l hs) := by
  intro l
  induction l with
  | nil => intro hs h; exact h
  | cons hub rest ih =>
    intro hs h
    simp only [enableHubs]
    exact ih _ (fresh_mapSet _ _ _ h (h hub).1 (h hub).2)

theorem fresh_enableBidirectionalMode (channel : Int) (enable : Bool) (b : BMACController)
    (h : Fresh b.hub_states) : Fresh (enableBidirectionalMode channel enable b).hub_states := by
  unfold enableBidirectionalMode
  cases mapFind b.token_ring_order channel with
  | none => exact h
  | some ring => exact fresh_enableHubs enable ring _ h

theorem fresh_initializeBMAC :
    ∀ (cfgs : List (Int × ChannelConfig)) (b : BMACController), Fresh b.hub_states →
      Fresh (initializeBMAC cfgs b).hub_states := by
  intro cfgs
  induction cfgs with
  | nil => intro b h; exact h
  | cons e rest ih =>
    obtain ⟨channel, config⟩ := e
    intro b h
    simp only [initializeBMAC]
    split
    · apply ih
      exact fresh_enableBidirectionalMode channel true _ (fresh_configureHubs _ _ _ _ h)
    · exact ih b h

theorem fresh_init (cfgs : List (Int × ChannelConfig)) (hubcfg : List (Int × Int)) :
    Fresh (BMACController.init cfgs hubcfg).hub_states :=
  fresh_initializeBMAC cfgs ⟨[], [], [], [], hubcfg⟩ (fun _ => ⟨rfl, rfl⟩)

/-! ### A controller with a single ring -/

theorem mapFind_single {α : Type} (c : Int) (v : α) : mapFind [(c, v)] c = some v := by
  simp [mapFind]

theorem mapTouch_single {α : Type} (d : α) (c : Int) (v : α) :
    mapTouch d [(c, v)] c = [(c, v)] :=
  mapTouch_of_find d _ c v (mapFind_single c v)

theorem mapAt_single {α : Type} (d : α) (c : Int) (v : α) : mapAt d [(c, v)] c = v :=
  mapAt_of_find d _ c v (mapFind_single c v)

theorem mapSet_single {α : Type} (c : Int) (v w : α) : mapSet c v [(c, w)] = [(c, v)] := by
  simp [mapSet]

theorem getNextHub_congr (M : Consts) (b b0 : BMACController) (channel hub direction : Int)
    (h : b.token_ring_order = b0.token_ring_order) :
    getNextHub M b channel hub direction = getNextHub M b0 channel hub direction := by
  unfold getNextHub
  rw [h]

/-- One clock edge with `reset` low of a controller with a single ring. -/
theorem updateTokenRing_single (M : Consts) (c h : Int) (hs : List (Int × BMACState))
    (ring : List Int) (td hc : List (Int × Int)) :
    bmacProcess M false ⟨hs, [(c, ring)], [(c, h)], td, hc⟩ =
      if (mapAt BMACState.zero hs h).current_state = BMAC_TOKEN_HOLD then
        if (mapAt BMACState.zero hs h).token_hold_cycles > 5 then
          passBidirectionalToken M c h
            ⟨mapTouch BMACState.zero hs h, [(c, ring)], [(c, h)], td, touchHubConfiguration hc h⟩
        else
          ⟨mapSet h (countHold (mapAt BMACState.zero hs h)) (mapTouch BMACState.zero hs h),
            [(c, ring)], [(c, h)], td, touchHubConfiguration hc h⟩
      else if (mapAt BMACState.zero hs h).current_state = BMAC_IDLE then
        passBidirectionalToken M c h ⟨mapTouch BMACState.zero hs h, [(c, ring)], [(c, h)], td, hc⟩
      else ⟨mapTouch BMACState.zero hs h, [(c, ring)], [(c, h)], td, hc⟩ := by
  rw [bmacProcess_single M _ c ring rfl]
  unfold updateTokenRing
  simp only [mapFind_single, mapTouch_single, mapAt_single, touchHub, hubState, mapAt_mapTouch,
    isTransmissionComplete, maxHoldCycles_eq, decide_eq_true_eq, setHubState]
  by_cases h1 : (mapAt BMACState.zero hs h).current_state = BMAC_TOKEN_HOLD
  · simp only [h1, if_true]
    by_cases h5 : (mapAt BMACState.zero hs h).token_hold_cycles > 5
    · simp only [h5, true_or, if_true]
    · have h10 : ¬ (mapAt BMACState.zero hs h).token_hold_cycles ≥ 10 := by omega
      simp only [h5, h10, or_self, if_false, countHold, h1]
  · simp only [h1, if_false]

/-- Result of `passBidirectionalToken` in a controller with a single ring, when the next hub
is valid. -/
theorem passBidirectionalToken_single (M : Consts) (c h h0 d : Int)
    (hs : List (Int × BMACState)) (ring : List Int) (hc : List (Int × Int)) :
    ∃ hs0 rev,
      shouldReverseDirection c h ⟨hs, [(c, ring)], [(c, h0)], [(c, d)], hc⟩
        = (rev, ⟨hs0, [(c, ring)], [(c, h0)], [(c, d)], hc⟩) ∧
      (∀ x, mapAt BMACState.zero hs0 x = mapAt BMACState.zero hs x) ∧
      ∀ (d1 next : Int),
        d1 = (if rev = true then
            (if d = BMAC_CLOCKWISE then BMAC_COUNTERCLOCKWISE else BMAC_CLOCKWISE) else d) →
        next = getNextHub M ⟨[], [(c, ring)], [], [], []⟩ c h d1 → next ≠ M.NOT_VALID →
        passBidirectionalToken M c h ⟨hs, [(c, ring)], [(c, h0)], [(c, d)], hc⟩ =
          ⟨mapSet next
              (acquireToken (mapAt BMACState.zero
                (mapSet h (releaseToken (mapAt BMACState.zero hs0 h)) hs0) next))
              (mapSet h (releaseToken (mapAt BMACState.zero hs0 h)) hs0),
            [(c, ring)], [(c, next)], [(c, d1)], hc⟩ := by
  obtain ⟨hs0, rev, h1, h2, h3⟩ :=
    passBidirectionalToken_result M c h hs [(c, ring)] [(c, h0)] [(c, d)] hc
  simp only [mapTouch_single, mapAt_single] at h1 h3
  refine ⟨hs0, rev, h1, h2, ?_⟩
  intro d1 next hd hnext hv
  have htd : [(c, d1)] = (if rev = true then mapSet c d1 [(c, d)] else [(c, d)]) := by
    cases rev with
    | true => simp only [if_true, mapSet_single]
    | false =>
      simp only [Bool.false_eq_true, if_false] at hd ⊢
      rw [hd]
  have hn : next = getNextHub M ⟨hs0, [(c, ring)], [(c, h0)], [(c, d1)], hc⟩ c h d1 := by
    rw [hnext]
    exact getNextHub_congr M _ _ c h d1 rfl
  rw [h3 d1 next [(c, d1)] hd htd hn, if_pos hv, mapSet_single]
  rfl

theorem getNextHub_member (M : Consts) (hNV : M.NOT_VALID < 0) (c h : Int) (ring : List Int)
    (hlen : ring.length < 2 ^ 31) (hmem : h ∈ ring) (d1 : Int) :
    getNextHub M ⟨[], [(c, ring)], [], [], []⟩ c h d1 ∈ ring := by
  obtain ⟨p, hp, _, hfind⟩ := findHub_first M.NOT_VALID h ring 0 hmem
  have hat := getNextHub_at M hNV ⟨[], [(c, ring)], [], [], []⟩ c ring (mapFind_single c ring)
    hlen h p hp hfind d1
  split at hat
  · exact List.getElem?_mem hat.symm
  · exact List.getElem?_mem hat.symm

/-- A pass in a controller with a single ring: the new holder is a hub of the ring, it is in
state `BMAC_TOKEN_HOLD` with no hold cycle counted, and the old holder is idle. -/
theorem pass_ring (M : Consts) (hNV : M.NOT_VALID < 0) (c h d : Int)
    (hs : List (Int × BMACState)) (ring : List Int) (hc : List (Int × Int))
    (hvalid : ∀ x ∈ ring, x ≠ M.NOT_VALID) (hlen : ring.length < 2 ^ 31) (hmem : h ∈ ring)
    (hzero : ∀ x, x ≠ h → (mapAt BMACState.zero hs x).token_hold_cycles = 0) :
    ∃ h1 hs1 d1, passBidirectionalToken M c h ⟨hs, [(c, ring)], [(c, h)], [(c, d)], hc⟩
        = ⟨hs1, [(c, ring)], [(c, h1)], [(c, d1)], hc⟩ ∧ h1 ∈ ring ∧
      (mapAt BMACState.zero hs1 h1).current_state = BMAC_TOKEN_HOLD ∧
      (mapAt BMACState.zero hs1 h1).token_hold_cycles = 0 ∧
      (mapAt BMACState.zero hs1 h1).has_token = true ∧
      (∀ x, x ≠ h1 → (mapAt BMACState.zero hs1 x).token_hold_cycles = 0) ∧
      (h1 ≠ h → (mapAt BMACState.zero hs1 h).current_state = BMAC_IDLE ∧
        (mapAt BMACState.zero hs1 h).has_token = false) := by
  obtain ⟨hs0, rev, _, h2, h3⟩ := passBidirectionalToken_single M c h h d hs ring hc
  have hin := getNextHub_member M hNV c h ring hlen hmem
    (if rev = true then (if d = BMAC_CLOCKWISE then BMAC_COUNTERCLOCKWISE else BMAC_CLOCKWISE)
      else d)
  have h4 := h3 _ _ rfl rfl (hvalid _ hin)
  generalize getNextHub M ⟨[], [(c, ring)], [], [], []⟩ c h _ = next at hin h4
  refine ⟨next, _, _, h4, hin, ?_, ?_, ?_, ?_, ?_⟩
  · rw [mapAt_mapSet, if_pos rfl]
    rfl
  · rw [mapAt_mapSet, if_pos rfl, mapAt_mapSet]
    by_cases hn : next = h
    · rw [if_pos hn]
      rfl
    · rw [if_neg hn]
      show (mapAt BMACState.zero hs0 next).token_hold_cycles = 0
      rw [h2]
      exact hzero next hn
  · rw [mapAt_mapSet, if_pos rfl]
    rfl
  · intro x hx
    rw [mapAt_mapSet, if_neg hx, mapAt_mapSet]
    by_cases hxh : x = h
    · rw [if_pos hxh]
      rfl
    · rw [if_neg hxh, h2]
      exact hzero x hxh
  · intro hne
    rw [mapAt_mapSet, if_neg (fun hEq => hne hEq.symm), mapAt_mapSet, if_pos rfl]
    exact ⟨rfl, rfl⟩

/-- A clock edge on which the holder of a single ring keeps the token. -/
theorem ring_tick_hold (M : Consts) (c h : Int) (ring : List Int) (b : BMACController)
    (hr : RingState c ring h b) (hst : (hubState b h).current_state = BMAC_TOKEN_HOLD)
    (h5 : (hubState b h).token_hold_cycles ≤ 5) :
    RingState c ring h (bmacProcess M false b) ∧
    (hubState (bmacProcess M false b) h).current_state = BMAC_TOKEN_HOLD ∧
    (hubState (bmacProcess M false b) h).token_hold_cycles
      = (hubState b h).token_hold_cycles + 1 := by
  obtain ⟨hs, d, hc, hb, hmem, hzero⟩ := hr
  subst hb
  have hst1 : (mapAt BMACState.zero hs h).current_state = BMAC_TOKEN_HOLD := hst
  have h51 : ¬ (mapAt BMACState.zero hs h).token_hold_cycles > 5 := by
    have : (mapAt BMACState.zero hs h).token_hold_cycles ≤ 5 := h5
    omega
  rw [updateTokenRing_single, if_pos hst1, if_neg h51]
  refine ⟨⟨_, d, _, rfl, hmem, ?_⟩, ?_, ?_⟩
  · intro x hx
    rw [mapAt_mapSet, if_neg hx, mapAt_mapTouch]
    exact hzero x hx
  · show (mapAt BMACState.zero (mapSet h _ _) h).current_state = BMAC_TOKEN_HOLD
    rw [mapAt_mapSet, if_pos rfl]
    exact hst1
  · show (mapAt BMACState.zero (mapSet h _ _) h).token_hold_cycles = _
    rw [mapAt_mapSet, if_pos rfl]
    rfl

/-- A clock edge on which the holder of a single ring passes the token. -/
theorem ring_tick_pass (M : Consts) (hNV : M.NOT_VALID < 0) (c h : Int) (ring : List Int)
    (b : BMACController) (hvalid : ∀ x ∈ ring, x ≠ M.NOT_VALID) (hlen : ring.length < 2 ^ 31)
    (hr : RingState c ring h b)
    (hst : (hubState b h).current_state = BMAC_IDLE ∨
      ((hubState b h).current_state = BMAC_TOKEN_HOLD ∧ (hubState b h).token_hold_cycles > 5)) :
    ∃ h1, RingState c ring h1 (bmacProcess M false b) ∧
      (hubState (bmacProcess M false b) h1).current_state = BMAC_TOKEN_HOLD ∧
      (hubState (bmacProcess M false b) h1).token_hold_cycles = 0 ∧
      (hubState (bmacProcess M false b) h1).has_token = true ∧
      (h1 ≠ h → (hubState (bmacProcess M false b) h).current_state = BMAC_IDLE ∧
        (hubState (bmacProcess M false b) h).has_token = false) := by
  obtain ⟨hs, d, hc, hb, hmem, hzero⟩ := hr
  subst hb
  have hzero1 : ∀ x, x ≠ h →
      (mapAt BMACState.zero (mapTouch BMACState.zero hs h) x).token_hold_cycles = 0 := by
    intro x hx
    rw [mapAt_mapTouch]
    exact hzero x hx
  have hne : ¬ (BMAC_IDLE = BMAC_TOKEN_HOLD) := by decide
  rw [updateTokenRing_single]
  rcases hst with hidle | ⟨hhold, h5⟩
  · have hidle1 : (mapAt BMACState.zero hs h).current_state = BMAC_IDLE := hidle
    rw [hidle1, if_neg hne, if_pos rfl]
    obtain ⟨h1, hs1, d1, he, hm1, p1, p2, p3, p4, p5⟩ := pass_ring M hNV c h d
      (mapTouch BMACState.zero hs h) ring hc hvalid hlen hmem hzero1
    rw [he]
    exact ⟨h1, ⟨hs1, d1, hc, rfl, hm1, p4⟩, p1, p2, p3, p5⟩
  · have hhold1 : (mapAt BMACState.zero hs h).current_state = BMAC_TOKEN_HOLD := hhold
    have h51 : (mapAt BMACState.zero hs h).token_hold_cycles > 5 := h5
    rw [if_pos hhold1, if_pos h51]
    obtain ⟨h1, hs1, d1, he, hm1, p1, p2, p3, p4, p5⟩ := pass_ring M hNV c h d
      (mapTouch BMACState.zero hs h) ring (touchHubConfiguration hc h) hvalid hlen hmem hzero1
    rw [he]
    exact ⟨h1, ⟨hs1, d1, _, rfl, hm1, p4⟩, p1, p2, p3, p5⟩

/-- Every clock edge with `reset` low keeps a controller with a single ring in such a
state. -/
theorem ring_tick (M : Consts) (hNV : M.NOT_VALID < 0) (c h : Int) (ring : List Int)
    (b : BMACController) (hvalid : ∀ x ∈ ring, x ≠ M.NOT_VALID) (hlen : ring.length < 2 ^ 31)
    (hr : RingState c ring h b) : ∃ h1, RingState c ring h1 (bmacProcess M false b) := by
  by_cases hidle : (hubState b h).current_state = BMAC_IDLE
  · obtain ⟨h1, hr1, _⟩ := ring_tick_pass M hNV c h ring b hvalid hlen hr (Or.inl hidle)
    exact ⟨h1, hr1⟩
  · by_cases hhold : (hubState b h).current_state = BMAC_TOKEN_HOLD
    · by_cases h5 : (hubState b h).token_hold_cycles > 5
      · obtain ⟨h1, hr1, _⟩ := ring_tick_pass M hNV c h ring b hvalid hlen hr
          (Or.inr ⟨hhold, h5⟩)
        exact ⟨h1, hr1⟩
      · exact ⟨h, (ring_tick_hold M c h ring b hr hhold (by omega)).1⟩
    · obtain ⟨hs, d, hc, hb, hmem, hzero⟩ := hr
      subst hb
      have hidle1 : ¬ (mapAt BMACState.zero hs h).current_state = BMAC_IDLE := hidle
      have hhold1 : ¬ (mapAt BMACState.zero hs h).current_state = BMAC_TOKEN_HOLD := hhold
      rw [updateTokenRing_single, if_neg hhold1, if_neg hidle1]
      exact ⟨h, _, d, hc, rfl, hmem, fun x hx => by rw [mapAt_mapTouch]; exact hzero x hx⟩

/-- A clock edge with `reset` high puts the token of a single ring back at `ring[0]`. -/
theorem ring_reset (M : Consts) (c h : Int) (ring : List Int) (b : BMACController)
    (hr : RingState c ring h b) : RingState c ring (ring.headD 0) (bmacProcess M true b) := by
  obtain ⟨hs, d, hc, hb, hmem, _⟩ := hr
  subst hb
  have hfresh := fresh_reset M ⟨hs, [(c, ring)], [(c, h)], [(c, d)], hc⟩
  cases ring with
  | nil => cases hmem
  | cons r0 rest =>
    have he : bmacProcess M true ⟨hs, [(c, r0 :: rest)], [(c, h)], [(c, d)], hc⟩
        = ⟨hs.map (fun e => (e.1, { e.2 with
            current_state := BMAC_IDLE, has_token := false, token_hold_cycles := 0 })),
          [(c, r0 :: rest)], [(c, r0)], [(c, d)], hc⟩ := by
      simp only [bmacProcess, if_true, resetHolders, mapTouch_single, mapAt_single,
        List.length_cons, gt_iff_lt, Nat.zero_lt_succ, List.headD_cons, mapSet_single]
    rw [he] at hfresh ⊢
    exact ⟨_, d, hc, rfl, List.mem_cons_self _ _, fun x _ => (hfresh x).2⟩

/-- Initial state of a controller configured with a single bidirectional channel. -/
theorem init_single (c : Int) (cfg : ChannelConfig) (hubcfg : List (Int × Int))
    (htag : cfg.tag = some BMAC_BIDIRECTIONAL) :
    BMACController.init [(c, cfg)] hubcfg
      = ⟨enableHubs true cfg.hubOrder (configureHubs cfg.hubOrder cfg.hubOrder 0 []),
        [(c, cfg.hubOrder)], [(c, cfg.hubOrder.headD 0)], [(c, BMAC_CLOCKWISE)], hubcfg⟩ := by
  have htag1 : cfg.macPolicy[0]? = some BMAC_BIDIRECTIONAL := htag
  have hlen : cfg.macPolicy.length > 0 := by
    cases hm : cfg.macPolicy with
    | nil => rw [hm] at htag1; cases htag1
    | cons x xs => simp
  simp only [BMACController.init, initializeBMAC, hlen, htag1, and_self, if_true,
    configureBMACRing, enableBidirectionalMode, mapSet, mapFind_single]
  rfl

theorem ring_init (c : Int) (cfg : ChannelConfig) (hubcfg : List (Int × Int))
    (htag : cfg.tag = some BMAC_BIDIRECTIONAL) :
    RingState c cfg.hubOrder (cfg.hubOrder.headD 0) (BMACController.init [(c, cfg)] hubcfg) := by
  have hfresh := fresh_init [(c, cfg)] hubcfg
  rw [init_single c cfg hubcfg htag] at hfresh ⊢
  refine ⟨_, _, _, rfl, ?_, fun x _ => (hfresh x).2⟩
  have hne := hubOrder_ne_nil cfg
  cases hl : cfg.hubOrder with
  | nil => exact absurd hl hne
  | cons x xs => exact List.mem_cons_self _ _

theorem ring_bmacTicks (M : Consts) (hNV : M.NOT_VALID < 0) (c : Int) (ring : List Int)
    (hvalid : ∀ x ∈ ring, x ≠ M.NOT_VALID) (hlen : ring.length < 2 ^ 31) :
    ∀ (resets : List Bool) (b : BMACController) (h : Int), RingState c ring h b →
      ∃ h1, RingState c ring h1 (bmacTicks M resets b) := by
  intro resets
  induction resets with
  | nil => intro b h hr; exact ⟨h, hr⟩
  | cons r rest ih =>
    intro b h hr
    cases r with
    | true => exact ih _ _ (ring_reset M c h ring b hr)
    | false =>
      obtain ⟨h1, hr1⟩ := ring_tick M hNV c h ring b hvalid hlen hr
      exact ih _ _ hr1

/-- A hub that holds the token of a single ring with no hold cycle counted keeps it for
six clock edges, counting them. -/
theorem ring_hold_run (M : Consts) (c h : Int) (ring : List Int) (b : BMACController)
    (hr : RingState c ring h b) (hst : (hubState b h).current_state = BMAC_TOKEN_HOLD)
    (h0 : (hubState b h).token_hold_cycles = 0) :
    ∀ j : Nat, j ≤ 6 → RingState c ring h (bmacRun M j b) ∧
      (hubState (bmacRun M j b) h).current_state = BMAC_TOKEN_HOLD ∧
      (hubState (bmacRun M j b) h).token_hold_cycles = j := by
  intro j
  induction j with
  | zero => intro _; exact ⟨hr, hst, h0⟩
  | succ j ih =>
    intro hj
    obtain ⟨i1, i2, i3⟩ := ih (by omega)
    rw [bmacRun_succ]
    obtain ⟨k1, k2, k3⟩ := ring_tick_hold M c h ring _ i1 i2 (by rw [i3]; omega)
    refine ⟨k1, k2, ?_⟩
    rw [k3, i3]
    push_cast
    rfl

theorem ringState_holder (c h h1 : Int) (ring : List Int) (b : BMACController)
    (hr : RingState c ring h1 b) (hh : mapFind b.current_token_holder c = some h) : h1 = h := by
  obtain ⟨hs, d, hc, hb, _, _⟩ := hr
  subst hb
  rw [mapFind_single] at hh
  exact Option.some.inj hh

theorem ringState_find (c h : Int) (ring : List Int) (b : BMACController)
    (hr : RingState c ring h b) : mapFind b.current_token_holder c = some h := by
  obtain ⟨hs, d, hc, hb, _, _⟩ := hr
  subst hb
  exact mapFind_single c h

theorem ringState_mem (c h : Int) (ring : List Int) (b : BMACController)
    (hr : RingState c ring h b) : h ∈ ring := by
  obtain ⟨hs, d, hc, hb, hm, _⟩ := hr
  exact hm

/-- **C24**, the claim at a concrete input: with two channels on the ring `[0, 1]`, hub 1
acquires both tokens on the first clock edge in state `BMAC_TOKEN_HOLD`, counts two hold
cycles per edge (2 after the second edge, 6 after the fourth), and has passed the token of
channel 0 to hub 0 on the fourth edge after acquiring it; on the seventh edge after
acquiring it hub 1 is idle and hub 0 is the holder. -/
theorem shared_hub_passes_on_fourth_tick :
    mapFind (bmacRun sampleConsts 1 (BMACController.init twoSharedRings [])).current_token_holder
      0 = some 1 ∧
    mapFind (bmacRun sampleConsts 1 (BMACController.init twoSharedRings [])).current_token_holder
      1 = some 1 ∧
    (hubState (bmacRun sampleConsts 1 (BMACController.init twoSharedRings [])) 1).current_state
      = BMAC_TOKEN_HOLD ∧
    (hubState (bmacRun sampleConsts 1 (BMACController.init twoSharedRings [])) 1).token_hold_cycles
      = 0 ∧
    (hubState (bmacRun sampleConsts 2 (BMACController.init twoSharedRings [])) 1).token_hold_cycles
      = 2 ∧
    (hubState (bmacRun sampleConsts 4 (BMACController.init twoSharedRings [])) 1).token_hold_cycles
      = 6 ∧
    mapFind (bmacRun sampleConsts 4 (BMACController.init twoSharedRings [])).current_token_holder
      0 = some 1 ∧
    mapFind (bmacRun sampleConsts 5 (BMACController.init twoSharedRings [])).current_token_holder
      0 = some 0 ∧
    mapFind (bmacRun sampleConsts 8 (BMACController.init twoSharedRings [])).current_token_holder
      0 = some 0 ∧
    (hubState (bmacRun sampleConsts 8 (BMACController.init twoSharedRings [])) 1).current_state
      = BMAC_IDLE := by
  refine ⟨?_, ?_, ?_, ?_, ?_, ?_, ?_, ?_, ?_, ?_⟩ <;> decide

/-- **C24** as amended (`updateTokenRing`, `isTransmissionComplete`,
`passBidirectionalToken`). In every state reached from the initial state of the controller
by clock edges with any values of `reset`, for any configuration, every hub has between 0
and 6 hold cycles, so the comparison with `max_hold_cycles`, which is 10, is false for
every hub. When the configuration is a single bidirectional channel whose ring has fewer
than 2^31 hubs, none of them `NOT_VALID`, and `NOT_VALID` is negative: an edge with `reset`
low on which the holder is idle, or in state `BMAC_TOKEN_HOLD` with 6 hold cycles, gives the
token to a hub of the ring, in state `BMAC_TOKEN_HOLD` with no hold cycle counted; and a
holder in that condition keeps the token during the next six edges with `reset` low,
counting them, and passes it on the seventh to a hub of the ring. -/
theorem hold_cycles_bounded (M : Consts) (hNV : M.NOT_VALID < 0)
    (cfgs : List (Int × ChannelConfig)) (hubcfg : List (Int × Int)) (resets : List Bool) :
    (∀ x, 0 ≤ (hubState (bmacTicks M resets (BMACController.init cfgs hubcfg)) x).token_hold_cycles
      ∧ (hubState (bmacTicks M resets (BMACController.init cfgs hubcfg)) x).token_hold_cycles
        ≤ 6) ∧
    (∀ x, ¬ ((hubState (bmacTicks M resets (BMACController.init cfgs hubcfg)) x).token_hold_cycles
      ≥ maxHoldCycles (bmacTicks M resets (BMACController.init cfgs hubcfg)).hub_configuration
        x)) ∧
    ∀ (c : Int) (cfg : ChannelConfig) (h : Int), cfgs = [(c, cfg)] →
      cfg.tag = some BMAC_BIDIRECTIONAL → (∀ x ∈ cfg.hubOrder, x ≠ M.NOT_VALID) →
      cfg.hubOrder.length < 2 ^ 31 →
      mapFind (bmacTicks M resets (BMACController.init cfgs hubcfg)).current_token_holder c
        = some h →
      ((hubState (bmacTicks M resets (BMACController.init cfgs hubcfg)) h).current_state
          = BMAC_IDLE ∨
        ((hubState (bmacTicks M resets (BMACController.init cfgs hubcfg)) h).current_state
          = BMAC_TOKEN_HOLD ∧
        (hubState (bmacTicks M resets (BMACController.init cfgs hubcfg)) h).token_hold_cycles
          = 6) →
        ∃ h1 ∈ cfg.hubOrder,
          mapFind (bmacProcess M false
            (bmacTicks M resets (BMACController.init cfgs hubcfg))).current_token_holder c
            = some h1 ∧
          (hubState (bmacProcess M false
            (bmacTicks M resets (BMACController.init cfgs hubcfg))) h1).current_state
            = BMAC_TOKEN_HOLD ∧
          (hubState (bmacProcess M false
            (bmacTicks M resets (BMACController.init cfgs hubcfg))) h1).token_hold_cycles
            = 0) ∧
      ((hubState (bmacTicks M resets (BMACController.init cfgs hubcfg)) h).current_state
          = BMAC_TOKEN_HOLD →
        (hubState (bmacTicks M resets (BMACController.init cfgs hubcfg)) h).token_hold_cycles
          = 0 →
        (∀ j : Nat, j ≤ 6 →
          mapFind (bmacRun M j
            (bmacTicks M resets (BMACController.init cfgs hubcfg))).current_token_holder c
            = some h ∧
          (hubState (bmacRun M j
            (bmacTicks M resets (BMACController.init cfgs hubcfg))) h).current_state
            = BMAC_TOKEN_HOLD ∧
          (hubState (bmacRun M j
            (bmacTicks M resets (BMACController.init cfgs hubcfg))) h).token_hold_cycles = j) ∧
        ∃ h1 ∈ cfg.hubOrder,
          mapFind (bmacRun M 7
            (bmacTicks M resets (BMACController.init cfgs hubcfg))).current_token_holder c
            = some h1 ∧
          (hubState (bmacRun M 7
            (bmacTicks M resets (BMACController.init cfgs hubcfg))) h1).current_state
            = BMAC_TOKEN_HOLD ∧
          (hubState (bmacRun M 7
            (bmacTicks M resets (BMACController.init cfgs hubcfg))) h1).token_hold_cycles = 0 ∧
          (hubState (bmacRun M 7
            (bmacTicks M resets (BMACController.init cfgs hubcfg))) h1).has_token = true ∧
          (h1 ≠ h →
            (hubState (bmacRun M 7
              (bmacTicks M resets (BMACController.init cfgs hubcfg))) h).current_state
              = BMAC_IDLE ∧
            (hubState (bmacRun M 7
              (bmacTicks M resets (BMACController.init cfgs hubcfg))) h).has_token = false)) := by
  have hbound := holdBounded_bmacTicks M resets (BMACController.init cfgs hubcfg)
    (fresh_holdBounded _ (fresh_init cfgs hubcfg))
  refine ⟨hbound, ?_, ?_⟩
  · intro x
    rw [maxHoldCycles_eq]
    have := (hbound x).2
    have h2 : (hubState (bmacTicks M resets (BMACController.init cfgs hubcfg)) x).token_hold_cycles
        ≤ 6 := this
    omega
  · intro c cfg h hcfgs htag hvalid hlen hholder
    subst hcfgs
    obtain ⟨h1, hr⟩ := ring_bmacTicks M hNV c cfg.hubOrder hvalid hlen resets _ _
      (ring_init c cfg hubcfg htag)
    have hh := ringState_holder c h h1 _ _ hr hholder
    subst hh
    constructor
    · intro hpass
      have hpass1 : (hubState (bmacTicks M resets (BMACController.init [(c, cfg)] hubcfg))
            h1).current_state = BMAC_IDLE ∨
          ((hubState (bmacTicks M resets (BMACController.init [(c, cfg)] hubcfg))
            h1).current_state = BMAC_TOKEN_HOLD ∧
          (hubState (bmacTicks M resets (BMACController.init [(c, cfg)] hubcfg))
            h1).token_hold_cycles > 5) := by
        rcases hpass with hi | ⟨hh, h6⟩
        · exact Or.inl hi
        · exact Or.inr ⟨hh, by rw [h6]; decide⟩
      obtain ⟨h2, q1, q2, q3, _, _⟩ := ring_tick_pass M hNV c h1 cfg.hubOrder _ hvalid hlen hr
        hpass1
      exact ⟨h2, ringState_mem c h2 _ _ q1, ringState_find c h2 _ _ q1, q2, q3⟩
    · intro hst h0
      have hrun := ring_hold_run M c h1 cfg.hubOrder _ hr hst h0
      constructor
      · intro j hj
        obtain ⟨r1, r2, r3⟩ := hrun j hj
        exact ⟨ringState_find c h1 _ _ r1, r2, r3⟩
      · obtain ⟨r1, r2, r3⟩ := hrun 6 (le_refl 6)
        have hpass := ring_tick_pass M hNV c h1 cfg.hubOrder _ hvalid hlen r1
          (Or.inr ⟨r2, by rw [r3]; decide⟩)
        rw [← bmacRun_succ] at hpass
        obtain ⟨h2, q1, q2, q3, q4, q5⟩ := hpass
        exact ⟨h2, ringState_mem c h2 _ _ q1, ringState_find c h2 _ _ q1, q2, q3, q4, q5⟩

/-- Witness of **C24** as amended: scenario D after a reset edge and one more edge, when
hub 1 has just acquired the token. -/
theorem hold_cycles_bounded_witness :
    (∀ j : Nat, j ≤ 6 →
      mapFind (bmacRun sampleConsts j (bmacTicks sampleConsts [true, false]
        (BMACController.init scenarioD []))).current_token_holder 0 = some 1 ∧
      (hubState (bmacRun sampleConsts j (bmacTicks sampleConsts [true, false]
        (BMACController.init scenarioD []))) 1).current_state = BMAC_TOKEN_HOLD ∧
      (hubState (bmacRun sampleConsts j (bmacTicks sampleConsts [true, false]
        (BMACController.init scenarioD []))) 1).token_hold_cycles = j) ∧
    ∃ h1 ∈ (⟨["BMAC_BIDIRECTIONAL", "10"], 0, [0, 1, 2, 3]⟩ : ChannelConfig).hubOrder,
      mapFind (bmacRun sampleConsts 7 (bmacTicks sampleConsts [true, false]
        (BMACController.init scenarioD []))).current_token_holder 0 = some h1 ∧
      (hubState (bmacRun sampleConsts 7 (bmacTicks sampleConsts [true, false]
        (BMACController.init scenarioD []))) h1).current_state = BMAC_TOKEN_HOLD ∧
      (hubState (bmacRun sampleConsts 7 (bmacTicks sampleConsts [true, false]
        (BMACController.init scenarioD []))) h1).token_hold_cycles = 0 ∧
      (hubState (bmacRun sampleConsts 7 (bmacTicks sampleConsts [true, false]
        (BMACController.init scenarioD []))) h1).has_token = true ∧
      (h1 ≠ 1 →
        (hubState (bmacRun sampleConsts 7 (bmacTicks sampleConsts [true, false]
          (BMACController.init scenarioD []))) 1).current_state = BMAC_IDLE ∧
        (hubState (bmacRun sampleConsts 7 (bmacTicks sampleConsts [true, false]
          (BMACController.init scenarioD []))) 1).has_token = false) :=
  ((hold_cycles_bounded sampleConsts (by decide) scenarioD [] [true, false]).2.2 0
    ⟨["BMAC_BIDIRECTIONAL", "10"], 0, [0, 1, 2, 3]⟩ 1 rfl (by decide) (by decide) (by decide)
    (by decide)).2 (by decide) (by decide)

/-! ### The token of the ring `[0, ..., n - 1]` never leaves hubs 0 and 1 -/

theorem ringUpTo_cons (m : Nat) :
    ringUpTo (m + 2) = 0 :: 1 :: (List.range m).map (fun i : Nat => Int.ofNat i + 2) := by
  unfold ringUpTo
  rw [List.range_succ_eq_map, List.range_succ_eq_map]
  simp only [List.map_cons, List.map_map]
  refine congrArg (fun l => (0 : Int) :: l) (congrArg (fun l => (1 : Int) :: l) ?_)
  apply List.map_congr_left
  intro i _
  simp only [Function.comp]
  show ((i + 1 + 1 : Nat) : Int) = (i : Int) + 2
  push_cast
  ring

theorem ringUpTo_length (n : Nat) : (ringUpTo n).length = n := by
  simp [ringUpTo]

theorem ringUpTo_tail_ne (m : Nat) (x : Int)
    (hx : x ∈ (List.range m).map (fun i : Nat => Int.ofNat i + 2)) : x ≠ 0 ∧ x ≠ 1 := by
  obtain ⟨i, _, hi⟩ := List.mem_map.mp hx
  have h0 : (0 : Int) ≤ Int.ofNat i := Int.ofNat_nonneg i
  constructor <;> omega

theorem sizeT_zero : sizeT 0 = 0 := by decide

theorem sizeT_one : sizeT 1 = 1 := by decide

/-- With every hub of the ring idle, `shouldReverseDirection` is false. -/
theorem shouldReverseDirection_idle (c h d : Int) (hs : List (Int × BMACState))
    (ring : List Int) (cth hc : List (Int × Int))
    (hidle : ∀ x ∈ ring, (mapAt BMACState.zero hs x).current_state = BMAC_IDLE) :
    (shouldReverseDirection c h ⟨hs, [(c, ring)], cth, [(c, d)], hc⟩).1 = false := by
  obtain ⟨hs1, h1, _⟩ := countPending_idle d h ring 0 hs [(c, ring)] cth [(c, d)] hc 0 0 hidle
  simp only [shouldReverseDirection, mapTouch_single, mapAt_single, h1]
  decide

/-- Hub 1 holding the token clockwise on a ring `0 :: 1 :: tail`, alone not idle, counts
itself as backward. -/
theorem shouldReverseDirection_hub1 (c : Int) (hs : List (Int × BMACState))
    (tail : List Int) (cth hc : List (Int × Int))
    (h0 : (mapAt BMACState.zero hs 0).current_state = BMAC_IDLE)
    (h1 : (mapAt BMACState.zero hs 1).current_state = BMAC_TOKEN_HOLD)
    (hidle : ∀ x ∈ tail, (mapAt BMACState.zero hs x).current_state = BMAC_IDLE) :
    (shouldReverseDirection c 1 ⟨hs, [(c, 0 :: 1 :: tail)], cth, [(c, BMAC_CLOCKWISE)], hc⟩).1
      = true := by
  have hne : ¬ (BMAC_TOKEN_HOLD = BMAC_IDLE) := by decide
  obtain ⟨hs1, hcp, _⟩ := countPending_idle BMAC_CLOCKWISE 1 tail 2
    (mapTouch BMACState.zero (mapTouch BMACState.zero hs 0) 1) [(c, 0 :: 1 :: tail)] cth
    [(c, BMAC_CLOCKWISE)] hc 0 1
    (fun x hx => by rw [mapAt_mapTouch, mapAt_mapTouch]; exact hidle x hx)
  simp only [shouldReverseDirection, mapTouch_single, mapAt_single, countPending, touchHub,
    hubState, mapAt_mapTouch, h0, h1, hne, ne_eq, not_true_eq_false, not_false_eq_true,
    if_true, if_false, sizeT_one, gt_iff_lt, Nat.zero_add, lt_irrefl, Int.zero_add, hcp]
  decide

/-- Hub 0 holding the token counter-clockwise, alone not idle, counts itself as
backward. -/
theorem shouldReverseDirection_hub0 (c : Int) (hs : List (Int × BMACState))
    (rest : List Int) (cth hc : List (Int × Int))
    (h0 : (mapAt BMACState.zero hs 0).current_state = BMAC_TOKEN_HOLD)
    (hidle : ∀ x ∈ rest, (mapAt BMACState.zero hs x).current_state = BMAC_IDLE) :
    (shouldReverseDirection c 0
      ⟨hs, [(c, 0 :: rest)], cth, [(c, BMAC_COUNTERCLOCKWISE)], hc⟩).1 = true := by
  have hne : ¬ (BMAC_TOKEN_HOLD = BMAC_IDLE) := by decide
  have hdir : ¬ (BMAC_COUNTERCLOCKWISE = BMAC_CLOCKWISE) := by decide
  obtain ⟨hs1, hcp, _⟩ := countPending_idle BMAC_COUNTERCLOCKWISE 0 rest 1
    (mapTouch BMACState.zero hs 0) [(c, 0 :: rest)] cth [(c, BMAC_COUNTERCLOCKWISE)] hc 0 1
    (fun x hx => by rw [mapAt_mapTouch]; exact hidle x hx)
  simp only [shouldReverseDirection, mapTouch_single, mapAt_single, countPending, touchHub,
    hubState, mapAt_mapTouch, h0, hne, hdir, ne_eq, not_false_eq_true,
    if_true, if_false, sizeT_zero, Nat.zero_add, lt_irrefl, Int.zero_add, hcp]
  decide

theorem getNextHub_hub0_clockwise (M : Consts) (hNV : M.NOT_VALID < 0) (c : Int)
    (tail : List Int) (hlen : tail.length + 2 < 2 ^ 31) :
    getNextHub M ⟨[], [(c, 0 :: 1 :: tail)], [], [], []⟩ c 0 BMAC_CLOCKWISE = 1 := by
  have hat := getNextHub_at M hNV ⟨[], [(c, 0 :: 1 :: tail)], [], [], []⟩ c (0 :: 1 :: tail)
    (mapFind_single c _) (by simpa using hlen) 0 0 (by simp) (by simp [findHub])
    BMAC_CLOCKWISE
  rw [if_pos rfl] at hat
  have hidx : (0 + 1) % (0 :: 1 :: tail).length = 1 := by
    simp only [List.length_cons]
    exact Nat.mod_eq_of_lt (by omega)
  have hget : (0 :: 1 :: tail)[1]? = some 1 := by simp
  rw [hidx, hget] at hat
  exact Option.some.inj hat

theorem getNextHub_hub1_counterclockwise (M : Consts) (hNV : M.NOT_VALID < 0) (c : Int)
    (tail : List Int) (hlen : tail.length + 2 < 2 ^ 31) :
    getNextHub M ⟨[], [(c, 0 :: 1 :: tail)], [], [], []⟩ c 1 BMAC_COUNTERCLOCKWISE = 0 := by
  have hat := getNextHub_at M hNV ⟨[], [(c, 0 :: 1 :: tail)], [], [], []⟩ c (0 :: 1 :: tail)
    (mapFind_single c _) (by simpa using hlen) 1 1 (by simp) (by simp [findHub])
    BMAC_COUNTERCLOCKWISE
  rw [if_neg (by decide)] at hat
  have hidx : (1 + (0 :: 1 :: tail).length - 1) % (0 :: 1 :: tail).length = 0 := by
    simp only [List.length_cons]
    rw [show 1 + (tail.length + 1 + 1) - 1 = tail.length + 1 + 1 by omega]
    exact Nat.mod_self _
  have hget : (0 :: 1 :: tail)[0]? = some 0 := by simp
  rw [hidx, hget] at hat
  exact Option.some.inj hat

/-- Result of a pass in a controller with a single ring, when the reversal decision and the
next hub are known. -/
theorem pass_known (M : Consts) (c h d d1 : Int) (hs : List (Int × BMACState))
    (ring : List Int) (hc : List (Int × Int)) (rev : Bool) (next : Int)
    (hrev : (shouldReverseDirection c h ⟨hs, [(c, ring)], [(c, h)], [(c, d)], hc⟩).1 = rev)
    (hd1 : d1 = (if rev = true then
      (if d = BMAC_CLOCKWISE then BMAC_COUNTERCLOCKWISE else BMAC_CLOCKWISE) else d))
    (hnext : getNextHub M ⟨[], [(c, ring)], [], [], []⟩ c h d1 = next)
    (hv : next ≠ M.NOT_VALID) (hne : next ≠ h) :
    ∃ hs1, passBidirectionalToken M c h ⟨hs, [(c, ring)], [(c, h)], [(c, d)], hc⟩
        = ⟨hs1, [(c, ring)], [(c, next)], [(c, d1)], hc⟩ ∧
      (mapAt BMACState.zero hs1 next).current_state = BMAC_TOKEN_HOLD ∧
      (mapAt BMACState.zero hs1 h).current_state = BMAC_IDLE ∧
      (mapAt BMACState.zero hs1 h).has_token = false ∧
      ∀ x, x ≠ next → x ≠ h → mapAt BMACState.zero hs1 x = mapAt BMACState.zero hs x := by
  obtain ⟨hs0, rev0, e, frame, formula⟩ := passBidirectionalToken_single M c h h d hs ring hc
  rw [e] at hrev
  have hrev0 : rev0 = rev := hrev
  subst hrev0
  refine ⟨_, formula d1 next hd1 hnext.symm hv, ?_, ?_, ?_, ?_⟩
  · rw [mapAt_mapSet, if_pos rfl]
    rfl
  · rw [mapAt_mapSet, if_neg (fun hEq => hne hEq.symm), mapAt_mapSet, if_pos rfl]
    rfl
  · rw [mapAt_mapSet, if_neg (fun hEq => hne hEq.symm), mapAt_mapSet, if_pos rfl]
    rfl
  · intro x hx1 hx2
    rw [mapAt_mapSet, if_neg hx1, mapAt_mapSet, if_neg hx2, frame]

theorem configureHubs_has_token (hub_order : List Int) (x : Int) :
    ∀ (l : List Int) (i : Nat) (hs : List (Int × BMACState)), 1 ≤ i →
      (mapAt BMACState.zero hs x).has_token = false →
      (mapAt BMACState.zero (configureHubs hub_order l i hs) x).has_token = false := by
  intro l
  induction l with
  | nil => intro i hs _ h; exact h
  | cons hub rest ih =>
    intro i hs hi h
    simp only [configureHubs]
    apply ih (i + 1) _ (by omega)
    rw [mapAt_mapSet]
    split
    · show decide (i = 0) = false
      exact decide_eq_false (by omega)
    · exact h

theorem configureHubs_has_token_head (hub_order : List Int) (x hub : Int) (rest : List Int)
    (hs : List (Int × BMACState)) (hx : x ≠ hub)
    (h : (mapAt BMACState.zero hs x).has_token = false) :
    (mapAt BMACState.zero (configureHubs hub_order (hub :: rest) 0 hs) x).has_token = false := by
  simp only [configureHubs]
  apply configureHubs_has_token _ _ _ _ _ (le_refl 1)
  rw [mapAt_mapSet, if_neg hx]
  exact h

theorem enableHubs_has_token (enable : Bool) (x : Int) :
    ∀ (l : List Int) (hs : List (Int × BMACState)),
      (mapAt BMACState.zero hs x).has_token = false →
      (mapAt BMACState.zero (enableHubs enable l hs) x).has_token = false := by
  intro l
  induction l with
  | nil => intro hs h; exact h
  | cons hub rest ih =>
    intro hs h
    simp only [enableHubs]
    apply ih
    rw [mapAt_mapSet]
    split
    · rename_i hx
      rw [hx] at h
      exact h
    · exact h

/-- The initial state of the controller on the ring `[0, ..., n - 1]`. -/
theorem pingPong_init (c : Int) (cfg : ChannelConfig) (n : Nat) (hn : 2 ≤ n)
    (htag : cfg.tag = some BMAC_BIDIRECTIONAL) (hring : cfg.tokenRingOrder = ringUpTo n)
    (hubcfg : List (Int × Int)) : PingPong c n (BMACController.init [(c, cfg)] hubcfg) := by
  have hfresh := fresh_init [(c, cfg)] hubcfg
  have hho : cfg.hubOrder = ringUpTo n := by
    unfold ChannelConfig.hubOrder
    rw [hring, ringUpTo_length, if_pos (by omega)]
  obtain ⟨m, rfl⟩ : ∃ m, n = m + 2 := ⟨n - 2, by omega⟩
  rw [init_single c cfg hubcfg htag, hho] at hfresh ⊢
  have hhead : (ringUpTo (m + 2)).headD 0 = 0 := by rw [ringUpTo_cons]; rfl
  rw [hhead]
  refine ⟨_, 0, BMAC_CLOCKWISE, hubcfg, rfl, ?_, Or.inl ⟨rfl, rfl, (hfresh 0).1⟩⟩
  intro x hx
  refine ⟨(hfresh x).1, ?_⟩
  apply enableHubs_has_token
  rw [ringUpTo_cons]
  exact configureHubs_has_token_head _ x 0 _ [] hx rfl

/-- A clock edge with `reset` low keeps the token of the ring `[0, ..., n - 1]` at hub 0
or hub 1. -/
theorem pingPong_step (M : Consts) (hNV : M.NOT_VALID < 0) (c : Int) (n : Nat) (hn : 2 ≤ n)
    (hlen : n < 2 ^ 31) (b : BMACController) (hp : PingPong c n b) :
    PingPong c n (bmacProcess M false b) := by
  obtain ⟨m, rfl⟩ : ∃ m, n = m + 2 := ⟨n - 2, by omega⟩
  obtain ⟨hs, h, d, hc, hb, hothers, hcase⟩ := hp
  subst hb
  have htl : ((List.range m).map (fun i : Nat => Int.ofNat i + 2)).length + 2 < 2 ^ 31 := by
    simpa using hlen
  have h01 : (0 : Int) ≠ 1 := by decide
  have h10 : (1 : Int) ≠ 0 := by decide
  have hv1 : (1 : Int) ≠ M.NOT_VALID := by omega
  have hv0 : (0 : Int) ≠ M.NOT_VALID := by omega
  have hih : ¬ (BMAC_IDLE = BMAC_TOKEN_HOLD) := by decide
  rw [updateTokenRing_single]
  rcases hcase with ⟨rfl, rfl, hst⟩ | ⟨rfl, rfl, hst⟩ | ⟨rfl, rfl, hst⟩
  · -- hub 0, idle, clockwise: pass to hub 1 without reversal
    rw [hst, if_neg hih, if_pos rfl]
    have hrev : (shouldReverseDirection c 0 ⟨mapTouch BMACState.zero hs 0,
        [(c, ringUpTo (m + 2))], [(c, 0)], [(c, BMAC_CLOCKWISE)], hc⟩).1 = false := by
      apply shouldReverseDirection_idle
      intro x _
      rw [mapAt_mapTouch]
      by_cases hx : x = 0
      · rw [hx]; exact hst
      · exact (hothers x hx).1
    have hnext : getNextHub M ⟨[], [(c, ringUpTo (m + 2))], [], [], []⟩ c 0 BMAC_CLOCKWISE
        = 1 := by
      rw [ringUpTo_cons]
      exact getNextHub_hub0_clockwise M hNV c _ htl
    obtain ⟨hs1, e, p1, p2, p3, p4⟩ := pass_known M c 0 BMAC_CLOCKWISE BMAC_CLOCKWISE
      (mapTouch BMACState.zero hs 0) (ringUpTo (m + 2)) hc false 1 hrev rfl hnext hv1 h10
    rw [e]
    refine ⟨hs1, 1, BMAC_CLOCKWISE, hc, rfl, ?_, Or.inr (Or.inl ⟨rfl, rfl, p1⟩)⟩
    intro x hx
    by_cases hx0 : x = 0
    · rw [hx0]; exact ⟨p2, p3⟩
    · rw [p4 x hx hx0, mapAt_mapTouch]
      exact hothers x hx0
  · -- hub 1 holds the token clockwise
    rw [if_pos hst]
    split
    · have hrev : (shouldReverseDirection c 1 ⟨mapTouch BMACState.zero hs 1,
          [(c, ringUpTo (m + 2))], [(c, 1)], [(c, BMAC_CLOCKWISE)],
          touchHubConfiguration hc 1⟩).1 = true := by
        rw [ringUpTo_cons]
        apply shouldReverseDirection_hub1
        · rw [mapAt_mapTouch]; exact (hothers 0 h01).1
        · rw [mapAt_mapTouch]; exact hst
        · intro x hx
          rw [mapAt_mapTouch]
          exact (hothers x (ringUpTo_tail_ne m x hx).2).1
      have hnext : getNextHub M ⟨[], [(c, ringUpTo (m + 2))], [], [], []⟩ c 1
          BMAC_COUNTERCLOCKWISE = 0 := by
        rw [ringUpTo_cons]
        exact getNextHub_hub1_counterclockwise M hNV c _ htl
      obtain ⟨hs1, e, p1, p2, p3, p4⟩ := pass_known M c 1 BMAC_CLOCKWISE BMAC_COUNTERCLOCKWISE
        (mapTouch BMACState.zero hs 1) (ringUpTo (m + 2)) (touchHubConfiguration hc 1) true 0
        hrev rfl hnext hv0 h01
      rw [e]
      refine ⟨hs1, 0, BMAC_COUNTERCLOCKWISE, _, rfl, ?_, Or.inr (Or.inr ⟨rfl, rfl, p1⟩)⟩
      intro x hx
      by_cases hx1 : x = 1
      · rw [hx1]; exact ⟨p2, p3⟩
      · rw [p4 x hx hx1, mapAt_mapTouch]
        exact hothers x hx1
    · refine ⟨_, 1, BMAC_CLOCKWISE, _, rfl, ?_, Or.inr (Or.inl ⟨rfl, rfl, ?_⟩)⟩
      · intro x hx
        rw [mapAt_mapSet, if_neg hx, mapAt_mapTouch]
        exact hothers x hx
      · rw [mapAt_mapSet, if_pos rfl]
        exact hst
  · -- hub 0 holds the token counter-clockwise
    rw [if_pos hst]
    split
    · have hrev : (shouldReverseDirection c 0 ⟨mapTouch BMACState.zero hs 0,
          [(c, ringUpTo (m + 2))], [(c, 0)], [(c, BMAC_COUNTERCLOCKWISE)],
          touchHubConfiguration hc 0⟩).1 = true := by
        rw [ringUpTo_cons]
        apply shouldReverseDirection_hub0
        · rw [mapAt_mapTouch]; exact hst
        · intro x hx
          rw [mapAt_mapTouch]
          rcases List.mem_cons.mp hx with hx1 | hx2
          · rw [hx1]; exact (hothers 1 h10).1
          · exact (hothers x (ringUpTo_tail_ne m x hx2).1).1
      have hnext : getNextHub M ⟨[], [(c, ringUpTo (m + 2))], [], [], []⟩ c 0 BMAC_CLOCKWISE
          = 1 := by
        rw [ringUpTo_cons]
        exact getNextHub_hub0_clockwise M hNV c _ htl
      obtain ⟨hs1, e, p1, p2, p3, p4⟩ := pass_known M c 0 BMAC_COUNTERCLOCKWISE BMAC_CLOCKWISE
        (mapTouch BMACState.zero hs 0) (ringUpTo (m + 2)) (touchHubConfiguration hc 0) true 1
        hrev rfl hnext hv1 h10
      rw [e]
      refine ⟨hs1, 1, BMAC_CLOCKWISE, _, rfl, ?_, Or.inr (Or.inl ⟨rfl, rfl, p1⟩)⟩
      intro x hx
      by_cases hx0 : x = 0
      · rw [hx0]; exact ⟨p2, p3⟩
      · rw [p4 x hx hx0, mapAt_mapTouch]
        exact hothers x hx0
    · refine ⟨_, 0, BMAC_COUNTERCLOCKWISE, _, rfl, ?_, Or.inr (Or.inr ⟨rfl, rfl, ?_⟩)⟩
      · intro x hx
        rw [mapAt_mapSet, if_neg hx, mapAt_mapTouch]
        exact hothers x hx
      · rw [mapAt_mapSet, if_pos rfl]
        exact hst

theorem pingPong_run (M : Consts) (hNV : M.NOT_VALID < 0) (c : Int) (n : Nat) (hn : 2 ≤ n)
    (hlen : n < 2 ^ 31) :
    ∀ (k : Nat) (b : BMACController), PingPong c n b → PingPong c n (bmacRun M k b) := by
  intro k
  induction k with
  | zero => intro b hp; exact hp
  | succ k ih =>
    intro b hp
    exact ih _ (pingPong_step M hNV c n hn hlen b hp)

/-- In such a state a holder in state `BMAC_TOKEN_HOLD` makes `shouldReverseDirection`
true. -/
theorem pingPong_reverses (c : Int) (n : Nat) (hn : 2 ≤ n) (b : BMACController)
    (hp : PingPong c n b) (h : Int) (hh : mapFind b.current_token_holder c = some h)
    (hst : (hubState b h).current_state = BMAC_TOKEN_HOLD) :
    (shouldReverseDirection c h b).1 = true := by
  obtain ⟨m, rfl⟩ : ∃ m, n = m + 2 := ⟨n - 2, by omega⟩
  obtain ⟨hs, h1, d, hc, hb, hothers, hcase⟩ := hp
  subst hb
  rw [mapFind_single] at hh
  have hh1 : h1 = h := Option.some.inj hh
  subst hh1
  have hst1 : (mapAt BMACState.zero hs h1).current_state = BMAC_TOKEN_HOLD := hst
  have hih : ¬ (BMAC_IDLE = BMAC_TOKEN_HOLD) := by decide
  rcases hcase with ⟨rfl, rfl, hidle⟩ | ⟨rfl, rfl, _⟩ | ⟨rfl, rfl, _⟩
  · rw [hidle] at hst1
    exact absurd hst1 hih
  · rw [ringUpTo_cons]
    apply shouldReverseDirection_hub1
    · exact (hothers 0 (by decide)).1
    · exact hst1
    · intro x hx
      exact (hothers x (ringUpTo_tail_ne m x hx).2).1
  · rw [ringUpTo_cons]
    apply shouldReverseDirection_hub0
    · exact hst1
    · intro x hx
      rcases List.mem_cons.mp hx with hx1 | hx2
      · rw [hx1]; exact (hothers 1 (by decide)).1
      · exact (hothers x (ringUpTo_tail_ne m x hx2).1).1

/-- **C23** (`shouldReverseDirection`, `updateTokenRing`, `passBidirectionalToken`,
`configureBMACRing`). For a single bidirectional channel whose ring is `[0, 1, ..., n - 1]`
with `3 ≤ n < 2^31`, and `NOT_VALID` negative, after any number of clock edges with `reset`
low from the initial state of the controller: the token holder is hub 0 or hub 1; every
other hub is idle and does not have the token; and whenever the holder is in state
`BMAC_TOKEN_HOLD`, `shouldReverseDirection` is true for it, so each of its passes reverses
the direction. -/
theorem bmac_starvation (M : Consts) (hNV : M.NOT_VALID < 0) (c : Int) (cfg : ChannelConfig)
    (n : Nat) (hn : 3 ≤ n) (hlen : n < 2 ^ 31) (htag : cfg.tag = some BMAC_BIDIRECTIONAL)
    (hring : cfg.tokenRingOrder = ringUpTo n) (hubcfg : List (Int × Int)) (k : Nat) :
    (mapFind (bmacRun M k (BMACController.init [(c, cfg)] hubcfg)).current_token_holder c
        = some 0 ∨
      mapFind (bmacRun M k (BMACController.init [(c, cfg)] hubcfg)).current_token_holder c
        = some 1) ∧
    (∀ x : Int, x ≠ 0 → x ≠ 1 →
      (hubState (bmacRun M k (BMACController.init [(c, cfg)] hubcfg)) x).current_state
        = BMAC_IDLE ∧
      (hubState (bmacRun M k (BMACController.init [(c, cfg)] hubcfg)) x).has_token = false) ∧
    ∀ h : Int,
      mapFind (bmacRun M k (BMACController.init [(c, cfg)] hubcfg)).current_token_holder c
        = some h →
      (hubState (bmacRun M k (BMACController.init [(c, cfg)] hubcfg)) h).current_state
        = BMAC_TOKEN_HOLD →
      (shouldReverseDirection c h
        (bmacRun M k (BMACController.init [(c, cfg)] hubcfg))).1 = true := by
  have hp := pingPong_run M hNV c n (by omega) hlen k _
    (pingPong_init c cfg n (by omega) htag hring hubcfg)
  refine ⟨?_, ?_, pingPong_reverses c n (by omega) _ hp⟩
  · obtain ⟨hs, h, d, hc, hb, _, hcase⟩ := hp
    rw [hb]
    rcases hcase with ⟨rfl, _, _⟩ | ⟨rfl, _, _⟩ | ⟨rfl, _, _⟩
    · exact Or.inl (mapFind_single c 0)
    · exact Or.inr (mapFind_single c 1)
    · exact Or.inl (mapFind_single c 0)
  · intro x hx0 hx1
    obtain ⟨hs, h, d, hc, hb, hothers, hcase⟩ := hp
    rw [hb]
    have hxh : x ≠ h := by
      rcases hcase with ⟨rfl, _, _⟩ | ⟨rfl, _, _⟩ | ⟨rfl, _, _⟩
      · exact hx0
      · exact hx1
      · exact hx0
    exact hothers x hxh

/-- Witness of **C23**: scenario D, ring `[0, 1, 2, 3]`, after 100 clock edges. -/
theorem bmac_starvation_witness :
    (mapFind (bmacRun sampleConsts 100 (BMACController.init scenarioD [])).current_token_holder
        0 = some 0 ∨
      mapFind (bmacRun sampleConsts 100 (BMACController.init scenarioD [])).current_token_holder
        0 = some 1) ∧
    ∀ x : Int, x ≠ 0 → x ≠ 1 →
      (hubState (bmacRun sampleConsts 100 (BMACController.init scenarioD [])) x).current_state
        = BMAC_IDLE ∧
      (hubState (bmacRun sampleConsts 100 (BMACController.init scenarioD [])) x).has_token
        = false :=
  ⟨(bmac_starvation sampleConsts (by decide) 0 ⟨["BMAC_BIDIRECTIONAL", "10"], 0, [0, 1, 2, 3]⟩
      4 (by decide) (by decide) (by decide) (by decide) [] 100).1,
    (bmac_starvation sampleConsts (by decide) 0 ⟨["BMAC_BIDIRECTIONAL", "10"], 0, [0, 1, 2, 3]⟩
      4 (by decide) (by decide) (by decide) (by decide) [] 100).2.1⟩

end WiNoC
